import Mathlib

/-!
# SQL lexer and parser: a shallow embedding

The lexer of `src/parser/lexer.cpp` and the parser of `src/parser/parser.cpp`
as Lean functions over explicit state.

* A `std::string` is a `List Char`; one `Char` stands for one `char`. The
  classes of `<cctype>` are those of the "C" locale: a character outside
  ASCII is in none of them.
* The object state of `Lexer` (`input`, `position`) and of `Parser`
  (`tokens`, `current`) is passed explicitly, every member function returns
  the state it leaves behind.
* Every `while` loop is a function recursive on a fuel counter; running out
  of fuel is `none` (lexer) or `ParseError.outOfFuel` (parser), so a result
  `some _` or `ok _` always is a result the loop itself has produced.
* An index outside a `std::vector` is the result `ParseError.outOfBounds`.
-/

namespace SqlParser

/-! ## Tokens (`include/parser/token.h`) -/

/-- The enumeration `TokenType`. -/
inductive TokenType
  | SELECT | FROM | WHERE | INSERT | INTO | VALUES
  | CREATE | TABLE | DELETE | UPDATE | SET
  | AND | OR | NOT
  | NUMBER | STRING | IDENTIFIER
  | EQUALS | NOT_EQUALS | LESS_THAN | GREATER_THAN | LESS_EQUAL | GREATER_EQUAL
  | PLUS | MINUS | STAR | SLASH
  | COMMA | SEMICOLON | LEFT_PAREN | RIGHT_PAREN
  | END_OF_FILE | INVALID
  deriving DecidableEq, Repr

/-- The struct `Token`: kind, text and offset. -/
structure Token where
  type : TokenType
  value : List Char
  position : Nat
  deriving DecidableEq, Repr

/-! ## Character classes of `<cctype>`, "C" locale -/

/-- The function `std::isspace`: space, and the controls `\t \n \v \f \r`. -/
def isspace (c : Char) : Bool :=
  c.toNat == 32 || (9 ≤ c.toNat && c.toNat ≤ 13)

/-- The function `std::isdigit`: `0` to `9`. -/
def isdigit (c : Char) : Bool :=
  48 ≤ c.toNat && c.toNat ≤ 57

/-- The function `std::isalpha`: `A` to `Z` and `a` to `z`. -/
def isalpha (c : Char) : Bool :=
  (65 ≤ c.toNat && c.toNat ≤ 90) || (97 ≤ c.toNat && c.toNat ≤ 122)

/-- The function `std::isalnum`: a letter or a digit. -/
def isalnum (c : Char) : Bool :=
  isalpha c || isdigit c

/-- The function `::toupper`: `a` to `z` go to `A` to `Z`, the rest stays. -/
def toupper (c : Char) : Char :=
  if 97 ≤ c.toNat ∧ c.toNat ≤ 122 then Char.ofNat (c.toNat - 32) else c

/-- The single quote, which opens and closes a string literal. -/
def quote : Char := Char.ofNat 39

/-- The backslash, the escape character of a string literal. -/
def backslash : Char := Char.ofNat 92

/-- The call `input[i]` on a `std::string`: the character at `i`, and the
terminating null character at `i = input.length()`. The lexer reads it only
at `i < input.length()`. -/
def charAt (input : List Char) (i : Nat) : Char :=
  input.getD i (Char.ofNat 0)

/-- The call `input.substr(start, n)`. -/
def substr (input : List Char) (start n : Nat) : List Char :=
  (input.drop start).take n

/-! ## Lexer (`src/parser/lexer.cpp`) -/

/-- The members of class `Lexer`. -/
structure Lexer where
  input : List Char
  position : Nat
  deriving DecidableEq, Repr

/-- The constructor `Lexer::Lexer(sql)`. -/
def Lexer.new (sql : List Char) : Lexer :=
  { input := sql, position := 0 }

/-- The table `keywords` of `Lexer::getKeywordType`. -/
def keywords : List (List Char × TokenType) :=
  [ ("SELECT".toList, TokenType.SELECT), ("FROM".toList, TokenType.FROM),
    ("WHERE".toList, TokenType.WHERE), ("INSERT".toList, TokenType.INSERT),
    ("INTO".toList, TokenType.INTO), ("VALUES".toList, TokenType.VALUES),
    ("CREATE".toList, TokenType.CREATE), ("TABLE".toList, TokenType.TABLE),
    ("DELETE".toList, TokenType.DELETE), ("UPDATE".toList, TokenType.UPDATE),
    ("SET".toList, TokenType.SET), ("AND".toList, TokenType.AND),
    ("OR".toList, TokenType.OR), ("NOT".toList, TokenType.NOT) ]

/-- The function `Lexer::getKeywordType`: upper-case the word, look it up. -/
def getKeywordType (word : List Char) : TokenType :=
  let upper := word.map toupper
  match keywords.lookup upper with
  | some t => t
  | none => TokenType.IDENTIFIER

/-- The loop `while (position < input.length() && p(input[position])) position++`
of `readNumber` and `readIdentifierOrKeyword`; the result is the position
the loop stops at. -/
def advanceWhile (p : Char → Bool) (input : List Char) : Nat → Nat → Option Nat
  | 0, _ => none
  | fuel + 1, position =>
    if position < input.length && p (charAt input position) then
      advanceWhile p input fuel (position + 1)
    else
      some position

/-- The function `Lexer::readNumber`. -/
def Lexer.readNumber (lx : Lexer) : Option (Token × Lexer) :=
  let start := lx.position
  match advanceWhile (fun c => isdigit c || c == '.') lx.input
      (lx.input.length - lx.position + 1) lx.position with
  | none => none
  | some position =>
    some (⟨TokenType.NUMBER, substr lx.input start (position - start), start⟩,
          { lx with position := position })

/-- The function `Lexer::readIdentifierOrKeyword`. -/
def Lexer.readIdentifierOrKeyword (lx : Lexer) : Option (Token × Lexer) :=
  let start := lx.position
  match advanceWhile (fun c => isalnum c || c == '_') lx.input
      (lx.input.length - lx.position + 1) lx.position with
  | none => none
  | some position =>
    let value := substr lx.input start (position - start)
    let type := getKeywordType value
    some (⟨type, value, start⟩, { lx with position := position })

/-- The loop of `Lexer::readString`; the result is the position the loop
stops at and the text collected in `value`. -/
def readStringLoop (input : List Char) : Nat → Nat → List Char → Option (Nat × List Char)
  | 0, _, _ => none
  | fuel + 1, position, value =>
    if position < input.length && charAt input position != quote then
      let position1 :=
        if charAt input position == backslash && position + 1 < input.length then
          position + 1
        else
          position
      readStringLoop input fuel (position1 + 1) (value ++ [charAt input position1])
    else
      some (position, value)

/-- The function `Lexer::readString`. -/
def Lexer.readString (lx : Lexer) : Option (Token × Lexer) :=
  let start := lx.position
  match readStringLoop lx.input (lx.input.length - lx.position + 1) (lx.position + 1) [] with
  | none => none
  | some (position, value) =>
    let position := if position < lx.input.length then position + 1 else position
    some (⟨TokenType.STRING, value, start⟩, { lx with position := position })

/-- The function `Lexer::readOperator`. The test `followedByEq` is
`position < input.length() && input[position] == '='` of the cases `<`, `>`
and `!`, taken after `position++`. The case `!` without a following `=` has
no `return` of its own and falls through to `default`. -/
def Lexer.readOperator (lx : Lexer) : Token × Lexer :=
  let input := lx.input
  let start := lx.position
  let current := charAt input lx.position
  let position := lx.position + 1
  let followedByEq : Bool := position < input.length && charAt input position == '='
  match current with
  | '=' => (⟨TokenType.EQUALS, ['='], start⟩, { lx with position := position })
  | ',' => (⟨TokenType.COMMA, [','], start⟩, { lx with position := position })
  | ';' => (⟨TokenType.SEMICOLON, [';'], start⟩, { lx with position := position })
  | '(' => (⟨TokenType.LEFT_PAREN, ['('], start⟩, { lx with position := position })
  | ')' => (⟨TokenType.RIGHT_PAREN, [')'], start⟩, { lx with position := position })
  | '*' => (⟨TokenType.STAR, ['*'], start⟩, { lx with position := position })
  | '+' => (⟨TokenType.PLUS, ['+'], start⟩, { lx with position := position })
  | '-' => (⟨TokenType.MINUS, ['-'], start⟩, { lx with position := position })
  | '/' => (⟨TokenType.SLASH, ['/'], start⟩, { lx with position := position })
  | '<' =>
    if followedByEq then
      (⟨TokenType.LESS_EQUAL, ['<', '='], start⟩, { lx with position := position + 1 })
    else
      (⟨TokenType.LESS_THAN, ['<'], start⟩, { lx with position := position })
  | '>' =>
    if followedByEq then
      (⟨TokenType.GREATER_EQUAL, ['>', '='], start⟩, { lx with position := position + 1 })
    else
      (⟨TokenType.GREATER_THAN, ['>'], start⟩, { lx with position := position })
  | '!' =>
    if followedByEq then
      (⟨TokenType.NOT_EQUALS, ['!', '='], start⟩, { lx with position := position + 1 })
    else
      (⟨TokenType.INVALID, [current], start⟩, { lx with position := position })
  | _ => (⟨TokenType.INVALID, [current], start⟩, { lx with position := position })

/-- One pass of the `while` loop of `Lexer::tokenize`, entered with
`position < input.length()`: the token the pass pushes, if any, and the
state after the pass. -/
def Lexer.scanPass (lx : Lexer) : Option (Option Token × Lexer) :=
  let current := charAt lx.input lx.position
  if isspace current then
    some (none, { lx with position := lx.position + 1 })
  else if isdigit current then
    lx.readNumber.map fun r => (some r.1, r.2)
  else if isalpha current || current == '_' then
    lx.readIdentifierOrKeyword.map fun r => (some r.1, r.2)
  else if current == quote then
    lx.readString.map fun r => (some r.1, r.2)
  else
    let r := lx.readOperator
    some (some r.1, r.2)

/-- The `while` loop of `Lexer::tokenize`. -/
def tokenizeLoop : Nat → Lexer → List Token → Option (List Token × Lexer)
  | 0, _, _ => none
  | fuel + 1, lx, tokens =>
    if lx.position < lx.input.length then
      match lx.scanPass with
      | none => none
      | some (tok, lx1) => tokenizeLoop fuel lx1 (tokens ++ tok.toList)
    else
      some (tokens, lx)

/-- The function `Lexer::tokenize`: the tokens, and the lexer object after
the call. -/
def Lexer.tokenize (lx : Lexer) : Option (List Token × Lexer) :=
  match tokenizeLoop (lx.input.length - lx.position + 1) lx [] with
  | none => none
  | some (tokens, lx1) =>
    some (tokens ++ [⟨TokenType.END_OF_FILE, [], lx1.position⟩], lx1)

/-- Tokenizing a text as `main` does: `Lexer lexer(sql); lexer.tokenize()`. -/
def tokenize (sql : List Char) : Option (List Token) :=
  (Lexer.new sql).tokenize.map Prod.fst

/-! ## Syntax trees (`include/parser/ast.h`) -/

/-- The enumeration `LiteralExpression::Type`. -/
inductive LiteralType
  | NUMBER | STRING
  deriving DecidableEq, Repr

/-- The enumeration `BinaryExpression::Operator`. -/
inductive Operator
  | EQUALS | NOT_EQUALS | LESS_THAN | GREATER_THAN
  | LESS_EQUAL | GREATER_EQUAL | AND | OR
  | PLUS | MINUS | MULTIPLY | DIVIDE
  deriving DecidableEq, Repr

/-- The classes derived from `Expression`, one constructor each, with the
members of the class as arguments. -/
inductive Expression
  | ColumnExpression (column_name : List Char)
  | LiteralExpression (value : List Char) (type : LiteralType)
  | BinaryExpression (left right : Expression) (op : Operator)
  deriving DecidableEq, Repr

/-- The classes derived from `Statement`; a null `where_clause` is `none`. -/
inductive Statement
  | SelectStatement (columns : List Expression) (table_name : List Char)
      (where_clause : Option Expression)
  | InsertStatement (table_name : List Char) (columns : List (List Char))
      (values : List Expression)
  deriving DecidableEq, Repr

/-! ## Parser (`src/parser/parser.cpp`) -/

deriving instance DecidableEq for Except


/-- How a call of the parser ends when it returns no value:
`throw std::runtime_error(what)`, an index outside the token vector,
or the fuel of the embedding used up. -/
inductive ParseError
  | runtime_error (what : String)
  | outOfBounds
  | outOfFuel
  deriving DecidableEq, Repr

/-- The members of class `Parser`. -/
structure Parser where
  tokens : List Token
  current : Nat
  deriving DecidableEq, Repr

/-- The constructor `Parser::Parser(toks)`. -/
def Parser.new (toks : List Token) : Parser :=
  { tokens := toks, current := 0 }

/-- The function `Parser::peek`: `tokens[current]`, unchecked in the source. -/
def Parser.peek (p : Parser) : Except ParseError Token :=
  match p.tokens[p.current]? with
  | some t => pure t
  | none => throw ParseError.outOfBounds

/-- The function `Parser::advance`: the current token and a step forward, or
`tokens.back()` with the cursor left in place once it is at the end. -/
def Parser.advance (p : Parser) : Except ParseError (Token × Parser) :=
  if p.current < p.tokens.length then
    match p.tokens[p.current]? with
    | some t => pure (t, { p with current := p.current + 1 })
    | none => throw ParseError.outOfBounds
  else
    match p.tokens.getLast? with
    | some t => pure (t, p)
    | none => throw ParseError.outOfBounds

/-- The function `Parser::match`. -/
def Parser.matchToken (p : Parser) (type : TokenType) : Except ParseError (Bool × Parser) := do
  let t ← p.peek
  if t.type = type then
    let (_, p) ← p.advance
    pure (true, p)
  else
    pure (false, p)

/-- The function `Parser::check`. -/
def Parser.check (p : Parser) (type : TokenType) : Except ParseError Bool := do
  let t ← p.peek
  pure (decide (t.type = type))

/-- The `do ... while (match(COMMA))` loop of `Parser::parseColumnList`, with
the vector `columns` built so far. -/
def parseColumnListLoop :
    Nat → Parser → List Expression → Except ParseError (List Expression × Parser)
  | 0, _, _ => throw ParseError.outOfFuel
  | fuel + 1, p, columns => do
    let (columns, p) ←
      if (← p.peek).type = TokenType.STAR then do
        let (_, p) ← p.advance
        pure (columns ++ [Expression.ColumnExpression ['*']], p)
      else if (← p.peek).type = TokenType.IDENTIFIER then do
        let (t, p) ← p.advance
        pure (columns ++ [Expression.ColumnExpression t.value], p)
      else
        throw (ParseError.runtime_error "Expected column name or *")
    let (m, p) ← p.matchToken TokenType.COMMA
    if m then parseColumnListLoop fuel p columns else pure (columns, p)

/-- The function `Parser::parseColumnList`. -/
def Parser.parseColumnList (fuel : Nat) (p : Parser) :
    Except ParseError (List Expression × Parser) :=
  parseColumnListLoop fuel p []

mutual

/-- The function `Parser::parseExpression`. -/
def parseExpression : Nat → Parser → Except ParseError (Expression × Parser)
  | 0, _ => throw ParseError.outOfFuel
  | fuel + 1, p => parseOr fuel p

/-- The function `Parser::parseOr`. -/
def parseOr : Nat → Parser → Except ParseError (Expression × Parser)
  | 0, _ => throw ParseError.outOfFuel
  | fuel + 1, p => do
    let (left, p) ← parseAnd fuel p
    parseOrLoop fuel p left

/-- The `while (match(OR))` loop of `Parser::parseOr`. -/
def parseOrLoop : Nat → Parser → Expression → Except ParseError (Expression × Parser)
  | 0, _, _ => throw ParseError.outOfFuel
  | fuel + 1, p, left => do
    let (m, p) ← p.matchToken TokenType.OR
    if m then
      let (right, p) ← parseAnd fuel p
      parseOrLoop fuel p (Expression.BinaryExpression left right Operator.OR)
    else
      pure (left, p)

/-- The function `Parser::parseAnd`. -/
def parseAnd : Nat → Parser → Except ParseError (Expression × Parser)
  | 0, _ => throw ParseError.outOfFuel
  | fuel + 1, p => do
    let (left, p) ← parseComparison fuel p
    parseAndLoop fuel p left

/-- The `while (match(AND))` loop of `Parser::parseAnd`. -/
def parseAndLoop : Nat → Parser → Expression → Except ParseError (Expression × Parser)
  | 0, _, _ => throw ParseError.outOfFuel
  | fuel + 1, p, left => do
    let (m, p) ← p.matchToken TokenType.AND
    if m then
      let (right, p) ← parseComparison fuel p
      parseAndLoop fuel p (Expression.BinaryExpression left right Operator.AND)
    else
      pure (left, p)

/-- The function `Parser::parseComparison`. -/
def parseComparison : Nat → Parser → Except ParseError (Expression × Parser)
  | 0, _ => throw ParseError.outOfFuel
  | fuel + 1, p => do
    let (left, p) ← parsePrimary fuel p
    let (m, p) ← p.matchToken TokenType.EQUALS
    if m then
      let (right, p) ← parsePrimary fuel p
      pure (Expression.BinaryExpression left right Operator.EQUALS, p)
    else
    let (m, p) ← p.matchToken TokenType.NOT_EQUALS
    if m then
      let (right, p) ← parsePrimary fuel p
      pure (Expression.BinaryExpression left right Operator.NOT_EQUALS, p)
    else
    let (m, p) ← p.matchToken TokenType.LESS_THAN
    if m then
      let (right, p) ← parsePrimary fuel p
      pure (Expression.BinaryExpression left right Operator.LESS_THAN, p)
    else
    let (m, p) ← p.matchToken TokenType.GREATER_THAN
    if m then
      let (right, p) ← parsePrimary fuel p
      pure (Expression.BinaryExpression left right Operator.GREATER_THAN, p)
    else
    let (m, p) ← p.matchToken TokenType.LESS_EQUAL
    if m then
      let (right, p) ← parsePrimary fuel p
      pure (Expression.BinaryExpression left right Operator.LESS_EQUAL, p)
    else
    let (m, p) ← p.matchToken TokenType.GREATER_EQUAL
    if m then
      let (right, p) ← parsePrimary fuel p
      pure (Expression.BinaryExpression left right Operator.GREATER_EQUAL, p)
    else
      pure (left, p)

/-- The function `Parser::parsePrimary`. -/
def parsePrimary : Nat → Parser → Except ParseError (Expression × Parser)
  | 0, _ => throw ParseError.outOfFuel
  | fuel + 1, p => do
    if (← p.peek).type = TokenType.NUMBER then
      let (t, p) ← p.advance
      pure (Expression.LiteralExpression t.value LiteralType.NUMBER, p)
    else if (← p.peek).type = TokenType.STRING then
      let (t, p) ← p.advance
      pure (Expression.LiteralExpression t.value LiteralType.STRING, p)
    else if (← p.peek).type = TokenType.IDENTIFIER then
      let (t, p) ← p.advance
      pure (Expression.ColumnExpression t.value, p)
    else
      let (m, p) ← p.matchToken TokenType.LEFT_PAREN
      if m then
        let (expr, p) ← parseExpression fuel p
        let (m, p) ← p.matchToken TokenType.RIGHT_PAREN
        if m then
          pure (expr, p)
        else
          throw (ParseError.runtime_error "Expected closing parenthesis")
      else
        throw (ParseError.runtime_error "Expected expression")

end

/-- The function `Parser::parseSelect`. -/
def Parser.parseSelect (fuel : Nat) (p : Parser) : Except ParseError (Statement × Parser) := do
  let (columns, p) ← p.parseColumnList fuel
  let (m, p) ← p.matchToken TokenType.FROM
  if m then
    if (← p.peek).type = TokenType.IDENTIFIER then
      let (t, p) ← p.advance
      let table_name := t.value
      let (m, p) ← p.matchToken TokenType.WHERE
      if m then
        let (where_clause, p) ← parseExpression fuel p
        pure (Statement.SelectStatement columns table_name (some where_clause), p)
      else
        pure (Statement.SelectStatement columns table_name none, p)
    else
      throw (ParseError.runtime_error "Expected table name")
  else
    throw (ParseError.runtime_error "Expected FROM keyword")

/-- The first `do ... while (match(COMMA))` loop of `Parser::parseInsert`,
over the column names. -/
def parseInsertColumnsLoop :
    Nat → Parser → List (List Char) → Except ParseError (List (List Char) × Parser)
  | 0, _, _ => throw ParseError.outOfFuel
  | fuel + 1, p, columns => do
    if (← p.peek).type = TokenType.IDENTIFIER then
      let (t, p) ← p.advance
      let columns := columns ++ [t.value]
      let (m, p) ← p.matchToken TokenType.COMMA
      if m then parseInsertColumnsLoop fuel p columns else pure (columns, p)
    else
      throw (ParseError.runtime_error "Expected column name")

/-- The second `do ... while (match(COMMA))` loop of `Parser::parseInsert`,
over the values. -/
def parseInsertValuesLoop :
    Nat → Parser → List Expression → Except ParseError (List Expression × Parser)
  | 0, _, _ => throw ParseError.outOfFuel
  | fuel + 1, p, values => do
    let (e, p) ← parsePrimary fuel p
    let values := values ++ [e]
    let (m, p) ← p.matchToken TokenType.COMMA
    if m then parseInsertValuesLoop fuel p values else pure (values, p)

/-- The function `Parser::parseInsert`. -/
def Parser.parseInsert (fuel : Nat) (p : Parser) : Except ParseError (Statement × Parser) := do
  let (m, p) ← p.matchToken TokenType.INTO
  if m then
    if (← p.peek).type = TokenType.IDENTIFIER then
      let (t, p) ← p.advance
      let table_name := t.value
      let (m, p) ← p.matchToken TokenType.LEFT_PAREN
      let (columns, p) ←
        if m then do
          let (columns, p) ← parseInsertColumnsLoop fuel p []
          let (m, p) ← p.matchToken TokenType.RIGHT_PAREN
          if m then
            pure (columns, p)
          else
            throw (ParseError.runtime_error "Expected closing parenthesis")
        else
          pure ([], p)
      let (m, p) ← p.matchToken TokenType.VALUES
      if m then
        let (m, p) ← p.matchToken TokenType.LEFT_PAREN
        if m then
          let (values, p) ← parseInsertValuesLoop fuel p []
          let (m, p) ← p.matchToken TokenType.RIGHT_PAREN
          if m then
            pure (Statement.InsertStatement table_name columns values, p)
          else
            throw (ParseError.runtime_error "Expected closing parenthesis")
        else
          throw (ParseError.runtime_error "Expected opening parenthesis")
      else
        throw (ParseError.runtime_error "Expected VALUES")
    else
      throw (ParseError.runtime_error "Expected table name")
  else
    throw (ParseError.runtime_error "Expected INTO after INSERT")

/-- The function `Parser::parse`, its loops and recursive calls run with the
given fuel. -/
def Parser.parse (fuel : Nat) (p : Parser) : Except ParseError (Statement × Parser) := do
  let (m, p) ← p.matchToken TokenType.SELECT
  if m then
    p.parseSelect fuel
  else
    let (m, p) ← p.matchToken TokenType.INSERT
    if m then
      p.parseInsert fuel
    else
      throw (ParseError.runtime_error "Expected SELECT or INSERT statement")

/-- The fuel `parse` runs with. A loop pass or a nested call uses one unit;
a pass of a loop consumes a token, and the five nested calls from
`parsePrimary` back to `parsePrimary` consume a `(`. -/
def parseFuel (toks : List Token) : Nat :=
  5 * toks.length + 8

/-- Parsing a token vector as `main` does: `Parser parser(tokens); parser.parse()`. -/
def parse (toks : List Token) : Except ParseError Statement :=
  (Parser.parse (parseFuel toks) (Parser.new toks)).map Prod.fst

/-- The chain of `main`: tokenize the text, parse the tokens. -/
def parseSql (sql : List Char) : Option (Except ParseError Statement) :=
  (tokenize sql).map parse

/-! ## Definitions used to state the properties -/

/-- What every token pushed by a pass of the scan loop satisfies: it is no
END_OF_FILE, it starts inside the input, its text is the piece of the input
at its position unless it is a STRING, and a STRING starts at a quote. -/
def TokenAt (input : List Char) (t : Token) : Prop :=
  t.type ≠ TokenType.END_OF_FILE ∧ t.position < input.length ∧
    (t.type ≠ TokenType.STRING → substr input t.position t.value.length = t.value) ∧
    (t.type = TokenType.STRING → input[t.position]? = some quote)

/-- The escaping of C4: a backslash goes before each single quote and each
backslash. -/
def esc (s : List Char) : List Char :=
  s.flatMap fun c => if c = quote ∨ c = backslash then [backslash, c] else [c]

/-- The expression `parseColumnList` pushes for a projection token. -/
def projectionOf (t : Token) : Expression :=
  if t.type = TokenType.STAR then Expression.ColumnExpression ['*']
  else Expression.ColumnExpression t.value

/-- The node `parsePrimary` returns for a NUMBER, STRING or IDENTIFIER token:
a LiteralExpression with the raw text and the literal kind of the token, or
a ColumnExpression with the text. -/
def primaryOf (t : Token) : Expression :=
  if t.type = TokenType.NUMBER then Expression.LiteralExpression t.value LiteralType.NUMBER
  else if t.type = TokenType.STRING then Expression.LiteralExpression t.value LiteralType.STRING
  else Expression.ColumnExpression t.value

/-- A token that is a primary by itself: NUMBER, STRING or IDENTIFIER. -/
def isPrimaryToken (t : Token) : Prop :=
  t.type = TokenType.NUMBER ∨ t.type = TokenType.STRING ∨ t.type = TokenType.IDENTIFIER

/-- The operator of a comparison token `= != < > <= >=`, `none` for every
other kind of token. -/
def comparisonOf : TokenType → Option Operator
  | TokenType.EQUALS => some Operator.EQUALS
  | TokenType.NOT_EQUALS => some Operator.NOT_EQUALS
  | TokenType.LESS_THAN => some Operator.LESS_THAN
  | TokenType.GREATER_THAN => some Operator.GREATER_THAN
  | TokenType.LESS_EQUAL => some Operator.LESS_EQUAL
  | TokenType.GREATER_EQUAL => some Operator.GREATER_EQUAL
  | _ => none

/-- The tokens `x` are a comparison with tree `e`: wherever they stand, before
a token that is no comparison operator, `parseComparison` consumes exactly
them and returns `e`. -/
def ParsesComparison (x : List Token) (e : Expression) : Prop :=
  ∀ (pre post : List Token) (y : Token) (fuel : Nat), 5 * x.length ≤ fuel →
    comparisonOf y.type = none →
    parseComparison fuel ⟨pre ++ (x ++ y :: post), pre.length⟩ =
      Except.ok (e, ⟨pre ++ (x ++ y :: post), pre.length + x.length⟩)

/-- The kinds of token that some production of the parser consumes. No
production consumes a token of another kind: CREATE, TABLE, DELETE, UPDATE,
SET, NOT, PLUS, MINUS, SLASH, SEMICOLON, END_OF_FILE, INVALID. -/
def consumable : TokenType → Bool
  | TokenType.SELECT | TokenType.INSERT | TokenType.STAR | TokenType.IDENTIFIER
  | TokenType.COMMA | TokenType.FROM | TokenType.WHERE | TokenType.INTO | TokenType.VALUES
  | TokenType.LEFT_PAREN | TokenType.RIGHT_PAREN | TokenType.NUMBER | TokenType.STRING
  | TokenType.OR | TokenType.AND | TokenType.EQUALS | TokenType.NOT_EQUALS
  | TokenType.LESS_THAN | TokenType.GREATER_THAN | TokenType.LESS_EQUAL
  | TokenType.GREATER_EQUAL => true
  | _ => false

/-- Two token vectors with the same tokens below index `j` and, at `j`, a
token each of a kind that no production consumes. -/
structure Barrier (toks1 toks2 : List Token) (j : Nat) : Prop where
  agree : ∀ i, i < j → toks1[i]? = toks2[i]?
  stop1 : ∃ t, toks1[j]? = some t ∧ consumable t.type = false
  stop2 : ∃ t, toks2[j]? = some t ∧ consumable t.type = false

/-- The results `r1`, on the first vector, and `r2`, on the second, of a call
that starts at cursor `c`: `r1` ran out of fuel, which it may only when
`enough` does not hold; or both threw the same `runtime_error`; or both
returned the same value with the same cursor `c1`, `c ≤ c1 ≤ j`. In no case
has the first call read outside the vector. -/
def Outcome {α : Type} (toks1 toks2 : List Token) (j : Nat) (enough : Prop) (c : Nat)
    (r1 r2 : Except ParseError (α × Parser)) : Prop :=
  (r1 = Except.error ParseError.outOfFuel ∧ ¬ enough) ∨
  (∃ what, r1 = Except.error (ParseError.runtime_error what) ∧
    r2 = Except.error (ParseError.runtime_error what)) ∨
  (∃ a c1, c ≤ c1 ∧ c1 ≤ j ∧ r1 = Except.ok (a, ⟨toks1, c1⟩) ∧
    r2 = Except.ok (a, ⟨toks2, c1⟩))

/-- The arithmetic operators of `BinaryExpression::Operator`. -/
def isArithmetic : Operator → Bool
  | Operator.PLUS | Operator.MINUS | Operator.MULTIPLY | Operator.DIVIDE => true
  | _ => false

/-- The six comparison operators, AND and OR. -/
def isComparisonOrLogical : Operator → Bool
  | Operator.EQUALS | Operator.NOT_EQUALS | Operator.LESS_THAN | Operator.GREATER_THAN
  | Operator.LESS_EQUAL | Operator.GREATER_EQUAL | Operator.AND | Operator.OR => true
  | _ => false

/-- Every BinaryExpression of the tree, at any depth, has a comparison
operator, AND or OR, and none has an arithmetic operator. -/
def noArithmetic : Expression → Bool
  | Expression.ColumnExpression _ => true
  | Expression.LiteralExpression _ _ => true
  | Expression.BinaryExpression left right op =>
    isComparisonOrLogical op && !isArithmetic op && noArithmetic left && noArithmetic right

/-- The same for the trees of a statement: the projections and the predicate
of a SELECT, the values of an INSERT. -/
def statementNoArithmetic : Statement → Bool
  | Statement.SelectStatement columns _ where_clause =>
    columns.all noArithmetic &&
      (match where_clause with
      | none => true
      | some e => noArithmetic e)
  | Statement.InsertStatement _ _ values => values.all noArithmetic

/-- Every value that the call returns satisfies `P`. -/
def Returns {β : Type} (P : β → Prop) (r : Except ParseError β) : Prop :=
  ∀ b, r = Except.ok b → P b

/-! ## The lexer: loops and single passes -/

theorem charAt_of_lt {input : List Char} {i : Nat} (h : i < input.length) :
    charAt input i = input[i] := by
  simp [charAt, h]

theorem advanceWhile_eq (p : Char → Bool) (input : List Char) :
    ∀ fuel position, input.length - position < fuel →
      advanceWhile p input fuel position =
        some (position + ((input.drop position).takeWhile p).length) := by
  intro fuel
  induction fuel with
  | zero => intro position h; omega
  | succ fuel ih =>
    intro position h
    unfold advanceWhile
    by_cases hlt : position < input.length
    · rw [List.drop_eq_getElem_cons hlt, charAt_of_lt hlt]
      by_cases hp : p input[position] = true
      · simp only [hlt, hp, decide_True, Bool.and_self, if_true, List.takeWhile_cons_of_pos]
        rw [ih (position + 1) (by omega)]
        simp only [List.length_cons]
        congr 1
        omega
      · simp [hlt, hp]
    · have : input.drop position = [] := List.drop_eq_nil_of_le (by omega)
      simp [hlt, this]

theorem advanceWhile_bounds (p : Char → Bool) (input : List Char) (position : Nat) :
    position + ((input.drop position).takeWhile p).length ≤ max input.length position := by
  have h1 : ((input.drop position).takeWhile p).length ≤ (input.drop position).length :=
    (List.takeWhile_sublist p).length_le
  simp only [List.length_drop] at h1
  omega

theorem readStringLoop_total (input : List Char) :
    ∀ fuel position value, position ≤ input.length → input.length - position < fuel →
      ∃ position1 value1, readStringLoop input fuel position value = some (position1, value1) ∧
        position ≤ position1 ∧ position1 ≤ input.length := by
  intro fuel
  induction fuel with
  | zero => intro position value _ h; omega
  | succ fuel ih =>
    intro position value hle h
    unfold readStringLoop
    split
    · rename_i hc
      simp only [Bool.and_eq_true, decide_eq_true_eq] at hc
      split
      · rename_i hb
        simp only [Bool.and_eq_true, decide_eq_true_eq] at hb
        obtain ⟨a, b, h1, h2, h3⟩ := ih (position + 1 + 1) (value ++ [charAt input (position + 1)])
          (by omega) (by omega)
        exact ⟨a, b, h1, by omega, h3⟩
      · obtain ⟨a, b, h1, h2, h3⟩ := ih (position + 1) (value ++ [charAt input position])
          (by omega) (by omega)
        exact ⟨a, b, h1, by omega, h3⟩
    · exact ⟨position, value, rfl, le_refl _, hle⟩


theorem lookup_mem {α β : Type} [BEq α] (k : α) (t : β) :
    ∀ l : List (α × β), l.lookup k = some t → t ∈ l.map Prod.snd := by
  intro l
  induction l with
  | nil => intro h; simp at h
  | cons x xs ih =>
    intro h
    obtain ⟨a, b⟩ := x
    simp only [List.lookup] at h
    split at h
    · simp at h; simp [h]
    · simp [ih h]

theorem getKeywordType_cases (w : List Char) :
    getKeywordType w ≠ TokenType.END_OF_FILE ∧ getKeywordType w ≠ TokenType.STRING := by
  unfold getKeywordType
  simp only []
  split
  · rename_i t h
    have := lookup_mem _ _ _ h
    simp only [keywords, List.map, List.mem_cons, List.mem_singleton, List.not_mem_nil,
      or_false] at this
    rcases this with h | h | h | h | h | h | h | h | h | h | h | h | h | h <;> simp [h]
  · simp

theorem substr_one {input : List Char} {i : Nat} (h : i < input.length) :
    substr input i 1 = [charAt input i] := by
  rw [substr, List.drop_eq_getElem_cons h, charAt_of_lt h]
  rfl

theorem substr_two {input : List Char} {i : Nat} (h : i + 1 < input.length) :
    substr input i 2 = [charAt input i, charAt input (i + 1)] := by
  have h0 : i < input.length := by omega
  rw [substr, List.drop_eq_getElem_cons h0, List.drop_eq_getElem_cons h, charAt_of_lt h,
    charAt_of_lt h0]
  rfl

theorem substr_length_self (input : List Char) (i n : Nat) :
    substr input i (substr input i n).length = substr input i n := by
  simp only [substr, List.length_take, List.length_drop]
  rw [List.take_eq_take]
  simp only [List.length_drop]
  omega

theorem readOperator_spec (lx : Lexer) (h : lx.position < lx.input.length) :
    (lx.readOperator).2.input = lx.input ∧ lx.position < (lx.readOperator).2.position ∧
      (lx.readOperator).2.position ≤ lx.input.length ∧
      (lx.readOperator).1.position = lx.position ∧
      (lx.readOperator).1.type ≠ TokenType.STRING ∧
      TokenAt lx.input (lx.readOperator).1 := by
  unfold Lexer.readOperator TokenAt
  simp only []
  split
  case h_10 | h_11 | h_12 =>
    rename_i heq
    split
    · rename_i h2
      simp only [Bool.and_eq_true, decide_eq_true_eq, beq_iff_eq] at h2
      refine ⟨rfl, by simp only []; omega, by simp only []; omega, rfl, by simp, by simp, h, ?_, by simp⟩
      intro _
      simp only [List.length_cons, List.length_nil]
      rw [substr_two h2.1, heq, h2.2]
    · refine ⟨rfl, by simp only []; omega, by simp only []; omega, rfl, by simp, by simp, h, ?_, by simp⟩
      intro _
      simp only [List.length_cons, List.length_nil]
      rw [substr_one h, heq]
  all_goals
    refine ⟨rfl, by simp only []; omega, by simp only []; omega, rfl, by simp, by simp, h, ?_, by simp⟩
    intro _
    simp only [List.length_cons, List.length_nil]
    rw [substr_one h] <;> first
      | rfl
      | (rename_i heq _; rw [heq])


theorem take_length_takeWhile (p : Char → Bool) (l : List Char) :
    l.take (l.takeWhile p).length = l.takeWhile p :=
  Eq.symm ( List.prefix_iff_eq_take.mp ( List.takeWhile_prefix p))

theorem readNumber_eq (lx : Lexer) :
    lx.readNumber =
      some (⟨TokenType.NUMBER, (lx.input.drop lx.position).takeWhile (fun c => isdigit c || c == '.'),
              lx.position⟩,
            ⟨lx.input, lx.position +
              ((lx.input.drop lx.position).takeWhile (fun c => isdigit c || c == '.')).length⟩) := by
  unfold Lexer.readNumber
  simp only []
  rw [advanceWhile_eq _ _ _ _ (by omega)]
  simp only [substr, Nat.add_sub_cancel_left, take_length_takeWhile]

theorem readIdentifierOrKeyword_eq (lx : Lexer) :
    lx.readIdentifierOrKeyword =
      some (⟨getKeywordType ((lx.input.drop lx.position).takeWhile (fun c => isalnum c || c == '_')),
              (lx.input.drop lx.position).takeWhile (fun c => isalnum c || c == '_'),
              lx.position⟩,
            ⟨lx.input, lx.position +
              ((lx.input.drop lx.position).takeWhile (fun c => isalnum c || c == '_')).length⟩) := by
  unfold Lexer.readIdentifierOrKeyword
  simp only []
  rw [advanceWhile_eq _ _ _ _ (by omega)]
  simp only [substr, Nat.add_sub_cancel_left, take_length_takeWhile]

theorem takeWhile_drop_pos (p : Char → Bool) {input : List Char} {i : Nat}
    (h : i < input.length) (hp : p (charAt input i) = true) :
    0 < ((input.drop i).takeWhile p).length ∧
      i + ((input.drop i).takeWhile p).length ≤ input.length := by
  have hb := advanceWhile_bounds p input i
  rw [charAt_of_lt h] at hp
  rw [List.drop_eq_getElem_cons h, List.takeWhile_cons_of_pos hp] at *
  simp only [List.length_cons] at *
  omega

theorem substr_takeWhile (p : Char → Bool) (input : List Char) (i : Nat) :
    substr input i ((input.drop i).takeWhile p).length = (input.drop i).takeWhile p := by
  simp only [substr, take_length_takeWhile]

theorem readString_spec (lx : Lexer) (h : lx.position < lx.input.length) :
    ∃ position value, lx.readString =
        some (⟨TokenType.STRING, value, lx.position⟩, ⟨lx.input, position⟩) ∧
      lx.position < position ∧ position ≤ lx.input.length := by
  obtain ⟨p1, v1, h1, h2, h3⟩ := readStringLoop_total lx.input
    (lx.input.length - lx.position + 1) (lx.position + 1) [] (by omega) (by omega)
  unfold Lexer.readString
  simp only [h1]
  split
  · exact ⟨p1 + 1, v1, rfl, by omega, by omega⟩
  · exact ⟨p1, v1, rfl, by omega, by omega⟩

/-- One pass of the scan loop, entered below the end of the input, returns,
moves the position forward and stays within the input; the token it pushes
starts where the pass started. -/
theorem scanPass_spec (lx : Lexer) (h : lx.position < lx.input.length) :
    ∃ tok lx1, lx.scanPass = some (tok, lx1) ∧ lx1.input = lx.input ∧
      lx.position < lx1.position ∧ lx1.position ≤ lx.input.length ∧
      ∀ t ∈ tok, t.position = lx.position ∧ TokenAt lx.input t := by
  unfold Lexer.scanPass
  simp only []
  split
  · exact ⟨none, _, rfl, rfl, by simp, by simp only []; omega, by simp⟩
  split
  · rename_i hd
    have hp : (fun c => isdigit c || c == '.') (charAt lx.input lx.position) = true := by
      simp [hd]
    have hk := takeWhile_drop_pos (fun c => isdigit c || c == '.') h hp
    rw [readNumber_eq]
    refine ⟨_, _, rfl, rfl, by simp only []; omega, by simp only []; omega, ?_⟩
    intro t ht
    simp only [Option.mem_def, Option.some.injEq] at ht
    subst ht
    refine ⟨rfl, by simp, h, ?_, by simp⟩
    intro _
    exact substr_takeWhile _ _ _
  split
  · rename_i ha
    have hp : (fun c => isalnum c || c == '_') (charAt lx.input lx.position) = true := by
      simp only [Bool.or_eq_true, beq_iff_eq] at ha
      rcases ha with ha | ha
      · simp [isalnum, ha]
      · simp [ha]
    have hk := takeWhile_drop_pos (fun c => isalnum c || c == '_') h hp
    rw [readIdentifierOrKeyword_eq]
    refine ⟨_, _, rfl, rfl, by simp only []; omega, by simp only []; omega, ?_⟩
    intro t ht
    simp only [Option.mem_def, Option.some.injEq] at ht
    subst ht
    refine ⟨rfl, (getKeywordType_cases _).1, h, ?_, ?_⟩
    · intro _
      exact substr_takeWhile _ _ _
    · intro hs
      exact absurd hs (getKeywordType_cases _).2
  split
  · rename_i hq
    obtain ⟨p1, v1, h1, h2, h3⟩ := readString_spec lx h
    rw [h1]
    refine ⟨_, _, rfl, rfl, h2, h3, ?_⟩
    intro t ht
    simp only [Option.mem_def, Option.some.injEq] at ht
    subst ht
    refine ⟨rfl, by simp, h, by simp, ?_⟩
    intro _
    simp only [beq_iff_eq] at hq
    rw [← hq, charAt_of_lt h]
    simp [h]
  · obtain ⟨h1, h2, h3, h4, h5, h6⟩ := readOperator_spec lx h
    refine ⟨_, _, rfl, h1, h2, h3, ?_⟩
    intro t ht
    simp only [Option.mem_def, Option.some.injEq] at ht
    subst ht
    exact ⟨h4, h6⟩


/-- The scan loop, started within the input with enough fuel, returns; it
leaves the position at the end of the input, keeps the tokens it was given
and appends tokens that each satisfy `TokenAt`. -/
theorem tokenizeLoop_spec :
    ∀ fuel (lx : Lexer) (acc : List Token), lx.position ≤ lx.input.length →
      lx.input.length - lx.position < fuel →
      ∃ toks, tokenizeLoop fuel lx acc = some (acc ++ toks, ⟨lx.input, lx.input.length⟩) ∧
        ∀ t ∈ toks, lx.position ≤ t.position ∧ TokenAt lx.input t := by
  intro fuel
  induction fuel with
  | zero => intro lx acc _ h; omega
  | succ fuel ih =>
    intro lx acc hle hfuel
    unfold tokenizeLoop
    by_cases hlt : lx.position < lx.input.length
    · obtain ⟨tok, lx1, h1, h2, h3, h4, h5⟩ := scanPass_spec lx hlt
      simp only [hlt, if_true, h1]
      obtain ⟨toks, h6, h7⟩ := ih lx1 (acc ++ tok.toList) (by rw [h2]; exact h4)
        (by rw [h2]; omega)
      refine ⟨tok.toList ++ toks, ?_, ?_⟩
      · rw [h6, h2, List.append_assoc]
      · intro t ht
        rw [List.mem_append] at ht
        rcases ht with ht | ht
        · have := h5 t (by simpa using ht)
          exact ⟨by omega, this.2⟩
        · have := h7 t ht
          rw [h2] at this
          exact ⟨by omega, this.2⟩
    · have : lx.position = lx.input.length := by omega
      refine ⟨[], ?_, by simp⟩
      simp only [hlt, if_false, List.append_nil]
      rw [← this]

theorem tokenize_from_spec (lx : Lexer) (hle : lx.position ≤ lx.input.length) :
    ∃ toks, lx.tokenize =
        some (toks ++ [⟨TokenType.END_OF_FILE, [], lx.input.length⟩],
          ⟨lx.input, lx.input.length⟩) ∧
      ∀ t ∈ toks, lx.position ≤ t.position ∧ TokenAt lx.input t := by
  obtain ⟨toks, h1, h2⟩ := tokenizeLoop_spec (lx.input.length - lx.position + 1) lx [] hle
    (by omega)
  refine ⟨toks, ?_, h2⟩
  unfold Lexer.tokenize
  simp only [h1, List.nil_append]

theorem tokenize_spec (s : List Char) :
    ∃ toks, tokenize s = some (toks ++ [⟨TokenType.END_OF_FILE, [], s.length⟩]) ∧
      ∀ t ∈ toks, TokenAt s t := by
  obtain ⟨toks, h1, h2⟩ := tokenize_from_spec (Lexer.new s) (Nat.zero_le _)
  refine ⟨toks, ?_, fun t ht => (h2 t ht).2⟩
  unfold tokenize
  rw [h1]
  rfl

/-- C1: for every input `s` the token sequence of `tokenize` is a (possibly
empty) run of tokens none of which has kind END_OF_FILE, followed by one last
token END_OF_FILE with empty text and position `|s|`. -/
theorem tokenize_ends_with_end_of_file (s : List Char) :
    ∃ toks, tokenize s = some (toks ++ [⟨TokenType.END_OF_FILE, [], s.length⟩]) ∧
      ∀ t ∈ toks, t.type ≠ TokenType.END_OF_FILE := by
  obtain ⟨toks, h1, h2⟩ := tokenize_spec s
  exact ⟨toks, h1, fun t ht => (h2 t ht).1⟩

/-- C2: `tokenize` returns a token sequence for every input, and every pass
of the scan loop entered below the end of the input returns, keeps the input,
moves the position forward by at least one and not beyond the input length. -/
theorem tokenize_total :
    (∀ s : List Char, ∃ toks, tokenize s = some toks) ∧
    (∀ lx : Lexer, lx.position < lx.input.length →
      ∃ tok lx1, lx.scanPass = some (tok, lx1) ∧ lx1.input = lx.input ∧
        lx.position + 1 ≤ lx1.position ∧ lx1.position ≤ lx.input.length) := by
  constructor
  · intro s
    obtain ⟨toks, h1, _⟩ := tokenize_spec s
    exact ⟨_, h1⟩
  · intro lx h
    obtain ⟨tok, lx1, h1, h2, h3, h4, _⟩ := scanPass_spec lx h
    exact ⟨tok, lx1, h1, h2, h3, h4⟩

/-- C2, at an input with a lone `!`, an unknown character and an unterminated
string whose last character is a backslash. -/
theorem tokenize_total_witness :
    tokenize ['!', '@', quote, 'x', backslash] =
      some [⟨TokenType.INVALID, ['!'], 0⟩, ⟨TokenType.INVALID, ['@'], 1⟩,
        ⟨TokenType.STRING, ['x', backslash], 2⟩, ⟨TokenType.END_OF_FILE, [], 5⟩] ∧
    ∃ toks, tokenize ['!', '@', quote, 'x', backslash] = some toks :=
  ⟨by decide, tokenize_total.1 _⟩

/-- C7: every token of `tokenize s` before the final END_OF_FILE starts
inside `s`; the text of a token that is not a STRING is the piece of `s` of
that length at the token's position, and at the position of a STRING token
`s` has the opening single quote. -/
theorem token_position_is_offset (s : List Char) :
    ∃ toks, tokenize s = some toks ∧
      ∀ t ∈ toks.dropLast, t.position < s.length ∧
        (t.type ≠ TokenType.STRING → (s.drop t.position).take t.value.length = t.value) ∧
        (t.type = TokenType.STRING → s[t.position]? = some quote) := by
  obtain ⟨toks, h1, h2⟩ := tokenize_spec s
  refine ⟨_, h1, ?_⟩
  intro t ht
  rw [List.dropLast_concat] at ht
  exact (h2 t ht).2

/-- C7, the example of the test `TokenPositions`. -/
theorem token_position_is_offset_witness :
    tokenize "SELECT name FROM users".toList =
      some [⟨.SELECT, "SELECT".toList, 0⟩, ⟨.IDENTIFIER, "name".toList, 7⟩,
        ⟨.FROM, "FROM".toList, 12⟩, ⟨.IDENTIFIER, "users".toList, 17⟩,
        ⟨.END_OF_FILE, [], 22⟩] ∧
    ∃ toks, tokenize "SELECT name FROM users".toList = some toks ∧
      ∀ t ∈ toks.dropLast, t.position < "SELECT name FROM users".toList.length ∧
        (t.type ≠ TokenType.STRING →
          ("SELECT name FROM users".toList.drop t.position).take t.value.length = t.value) ∧
        (t.type = TokenType.STRING → "SELECT name FROM users".toList[t.position]? = some quote) :=
  ⟨by decide, token_position_is_offset _⟩


theorem tokenizeLoop_done (fuel : Nat) (lx : Lexer) (acc : List Token)
    (h : lx.input.length ≤ lx.position) :
    tokenizeLoop (fuel + 1) lx acc = some (acc, lx) := by
  unfold tokenizeLoop
  simp [Nat.not_lt.mpr h]

/-- An input that one pass of the scan loop consumes whole, pushing `t`,
is tokenized to `t` and END_OF_FILE. -/
theorem tokenize_single (s : List Char) (t : Token) (hpos : 0 < s.length)
    (hpass : (Lexer.new s).scanPass = some (some t, ⟨s, s.length⟩)) :
    tokenize s = some [t, ⟨TokenType.END_OF_FILE, [], s.length⟩] := by
  have hfuel : s.length - 0 + 1 = (s.length - 1 + 1) + 1 := by omega
  have hpos1 : (Lexer.new s).position < (Lexer.new s).input.length := hpos
  unfold tokenize Lexer.tokenize
  simp only [Lexer.new] at *
  rw [hfuel, tokenizeLoop]
  simp only [hpos1, if_true, hpass]
  rw [tokenizeLoop_done _ _ _ (le_refl _)]
  rfl

theorem charAt_zero_cons (c : Char) (s : List Char) : charAt (c :: s) 0 = c := rfl

theorem takeWhile_eq_self (p : Char → Bool) (s : List Char) (h : ∀ c ∈ s, p c = true) :
    s.takeWhile p = s := by
  induction s with
  | nil => rfl
  | cons c s ih =>
    rw [List.takeWhile_cons_of_pos (h c (List.mem_cons_self _ _)),
      ih (fun d hd => h d (List.mem_cons_of_mem _ hd))]

theorem isalpha_not_space_digit (c : Char) (h : isalpha c = true ∨ c = '_') :
    isspace c = false ∧ isdigit c = false := by
  rcases h with h | h
  · simp only [isalpha, isspace, isdigit, Bool.or_eq_true, Bool.and_eq_true, decide_eq_true_eq,
      beq_iff_eq, Bool.or_eq_false_iff, Bool.and_eq_false_iff, decide_eq_false_iff_not,
      beq_eq_false_iff_ne, ne_eq] at *
    omega
  · subst h
    decide

theorem isdigit_not_space (c : Char) (h : isdigit c = true) : isspace c = false := by
  simp only [isspace, isdigit, Bool.or_eq_true, Bool.and_eq_true, decide_eq_true_eq,
      beq_iff_eq, Bool.or_eq_false_iff, Bool.and_eq_false_iff, decide_eq_false_iff_not,
      beq_eq_false_iff_ne, ne_eq] at *
  omega

/-- C3: a word `w` of ASCII letters, digits and underscores that starts with a
letter or an underscore is tokenized to exactly two tokens, a token at
position 0 with text `w` unchanged, followed by END_OF_FILE at `|w|`; the kind
of the first token is the keyword kind when the upper-cased `w` is one of the
fourteen keywords, and IDENTIFIER when it is none of them. -/
theorem tokenize_word (w : List Char) (c : Char) (cs : List Char) (hw : w = c :: cs)
    (hfirst : isalpha c = true ∨ c = '_')
    (hall : ∀ d ∈ w, isalpha d = true ∨ isdigit d = true ∨ d = '_') :
    ∃ kind, tokenize w =
        some [⟨kind, w, 0⟩, ⟨TokenType.END_OF_FILE, [], w.length⟩] ∧
      (∀ k ∈ [("SELECT", TokenType.SELECT), ("FROM", TokenType.FROM),
          ("WHERE", TokenType.WHERE), ("INSERT", TokenType.INSERT), ("INTO", TokenType.INTO),
          ("VALUES", TokenType.VALUES), ("CREATE", TokenType.CREATE),
          ("TABLE", TokenType.TABLE), ("DELETE", TokenType.DELETE),
          ("UPDATE", TokenType.UPDATE), ("SET", TokenType.SET), ("AND", TokenType.AND),
          ("OR", TokenType.OR), ("NOT", TokenType.NOT)],
        w.map toupper = k.1.toList → kind = k.2) ∧
      (w.map toupper ∉ ["SELECT".toList, "FROM".toList, "WHERE".toList, "INSERT".toList,
          "INTO".toList, "VALUES".toList, "CREATE".toList, "TABLE".toList, "DELETE".toList,
          "UPDATE".toList, "SET".toList, "AND".toList, "OR".toList, "NOT".toList] →
        kind = TokenType.IDENTIFIER) := by
  refine ⟨getKeywordType w, ?_, ?_, ?_⟩
  · apply tokenize_single w _ (by rw [hw]; simp)
    have hp : ∀ d ∈ w, (fun c => isalnum c || c == '_') d = true := by
      intro d hd
      rcases hall d hd with h | h | h <;> simp [isalnum, h]
    have h1 := isalpha_not_space_digit c hfirst
    have h2 : (isalpha c || c == '_') = true := by
      rcases hfirst with h | h <;> simp [h]
    unfold Lexer.scanPass
    simp only [Lexer.new, hw, charAt_zero_cons, h1.1, h1.2, h2, if_true, Bool.false_eq_true,
      if_false]
    rw [readIdentifierOrKeyword_eq]
    simp only [List.drop_zero, ← hw, takeWhile_eq_self _ w hp, Nat.zero_add, Option.map_some']
  · intro k hk h
    unfold getKeywordType
    simp only [h]
    simp only [List.mem_cons, List.mem_singleton, List.not_mem_nil, or_false] at hk
    rcases hk with h | h | h | h | h | h | h | h | h | h | h | h | h | h <;> subst h <;> rfl
  · intro h
    unfold getKeywordType
    simp only [List.mem_cons, List.mem_singleton, List.not_mem_nil, or_false, not_or] at h
    obtain ⟨h1, h2, h3, h4, h5, h6, h7, h8, h9, h10, h11, h12, h13, h14⟩ := h
    simp only [keywords, List.lookup, beq_eq_false_iff_ne.mpr h1, beq_eq_false_iff_ne.mpr h2,
      beq_eq_false_iff_ne.mpr h3, beq_eq_false_iff_ne.mpr h4, beq_eq_false_iff_ne.mpr h5,
      beq_eq_false_iff_ne.mpr h6, beq_eq_false_iff_ne.mpr h7, beq_eq_false_iff_ne.mpr h8,
      beq_eq_false_iff_ne.mpr h9, beq_eq_false_iff_ne.mpr h10, beq_eq_false_iff_ne.mpr h11,
      beq_eq_false_iff_ne.mpr h12, beq_eq_false_iff_ne.mpr h13, beq_eq_false_iff_ne.mpr h14]


/-- C3, at the spelling `SeLeCt`. -/
theorem tokenize_word_witness :
    tokenize "SeLeCt".toList =
      some [⟨TokenType.SELECT, "SeLeCt".toList, 0⟩, ⟨TokenType.END_OF_FILE, [], 6⟩] := by
  obtain ⟨kind, h1, h2, _⟩ :=
    tokenize_word "SeLeCt".toList 'S' "eLeCt".toList rfl (by decide) (by decide)
  have h3 := h2 ("SELECT", TokenType.SELECT) (by simp) (by decide)
  rw [h1, h3]
  rfl

theorem charAt_append_cons (pre : List Char) (c : Char) (rest : List Char) :
    charAt (pre ++ c :: rest) pre.length = c := by
  unfold charAt
  rw [List.getD_eq_getElem?_getD, List.getElem?_append_right (le_refl _), Nat.sub_self]
  simp

theorem readStringLoop_stop (input : List Char) (fuel position : Nat) (value : List Char)
    (h : charAt input position = quote) :
    readStringLoop input (fuel + 1) position value = some (position, value) := by
  unfold readStringLoop
  simp [h]

theorem readStringLoop_plain (input : List Char) (fuel position : Nat) (value : List Char)
    (hlt : position < input.length) (hq : charAt input position ≠ quote)
    (hb : charAt input position ≠ backslash) :
    readStringLoop input (fuel + 1) position value =
      readStringLoop input fuel (position + 1) (value ++ [charAt input position]) := by
  rw [readStringLoop]
  simp [hlt, hq, hb]

theorem readStringLoop_escape (input : List Char) (fuel position : Nat) (value : List Char)
    (hlt : position + 1 < input.length) (hb : charAt input position = backslash) :
    readStringLoop input (fuel + 1) position value =
      readStringLoop input fuel (position + 1 + 1) (value ++ [charAt input (position + 1)]) := by
  have h0 : position < input.length := by omega
  have hq : backslash ≠ quote := by decide
  rw [readStringLoop]
  simp [hlt, h0, hq, hb]

theorem esc_cons (c : Char) (s : List Char) :
    esc (c :: s) = (if c = quote ∨ c = backslash then [backslash, c] else [c]) ++ esc s := by
  simp [esc]

theorem readStringLoop_esc (rest : List Char) :
    ∀ (s pre value : List Char) (fuel : Nat), s.length < fuel →
      readStringLoop (pre ++ (esc s ++ quote :: rest)) fuel pre.length value =
        some (pre.length + (esc s).length, value ++ s) := by
  intro s
  induction s with
  | nil =>
    intro pre value fuel hf
    obtain ⟨fuel, rfl⟩ : ∃ k, fuel = k + 1 := ⟨fuel - 1, by omega⟩
    have : esc [] = [] := rfl
    rw [this, List.nil_append, readStringLoop_stop _ _ _ _ (charAt_append_cons _ _ _)]
    simp
  | cons c s ih =>
    intro pre value fuel hf
    obtain ⟨fuel, rfl⟩ : ∃ k, fuel = k + 1 := ⟨fuel - 1, by omega⟩
    simp only [List.length_cons] at hf
    rw [esc_cons]
    by_cases hc : c = quote ∨ c = backslash
    · simp only [hc, if_true]
      have h1 : pre ++ ([backslash, c] ++ esc s ++ quote :: rest) =
          (pre ++ [backslash, c]) ++ (esc s ++ quote :: rest) := by simp
      have h2 : pre ++ ([backslash, c] ++ esc s ++ quote :: rest) =
          (pre ++ [backslash]) ++ c :: (esc s ++ quote :: rest) := by simp
      have h3 : charAt (pre ++ ([backslash, c] ++ esc s ++ quote :: rest)) (pre.length + 1)
          = c := by
        rw [h2]
        have := charAt_append_cons (pre ++ [backslash]) c (esc s ++ quote :: rest)
        rwa [List.length_append, List.length_singleton] at this
      have h4 : charAt (pre ++ ([backslash, c] ++ esc s ++ quote :: rest)) pre.length
          = backslash := by
        have := charAt_append_cons pre backslash (c :: (esc s ++ quote :: rest))
        simpa using this
      rw [readStringLoop_escape _ _ _ _ (by simp) h4, h3, h1]
      have := ih (pre ++ [backslash, c]) (value ++ [c]) fuel (by omega)
      simp only [List.length_append, List.length_cons, List.length_nil] at this
      rw [this]
      simp only [List.length_append, List.length_cons, List.length_nil, List.append_assoc,
        List.singleton_append, Option.some.injEq, Prod.mk.injEq, and_true]
      omega
    · simp only [hc, if_false]
      have h1 : pre ++ ([c] ++ esc s ++ quote :: rest) =
          (pre ++ [c]) ++ (esc s ++ quote :: rest) := by simp
      have h4 : charAt (pre ++ ([c] ++ esc s ++ quote :: rest)) pre.length = c := by
        have := charAt_append_cons pre c (esc s ++ quote :: rest)
        simpa using this
      simp only [not_or] at hc
      rw [readStringLoop_plain _ _ _ _ (by simp) (by rw [h4]; exact hc.1)
        (by rw [h4]; exact hc.2), h4, h1]
      have := ih (pre ++ [c]) (value ++ [c]) fuel (by omega)
      simp only [List.length_append, List.length_cons, List.length_nil] at this
      rw [this]
      simp only [List.length_append, List.length_cons, List.length_nil, List.append_assoc,
        List.singleton_append, Option.some.injEq, Prod.mk.injEq, and_true]
      omega

theorem esc_length (s : List Char) : s.length ≤ (esc s).length := by
  induction s with
  | nil => simp [esc]
  | cons c s ih =>
    rw [esc_cons]
    split <;> simp <;> omega

/-- C4: a quote, the escaped form `esc s` of any text `s` and a closing quote
are tokenized to one STRING token at position 0 whose text is `s`, followed by
END_OF_FILE. -/
theorem tokenize_escaped_string (s : List Char) :
    tokenize (quote :: (esc s ++ [quote])) =
      some [⟨TokenType.STRING, s, 0⟩,
        ⟨TokenType.END_OF_FILE, [], (quote :: (esc s ++ [quote])).length⟩] := by
  apply tokenize_single _ _ (by simp)
  unfold Lexer.scanPass
  have hq : isspace quote = false ∧ isdigit quote = false ∧
      (isalpha quote || quote == '_') = false := by decide
  simp only [Lexer.new, charAt_zero_cons, hq.1, hq.2.1, hq.2.2, Bool.false_eq_true, if_false,
    beq_self_eq_true, if_true]
  unfold Lexer.readString
  have hl := esc_length s
  have := readStringLoop_esc [] s [quote] [] ((quote :: (esc s ++ [quote])).length - 0 + 1)
    (by simp only [List.length_cons, List.length_append, List.length_nil]; omega)
  simp only [List.singleton_append, List.length_singleton, List.nil_append] at this
  simp only [Nat.zero_add]
  rw [this]
  have hlt : 1 + (esc s).length < (quote :: (esc s ++ [quote])).length := by
    simp only [List.length_cons, List.length_append, List.length_nil]; omega
  simp only [hlt, if_true, Option.map_some']
  simp only [List.length_cons, List.length_append, List.length_nil]
  have : 1 + (esc s).length + 1 = (esc s).length + (0 + 1) + 1 := by omega
  rw [this]


/-- C4, the example of the test `TokenizeStrings`. -/
theorem tokenize_escaped_string_witness :
    tokenize [quote, 'i', 't', backslash, quote, 's', ' ', 'e', 's', 'c', 'a', 'p', 'e', 'd',
        quote] =
      some [⟨TokenType.STRING, ['i', 't', quote, 's', ' ', 'e', 's', 'c', 'a', 'p', 'e', 'd'], 0⟩,
        ⟨TokenType.END_OF_FILE, [], 15⟩] :=
  tokenize_escaped_string ['i', 't', quote, 's', ' ', 'e', 's', 'c', 'a', 'p', 'e', 'd']

/-- C5: each of the fourteen operator and punctuation spellings alone is
tokenized to one token of its kind with that spelling as text at position 0,
followed by END_OF_FILE; and any other single character that is no
whitespace, digit, letter, `_`, quote or `!` is tokenized to one INVALID token
with that character as text, followed by END_OF_FILE. -/
theorem tokenize_operator_or_invalid :
    (∀ k ∈ [("=", TokenType.EQUALS), ("!=", TokenType.NOT_EQUALS), ("<", TokenType.LESS_THAN),
        (">", TokenType.GREATER_THAN), ("<=", TokenType.LESS_EQUAL),
        (">=", TokenType.GREATER_EQUAL), ("+", TokenType.PLUS), ("-", TokenType.MINUS),
        ("*", TokenType.STAR), ("/", TokenType.SLASH), (",", TokenType.COMMA),
        (";", TokenType.SEMICOLON), ("(", TokenType.LEFT_PAREN), (")", TokenType.RIGHT_PAREN)],
      tokenize k.1.toList =
        some [⟨k.2, k.1.toList, 0⟩, ⟨TokenType.END_OF_FILE, [], k.1.toList.length⟩]) ∧
    (∀ c : Char, isspace c = false → isdigit c = false → isalpha c = false → c ≠ '_' →
      c ≠ quote → c ≠ '!' →
      c ∉ ['=', '<', '>', '+', '-', '*', '/', ',', ';', '(', ')'] →
      tokenize [c] = some [⟨TokenType.INVALID, [c], 0⟩, ⟨TokenType.END_OF_FILE, [], 1⟩]) := by
  constructor
  · decide
  · intro c h1 h2 h3 h4 h5 h6 h7
    apply tokenize_single [c] _ (by simp)
    have h8 : (isalpha c || c == '_') = false := by simp [h3, h4]
    have h9 : (c == quote) = false := by simp [h5]
    unfold Lexer.scanPass
    simp only [Lexer.new, charAt_zero_cons, h1, h2, h8, h9, Bool.false_eq_true, if_false]
    simp only [List.mem_cons, List.mem_singleton, List.not_mem_nil, or_false, not_or] at h7
    unfold Lexer.readOperator
    simp only [charAt_zero_cons]
    split
    all_goals first
      | rfl
      | (exfalso; simp_all)

/-- C5, at the character `@`. -/
theorem tokenize_operator_or_invalid_witness :
    tokenize ['@'] =
      some [⟨TokenType.INVALID, ['@'], 0⟩, ⟨TokenType.END_OF_FILE, [], 1⟩] :=
  tokenize_operator_or_invalid.2 '@' (by decide) (by decide) (by decide) (by decide)
    (by decide) (by decide) (by decide)

/-- C6: an input that starts with a digit and has only digits and `.` is
tokenized to one NUMBER token at position 0 whose text is the whole input,
followed by END_OF_FILE, however many `.` it has. -/
theorem tokenize_number (s : List Char) (d : Char) (ds : List Char) (hs : s = d :: ds)
    (hfirst : isdigit d = true) (hall : ∀ c ∈ s, isdigit c = true ∨ c = '.') :
    tokenize s = some [⟨TokenType.NUMBER, s, 0⟩, ⟨TokenType.END_OF_FILE, [], s.length⟩] := by
  apply tokenize_single s _ (by rw [hs]; simp)
  have hp : ∀ c ∈ s, (fun c => isdigit c || c == '.') c = true := by
    intro c hc
    rcases hall c hc with h | h <;> simp [h]
  have h1 := isdigit_not_space d hfirst
  unfold Lexer.scanPass
  simp only [Lexer.new, hs, charAt_zero_cons, h1, hfirst, if_true, Bool.false_eq_true,
    if_false]
  rw [readNumber_eq]
  simp only [List.drop_zero, ← hs, takeWhile_eq_self _ s hp, Nat.zero_add, Option.map_some']

/-- C6, at `1.2.3`. -/
theorem tokenize_number_witness :
    tokenize "1.2.3".toList =
      some [⟨TokenType.NUMBER, "1.2.3".toList, 0⟩, ⟨TokenType.END_OF_FILE, [], 5⟩] :=
  tokenize_number "1.2.3".toList '1' ".2.3".toList rfl (by decide) (by decide)

theorem tokenizeLoop_whitespace (s : List Char) (hs : ∀ c ∈ s, isspace c = true) :
    ∀ fuel position acc, position ≤ s.length → s.length - position < fuel →
      tokenizeLoop fuel ⟨s, position⟩ acc = some (acc, ⟨s, s.length⟩) := by
  intro fuel
  induction fuel with
  | zero => intro position acc _ h; omega
  | succ fuel ih =>
    intro position acc hle hf
    by_cases hlt : position < s.length
    · have hc : isspace (charAt s position) = true := by
        rw [charAt_of_lt hlt]
        exact hs _ (List.getElem_mem _)
      rw [tokenizeLoop]
      simp only [hlt, if_true, Lexer.scanPass, hc]
      simpa using ih (position + 1) acc (by omega) (by omega)
    · have : position = s.length := by omega
      rw [tokenizeLoop_done _ _ _ (by simp only []; omega), this]

/-- C8, amended: an input that is empty or has only whitespace is tokenized to
exactly one token, END_OF_FILE with empty text, at the position `|s|` that is
the length of the input (0 only for the empty input). -/
theorem tokenize_whitespace (s : List Char) (hs : ∀ c ∈ s, isspace c = true) :
    tokenize s = some [⟨TokenType.END_OF_FILE, [], s.length⟩] := by
  unfold tokenize Lexer.tokenize
  simp only [Lexer.new]
  rw [tokenizeLoop_whitespace s hs _ 0 [] (Nat.zero_le _) (by omega)]
  rfl

/-- C8, at space, newline, tab. -/
theorem tokenize_whitespace_witness :
    tokenize [' ', '\n', '\t'] = some [⟨TokenType.END_OF_FILE, [], 3⟩] :=
  tokenize_whitespace [' ', '\n', '\t'] (by decide)

/-- C8 as stated fails: the input of one space has only whitespace, and its
END_OF_FILE token stands at position 1, not 0. -/
theorem tokenize_whitespace_position_zero_fails :
    ¬ ∀ s : List Char, (∀ c ∈ s, isspace c = true) →
      tokenize s = some [⟨TokenType.END_OF_FILE, [], 0⟩] := by
  intro h
  exact absurd (h [' '] (by decide)) (by decide)

/-- C9, amended: a `Lexer` built from a text `s` yields the token sequence
`tokenize s`, which depends on `s` alone, so two objects built from the same
text yield the same tokens; the object keeps its read position, so a second
call of `tokenize()` on it yields only END_OF_FILE at `|s|`. -/
theorem tokenize_twice (s : List Char) :
    ∃ toks lx1, (Lexer.new s).tokenize = some (toks, lx1) ∧
      tokenize s = some toks ∧
      lx1.tokenize = some ([⟨TokenType.END_OF_FILE, [], s.length⟩], lx1) := by
  obtain ⟨toks, h1, _⟩ := tokenize_from_spec (Lexer.new s) (Nat.zero_le _)
  refine ⟨_, _, h1, ?_, ?_⟩
  · unfold tokenize
    rw [h1]
    rfl
  · simp only [Lexer.new]
    unfold Lexer.tokenize
    simp only [Nat.sub_self, Nat.zero_add]
    rw [tokenizeLoop_done _ _ _ (le_refl _)]
    rfl

/-- C9 as stated fails: the second call of `tokenize()` on the `Lexer` built
from the text `a` does not repeat the tokens of the first call. -/
theorem tokenize_second_call_differs :
    ¬ ∀ s : List Char, ∀ toks lx1, (Lexer.new s).tokenize = some (toks, lx1) →
      ∃ lx2, lx1.tokenize = some (toks, lx2) := by
  intro h
  obtain ⟨lx2, h2⟩ := h ['a']
    [⟨TokenType.IDENTIFIER, ['a'], 0⟩, ⟨TokenType.END_OF_FILE, [], 1⟩] ⟨['a'], 1⟩ (by decide)
  have h3 : Lexer.tokenize ⟨['a'], 1⟩ =
      some ([⟨TokenType.END_OF_FILE, [], 1⟩], ⟨['a'], 1⟩) := by decide
  rw [h3] at h2
  simp at h2


/-! ## The parser cursor -/

theorem Parser.peek_of {p : Parser} {x : Token} (h : p.tokens[p.current]? = some x) :
    p.peek = Except.ok x := by
  simp [Parser.peek, h, pure, Except.pure]

theorem Parser.advance_of {p : Parser} {x : Token} (h : p.tokens[p.current]? = some x) :
    p.advance = Except.ok (x, ⟨p.tokens, p.current + 1⟩) := by
  have hlt : p.current < p.tokens.length := by
    by_contra hge
    rw [List.getElem?_eq_none (by omega)] at h
    exact Option.noConfusion h
  simp [Parser.advance, h, hlt, pure, Except.pure]

theorem Parser.matchToken_of_eq {p : Parser} {x : Token} {T : TokenType}
    (h : p.tokens[p.current]? = some x) (ht : x.type = T) :
    p.matchToken T = Except.ok (true, ⟨p.tokens, p.current + 1⟩) := by
  simp [Parser.matchToken, Parser.peek_of h, Parser.advance_of h, ht, bind, Except.bind, pure,
    Except.pure]

theorem Parser.matchToken_of_ne {p : Parser} {x : Token} {T : TokenType}
    (h : p.tokens[p.current]? = some x) (ht : x.type ≠ T) :
    p.matchToken T = Except.ok (false, p) := by
  simp [Parser.matchToken, Parser.peek_of h, ht, bind, Except.bind, pure, Except.pure]

theorem getElem?_append_cons_length (pre : List Token) (x : Token) (tail : List Token) :
    (pre ++ x :: tail)[pre.length]? = some x := by
  rw [List.getElem?_append_right (le_refl _), Nat.sub_self]
  simp

theorem parseColumnListLoop_step (fuel : Nat) (p : Parser) (columns : List Expression)
    (x : Token) (h : p.tokens[p.current]? = some x)
    (hx : x.type = TokenType.STAR ∨ x.type = TokenType.IDENTIFIER) :
    parseColumnListLoop (fuel + 1) p columns =
      (do
        let (m, p1) ← Parser.matchToken ⟨p.tokens, p.current + 1⟩ TokenType.COMMA
        if m then parseColumnListLoop fuel p1 (columns ++ [projectionOf x])
        else pure (columns ++ [projectionOf x], p1)) := by
  rw [parseColumnListLoop]
  rcases hx with hx | hx
  · simp [Parser.peek_of h, Parser.advance_of h, hx, projectionOf, bind, Except.bind, pure,
      Except.pure]
  · simp [Parser.peek_of h, Parser.advance_of h, hx, projectionOf, bind, Except.bind, pure,
      Except.pure]

theorem flatMap_pair_length (rest : List (Token × Token)) :
    (rest.flatMap fun cp => [cp.1, cp.2]).length = 2 * rest.length := by
  induction rest with
  | nil => rfl
  | cons cp rest ih =>
    simp only [List.flatMap_cons, List.length_append, List.length_cons, List.length_nil, ih]
    omega

theorem parseColumnListLoop_list (y : Token) (tail : List Token) (hy : y.type ≠ TokenType.COMMA) :
    ∀ (rest : List (Token × Token)) (p1 : Token) (pre : List Token) (columns : List Expression)
      (fuel : Nat), rest.length < fuel →
      (p1.type = TokenType.STAR ∨ p1.type = TokenType.IDENTIFIER) →
      (∀ cp ∈ rest, cp.1.type = TokenType.COMMA ∧
        (cp.2.type = TokenType.STAR ∨ cp.2.type = TokenType.IDENTIFIER)) →
      parseColumnListLoop fuel
          ⟨pre ++ p1 :: ((rest.flatMap fun cp => [cp.1, cp.2]) ++ y :: tail), pre.length⟩ columns =
        Except.ok (columns ++ (p1 :: rest.map Prod.snd).map projectionOf,
          ⟨pre ++ p1 :: ((rest.flatMap fun cp => [cp.1, cp.2]) ++ y :: tail),
            pre.length + 1 + 2 * rest.length⟩) := by
  intro rest
  induction rest with
  | nil =>
    intro p1 pre columns fuel hf hp1 _
    obtain ⟨fuel, rfl⟩ : ∃ k, fuel = k + 1 := ⟨fuel - 1, by simp at hf; omega⟩
    rw [parseColumnListLoop_step fuel _ columns p1 (getElem?_append_cons_length _ _ _) hp1]
    have h2 : (pre ++ p1 :: (([] : List (Token × Token)).flatMap (fun cp => [cp.1, cp.2]) ++ y :: tail))[pre.length + 1]? = some y := by
      have := getElem?_append_cons_length (pre ++ [p1]) y tail
      simpa using this
    rw [Parser.matchToken_of_ne h2 hy]
    simp [bind, Except.bind, pure, Except.pure]
  | cons cp rest ih =>
    intro p1 pre columns fuel hf hp1 hrest
    obtain ⟨fuel, rfl⟩ : ∃ k, fuel = k + 1 := ⟨fuel - 1, by simp at hf; omega⟩
    simp only [List.length_cons] at hf
    have hcp := hrest cp (List.mem_cons_self _ _)
    rw [parseColumnListLoop_step fuel _ columns p1 (getElem?_append_cons_length _ _ _) hp1]
    have h2 : (pre ++ p1 :: ((cp :: rest).flatMap (fun cp => [cp.1, cp.2]) ++ y :: tail))[pre.length + 1]? = some cp.1 := by
      have := getElem?_append_cons_length (pre ++ [p1]) cp.1
        (cp.2 :: (rest.flatMap (fun cp => [cp.1, cp.2]) ++ y :: tail))
      simpa using this
    rw [Parser.matchToken_of_eq h2 hcp.1]
    simp only [bind, Except.bind, if_true]
    have h3 : pre ++ p1 :: ((cp :: rest).flatMap (fun cp => [cp.1, cp.2]) ++ y :: tail) =
        (pre ++ [p1, cp.1]) ++ cp.2 :: (rest.flatMap (fun cp => [cp.1, cp.2]) ++ y :: tail) := by
      simp
    have h4 : pre.length + 1 + 1 = (pre ++ [p1, cp.1]).length := by simp
    rw [h3, h4, ih cp.2 (pre ++ [p1, cp.1]) _ fuel (by omega) hcp.2
      (fun c hc => hrest c (List.mem_cons_of_mem _ hc))]
    simp only [List.length_append, List.length_cons, List.length_nil, List.map_cons,
      List.append_assoc, List.singleton_append]
    congr 3
    omega


/-- C10: the tokens SELECT p1 , ... , pn FROM t END_OF_FILE, each `p` a STAR
or an IDENTIFIER and `t` an IDENTIFIER, parse to a SelectStatement with one
ColumnExpression per projection in the same order (`*` for a STAR, the text
of an IDENTIFIER), source table the text of `t` and no predicate. -/
theorem parse_select_projections (sel frm tbl eof p1 : Token) (rest : List (Token × Token))
    (hsel : sel.type = TokenType.SELECT) (hfrm : frm.type = TokenType.FROM)
    (htbl : tbl.type = TokenType.IDENTIFIER) (heof : eof.type = TokenType.END_OF_FILE)
    (hp1 : p1.type = TokenType.STAR ∨ p1.type = TokenType.IDENTIFIER)
    (hrest : ∀ cp ∈ rest, cp.1.type = TokenType.COMMA ∧
      (cp.2.type = TokenType.STAR ∨ cp.2.type = TokenType.IDENTIFIER)) :
    parse (sel :: p1 :: ((rest.flatMap fun cp => [cp.1, cp.2]) ++ [frm, tbl, eof])) =
      Except.ok (Statement.SelectStatement
        ((p1 :: rest.map Prod.snd).map fun p =>
          if p.type = TokenType.STAR then Expression.ColumnExpression ['*']
          else Expression.ColumnExpression p.value)
        tbl.value none) := by
  generalize htoks : sel :: p1 :: ((rest.flatMap fun cp => [cp.1, cp.2]) ++ [frm, tbl, eof]) = toks
  have hfuel : rest.length < parseFuel toks := by
    rw [← htoks]
    simp only [parseFuel, List.length_cons, List.length_append, flatMap_pair_length,
      List.length_nil]
    omega
  have hloop := parseColumnListLoop_list frm [tbl, eof] (by rw [hfrm]; decide) rest p1 [sel] []
    (parseFuel toks) hfuel hp1 hrest
  simp only [List.singleton_append, List.length_singleton, List.nil_append] at hloop
  rw [htoks] at hloop
  have h0 : toks[0]? = some sel := by rw [← htoks]; rfl
  have hpre : toks = (sel :: p1 :: (rest.flatMap fun cp => [cp.1, cp.2])) ++ frm :: [tbl, eof] := by
    rw [← htoks]; simp
  have hpre2 : toks = (sel :: p1 :: (rest.flatMap fun cp => [cp.1, cp.2]) ++ [frm]) ++ tbl :: [eof] := by
    rw [← htoks]; simp
  have hpre3 : toks = (sel :: p1 :: (rest.flatMap fun cp => [cp.1, cp.2]) ++ [frm, tbl]) ++ eof :: [] := by
    rw [← htoks]; simp
  have h1 : toks[1 + 1 + 2 * rest.length]? = some frm := by
    have := getElem?_append_cons_length (sel :: p1 :: (rest.flatMap fun cp => [cp.1, cp.2])) frm
      [tbl, eof]
    rw [← hpre] at this
    rw [← this]
    congr 1
    simp only [List.length_cons, flatMap_pair_length]
    omega
  have h2 : toks[1 + 1 + 2 * rest.length + 1]? = some tbl := by
    have := getElem?_append_cons_length
      (sel :: p1 :: (rest.flatMap fun cp => [cp.1, cp.2]) ++ [frm]) tbl [eof]
    rw [← hpre2] at this
    rw [← this]
    congr 1
    simp only [List.length_cons, List.length_append, flatMap_pair_length, List.length_nil]
    omega
  have h3 : toks[1 + 1 + 2 * rest.length + 1 + 1]? = some eof := by
    have := getElem?_append_cons_length
      (sel :: p1 :: (rest.flatMap fun cp => [cp.1, cp.2]) ++ [frm, tbl]) eof []
    rw [← hpre3] at this
    rw [← this]
    congr 1
    simp only [List.length_cons, List.length_append, flatMap_pair_length, List.length_nil]
    omega
  have m0 : (Parser.new toks).matchToken TokenType.SELECT = Except.ok (true, ⟨toks, 1⟩) :=
    Parser.matchToken_of_eq (p := Parser.new toks) h0 hsel
  have m1 : Parser.matchToken ⟨toks, 1 + 1 + 2 * rest.length⟩ TokenType.FROM =
      Except.ok (true, ⟨toks, 1 + 1 + 2 * rest.length + 1⟩) :=
    Parser.matchToken_of_eq (p := ⟨toks, 1 + 1 + 2 * rest.length⟩) h1 hfrm
  have m2 : Parser.peek ⟨toks, 1 + 1 + 2 * rest.length + 1⟩ = Except.ok tbl :=
    Parser.peek_of (p := ⟨toks, 1 + 1 + 2 * rest.length + 1⟩) h2
  have m3 : Parser.advance ⟨toks, 1 + 1 + 2 * rest.length + 1⟩ =
      Except.ok (tbl, ⟨toks, 1 + 1 + 2 * rest.length + 1 + 1⟩) :=
    Parser.advance_of (p := ⟨toks, 1 + 1 + 2 * rest.length + 1⟩) h2
  have m4 : Parser.matchToken ⟨toks, 1 + 1 + 2 * rest.length + 1 + 1⟩ TokenType.WHERE =
      Except.ok (false, ⟨toks, 1 + 1 + 2 * rest.length + 1 + 1⟩) :=
    Parser.matchToken_of_ne (p := ⟨toks, 1 + 1 + 2 * rest.length + 1 + 1⟩) h3
      (by rw [heof]; decide)
  unfold parse Parser.parse
  simp only [m0, bind, Except.bind, if_true, Parser.parseSelect, Parser.parseColumnList, hloop,
    m1, m2, m3, m4, htbl, pure, Except.pure, Except.map, Bool.false_eq_true, if_false]
  rfl

/-- C10, at the tokens of `SELECT * FROM t`. -/
theorem parse_select_projections_witness :
    tokenize "SELECT * FROM t".toList =
      some [⟨TokenType.SELECT, "SELECT".toList, 0⟩, ⟨TokenType.STAR, ['*'], 7⟩,
        ⟨TokenType.FROM, "FROM".toList, 9⟩, ⟨TokenType.IDENTIFIER, ['t'], 14⟩,
        ⟨TokenType.END_OF_FILE, [], 15⟩] ∧
    parse [⟨TokenType.SELECT, "SELECT".toList, 0⟩, ⟨TokenType.STAR, ['*'], 7⟩,
        ⟨TokenType.FROM, "FROM".toList, 9⟩, ⟨TokenType.IDENTIFIER, ['t'], 14⟩,
        ⟨TokenType.END_OF_FILE, [], 15⟩] =
      Except.ok (Statement.SelectStatement [Expression.ColumnExpression ['*']] ['t'] none) :=
  ⟨by decide,
    parse_select_projections ⟨TokenType.SELECT, "SELECT".toList, 0⟩
      ⟨TokenType.FROM, "FROM".toList, 9⟩ ⟨TokenType.IDENTIFIER, ['t'], 14⟩
      ⟨TokenType.END_OF_FILE, [], 15⟩ ⟨TokenType.STAR, ['*'], 7⟩ [] rfl rfl rfl rfl
      (Or.inl rfl) (by simp)⟩

/-! ## Primaries, comparisons and the AND and OR chains -/

theorem parsePrimary_leaf (fuel : Nat) (p : Parser) (x : Token)
    (h : p.tokens[p.current]? = some x) (hx : isPrimaryToken x) :
    parsePrimary (fuel + 1) p = Except.ok (primaryOf x, ⟨p.tokens, p.current + 1⟩) := by
  rw [parsePrimary]
  rcases hx with hx | hx | hx <;>
    simp [Parser.peek_of h, Parser.advance_of h, hx, primaryOf, bind, Except.bind, pure,
      Except.pure]

theorem parsePrimary_paren (fuel : Nat) (p : Parser) (x : Token)
    (h : p.tokens[p.current]? = some x) (hx : x.type = TokenType.LEFT_PAREN) :
    parsePrimary (fuel + 1) p =
      (do
        let (expr, p1) ← parseExpression fuel ⟨p.tokens, p.current + 1⟩
        let (m, p2) ← p1.matchToken TokenType.RIGHT_PAREN
        if m then pure (expr, p2)
        else throw (ParseError.runtime_error "Expected closing parenthesis")) := by
  rw [parsePrimary]
  simp [Parser.peek_of h, Parser.matchToken_of_eq h hx, hx, bind, Except.bind, pure,
    Except.pure]

theorem parsePrimary_other (fuel : Nat) (p : Parser) (x : Token)
    (h : p.tokens[p.current]? = some x) (h1 : x.type ≠ TokenType.NUMBER)
    (h2 : x.type ≠ TokenType.STRING) (h3 : x.type ≠ TokenType.IDENTIFIER)
    (h4 : x.type ≠ TokenType.LEFT_PAREN) :
    parsePrimary (fuel + 1) p = Except.error (ParseError.runtime_error "Expected expression") := by
  rw [parsePrimary]
  simp [Parser.peek_of h, Parser.matchToken_of_ne h h4, h1, h2, h3, bind, Except.bind, pure,
    Except.pure, throw, throwThe, MonadExceptOf.throw]

theorem parseComparison_single (fuel : Nat) (p p1 : Parser) (e : Expression) (y : Token)
    (hp : parsePrimary fuel p = Except.ok (e, p1)) (hy : p1.tokens[p1.current]? = some y)
    (hc : comparisonOf y.type = none) :
    parseComparison (fuel + 1) p = Except.ok (e, p1) := by
  rw [parseComparison]
  have n1 : y.type ≠ TokenType.EQUALS := by intro h; rw [h] at hc; exact Option.noConfusion hc
  have n2 : y.type ≠ TokenType.NOT_EQUALS := by intro h; rw [h] at hc; exact Option.noConfusion hc
  have n3 : y.type ≠ TokenType.LESS_THAN := by intro h; rw [h] at hc; exact Option.noConfusion hc
  have n4 : y.type ≠ TokenType.GREATER_THAN := by intro h; rw [h] at hc; exact Option.noConfusion hc
  have n5 : y.type ≠ TokenType.LESS_EQUAL := by intro h; rw [h] at hc; exact Option.noConfusion hc
  have n6 : y.type ≠ TokenType.GREATER_EQUAL := by intro h; rw [h] at hc; exact Option.noConfusion hc
  simp [hp, Parser.matchToken_of_ne hy n1, Parser.matchToken_of_ne hy n2,
    Parser.matchToken_of_ne hy n3, Parser.matchToken_of_ne hy n4, Parser.matchToken_of_ne hy n5,
    Parser.matchToken_of_ne hy n6, bind, Except.bind, pure, Except.pure]

theorem parseComparison_binary (fuel : Nat) (p p1 p2 : Parser) (e1 e2 : Expression)
    (op : Token) (o : Operator)
    (hp : parsePrimary fuel p = Except.ok (e1, p1)) (hop : p1.tokens[p1.current]? = some op)
    (hc : comparisonOf op.type = some o)
    (hq : parsePrimary fuel ⟨p1.tokens, p1.current + 1⟩ = Except.ok (e2, p2)) :
    parseComparison (fuel + 1) p = Except.ok (Expression.BinaryExpression e1 e2 o, p2) := by
  rw [parseComparison]
  generalize hty : op.type = ty at hc
  cases ty <;> simp only [comparisonOf] at hc <;> first
    | exact Option.noConfusion hc
    | (cases hc
       simp [hp, hq, hty, Parser.matchToken_of_eq hop hty,
        Parser.matchToken_of_ne hop (T := TokenType.EQUALS),
        Parser.matchToken_of_ne hop (T := TokenType.NOT_EQUALS),
        Parser.matchToken_of_ne hop (T := TokenType.LESS_THAN),
        Parser.matchToken_of_ne hop (T := TokenType.GREATER_THAN),
        Parser.matchToken_of_ne hop (T := TokenType.LESS_EQUAL),
        Parser.matchToken_of_ne hop (T := TokenType.GREATER_EQUAL),
        bind, Except.bind, pure, Except.pure])

theorem parseAndLoop_stop (fuel : Nat) (p : Parser) (left : Expression) (y : Token)
    (hy : p.tokens[p.current]? = some y) (hn : y.type ≠ TokenType.AND) :
    parseAndLoop (fuel + 1) p left = Except.ok (left, p) := by
  rw [parseAndLoop]
  simp [Parser.matchToken_of_ne hy hn, bind, Except.bind, pure, Except.pure]

theorem parseAndLoop_step (fuel : Nat) (p p1 : Parser) (left right : Expression) (y : Token)
    (hy : p.tokens[p.current]? = some y) (ha : y.type = TokenType.AND)
    (hc : parseComparison fuel ⟨p.tokens, p.current + 1⟩ = Except.ok (right, p1)) :
    parseAndLoop (fuel + 1) p left =
      parseAndLoop fuel p1 (Expression.BinaryExpression left right Operator.AND) := by
  rw [parseAndLoop]
  simp [Parser.matchToken_of_eq hy ha, hc, bind, Except.bind, pure, Except.pure]

theorem parseAnd_of (fuel : Nat) (p p1 : Parser) (e : Expression)
    (hc : parseComparison fuel p = Except.ok (e, p1)) :
    parseAnd (fuel + 1) p = parseAndLoop fuel p1 e := by
  rw [parseAnd]
  simp [hc, bind, Except.bind]

theorem parseOrLoop_stop (fuel : Nat) (p : Parser) (left : Expression) (y : Token)
    (hy : p.tokens[p.current]? = some y) (hn : y.type ≠ TokenType.OR) :
    parseOrLoop (fuel + 1) p left = Except.ok (left, p) := by
  rw [parseOrLoop]
  simp [Parser.matchToken_of_ne hy hn, bind, Except.bind, pure, Except.pure]

theorem parseOrLoop_step (fuel : Nat) (p p1 : Parser) (left right : Expression) (y : Token)
    (hy : p.tokens[p.current]? = some y) (ha : y.type = TokenType.OR)
    (hc : parseAnd fuel ⟨p.tokens, p.current + 1⟩ = Except.ok (right, p1)) :
    parseOrLoop (fuel + 1) p left =
      parseOrLoop fuel p1 (Expression.BinaryExpression left right Operator.OR) := by
  rw [parseOrLoop]
  simp [Parser.matchToken_of_eq hy ha, hc, bind, Except.bind, pure, Except.pure]

theorem parseOr_of (fuel : Nat) (p p1 : Parser) (e : Expression)
    (hc : parseAnd fuel p = Except.ok (e, p1)) :
    parseOr (fuel + 1) p = parseOrLoop fuel p1 e := by
  rw [parseOr]
  simp [hc, bind, Except.bind]


theorem parseComparison_fuel_pos {fuel : Nat} {p : Parser} {r : Expression × Parser}
    (h : parseComparison fuel p = Except.ok r) : ∃ k, fuel = k + 1 := by
  cases fuel with
  | zero => rw [parseComparison] at h; exact Except.noConfusion h
  | succ k => exact ⟨k, rfl⟩

/-- A comparison followed by a token other than AND is what `parseAnd` returns. -/
theorem parseAnd_one (k : Nat) (p p1 : Parser) (e : Expression) (y : Token)
    (hc : ∀ fuel, k ≤ fuel → parseComparison fuel p = Except.ok (e, p1))
    (hy : p1.tokens[p1.current]? = some y) (hn : y.type ≠ TokenType.AND) :
    ∀ fuel, k + 2 ≤ fuel → parseAnd fuel p = Except.ok (e, p1) := by
  intro fuel hf
  obtain ⟨f, rfl⟩ : ∃ f, fuel = f + 2 := ⟨fuel - 2, by omega⟩
  rw [parseAnd_of (f + 1) p p1 e (hc _ (by omega)), parseAndLoop_stop f p1 e y hy hn]

/-- Two comparisons joined by AND. -/
theorem parseAnd_two (k : Nat) (p p1 p2 : Parser) (e1 e2 : Expression) (a y : Token)
    (hc1 : ∀ fuel, k ≤ fuel → parseComparison fuel p = Except.ok (e1, p1))
    (ha : p1.tokens[p1.current]? = some a) (hat : a.type = TokenType.AND)
    (hc2 : ∀ fuel, k ≤ fuel →
      parseComparison fuel ⟨p1.tokens, p1.current + 1⟩ = Except.ok (e2, p2))
    (hy : p2.tokens[p2.current]? = some y) (hn : y.type ≠ TokenType.AND) :
    ∀ fuel, k + 3 ≤ fuel →
      parseAnd fuel p =
        Except.ok (Expression.BinaryExpression e1 e2 Operator.AND, p2) := by
  intro fuel hf
  obtain ⟨f, rfl⟩ : ∃ f, fuel = f + 3 := ⟨fuel - 3, by omega⟩
  rw [parseAnd_of (f + 2) p p1 e1 (hc1 _ (by omega)),
    parseAndLoop_step (f + 1) p1 p2 e1 e2 a ha hat (hc2 _ (by omega)),
    parseAndLoop_stop f p2 _ y hy hn]

/-- Three comparisons joined by AND associate to the left. -/
theorem parseAnd_three (k : Nat) (p p1 p2 p3 : Parser) (e1 e2 e3 : Expression)
    (a b y : Token)
    (hc1 : ∀ fuel, k ≤ fuel → parseComparison fuel p = Except.ok (e1, p1))
    (ha : p1.tokens[p1.current]? = some a) (hat : a.type = TokenType.AND)
    (hc2 : ∀ fuel, k ≤ fuel →
      parseComparison fuel ⟨p1.tokens, p1.current + 1⟩ = Except.ok (e2, p2))
    (hb : p2.tokens[p2.current]? = some b) (hbt : b.type = TokenType.AND)
    (hc3 : ∀ fuel, k ≤ fuel →
      parseComparison fuel ⟨p2.tokens, p2.current + 1⟩ = Except.ok (e3, p3))
    (hy : p3.tokens[p3.current]? = some y) (hn : y.type ≠ TokenType.AND) :
    ∀ fuel, k + 4 ≤ fuel →
      parseAnd fuel p =
        Except.ok (Expression.BinaryExpression
          (Expression.BinaryExpression e1 e2 Operator.AND) e3 Operator.AND, p3) := by
  intro fuel hf
  obtain ⟨f, rfl⟩ : ∃ f, fuel = f + 4 := ⟨fuel - 4, by omega⟩
  rw [parseAnd_of (f + 3) p p1 e1 (hc1 _ (by omega)),
    parseAndLoop_step (f + 2) p1 p2 e1 e2 a ha hat (hc2 _ (by omega)),
    parseAndLoop_step (f + 1) p2 p3 _ e3 b hb hbt (hc3 _ (by omega)),
    parseAndLoop_stop f p3 _ y hy hn]

/-- An AND chain followed by a token other than OR is what `parseOr` returns. -/
theorem parseOr_one (k : Nat) (p p1 : Parser) (e : Expression) (y : Token)
    (hc : ∀ fuel, k ≤ fuel → parseAnd fuel p = Except.ok (e, p1))
    (hy : p1.tokens[p1.current]? = some y) (hn : y.type ≠ TokenType.OR) :
    ∀ fuel, k + 2 ≤ fuel → parseOr fuel p = Except.ok (e, p1) := by
  intro fuel hf
  obtain ⟨f, rfl⟩ : ∃ f, fuel = f + 2 := ⟨fuel - 2, by omega⟩
  rw [parseOr_of (f + 1) p p1 e (hc _ (by omega)), parseOrLoop_stop f p1 e y hy hn]

/-- Two AND chains joined by OR. -/
theorem parseOr_two (k : Nat) (p p1 p2 : Parser) (e1 e2 : Expression) (a y : Token)
    (hc1 : ∀ fuel, k ≤ fuel → parseAnd fuel p = Except.ok (e1, p1))
    (ha : p1.tokens[p1.current]? = some a) (hat : a.type = TokenType.OR)
    (hc2 : ∀ fuel, k ≤ fuel →
      parseAnd fuel ⟨p1.tokens, p1.current + 1⟩ = Except.ok (e2, p2))
    (hy : p2.tokens[p2.current]? = some y) (hn : y.type ≠ TokenType.OR) :
    ∀ fuel, k + 3 ≤ fuel →
      parseOr fuel p =
        Except.ok (Expression.BinaryExpression e1 e2 Operator.OR, p2) := by
  intro fuel hf
  obtain ⟨f, rfl⟩ : ∃ f, fuel = f + 3 := ⟨fuel - 3, by omega⟩
  rw [parseOr_of (f + 2) p p1 e1 (hc1 _ (by omega)),
    parseOrLoop_step (f + 1) p1 p2 e1 e2 a ha hat (hc2 _ (by omega)),
    parseOrLoop_stop f p2 _ y hy hn]

/-- Three AND chains joined by OR associate to the left. -/
theorem parseOr_three (k : Nat) (p p1 p2 p3 : Parser) (e1 e2 e3 : Expression)
    (a b y : Token)
    (hc1 : ∀ fuel, k ≤ fuel → parseAnd fuel p = Except.ok (e1, p1))
    (ha : p1.tokens[p1.current]? = some a) (hat : a.type = TokenType.OR)
    (hc2 : ∀ fuel, k ≤ fuel →
      parseAnd fuel ⟨p1.tokens, p1.current + 1⟩ = Except.ok (e2, p2))
    (hb : p2.tokens[p2.current]? = some b) (hbt : b.type = TokenType.OR)
    (hc3 : ∀ fuel, k ≤ fuel →
      parseAnd fuel ⟨p2.tokens, p2.current + 1⟩ = Except.ok (e3, p3))
    (hy : p3.tokens[p3.current]? = some y) (hn : y.type ≠ TokenType.OR) :
    ∀ fuel, k + 4 ≤ fuel →
      parseOr fuel p =
        Except.ok (Expression.BinaryExpression
          (Expression.BinaryExpression e1 e2 Operator.OR) e3 Operator.OR, p3) := by
  intro fuel hf
  obtain ⟨f, rfl⟩ : ∃ f, fuel = f + 4 := ⟨fuel - 4, by omega⟩
  rw [parseOr_of (f + 3) p p1 e1 (hc1 _ (by omega)),
    parseOrLoop_step (f + 2) p1 p2 e1 e2 a ha hat (hc2 _ (by omega)),
    parseOrLoop_step (f + 1) p2 p3 _ e3 b hb hbt (hc3 _ (by omega)),
    parseOrLoop_stop f p3 _ y hy hn]

theorem parseExpression_of_or (k : Nat) (p : Parser) (r : Expression × Parser)
    (hc : ∀ fuel, k ≤ fuel → parseOr fuel p = Except.ok r) :
    ∀ fuel, k + 1 ≤ fuel → parseExpression fuel p = Except.ok r := by
  intro fuel hf
  obtain ⟨f, rfl⟩ : ∃ f, fuel = f + 1 := ⟨fuel - 1, by omega⟩
  rw [parseExpression, hc _ (by omega)]

/-- A parenthesized expression is a primary. -/
theorem parsePrimary_parenthesized (k : Nat) (p p1 : Parser) (e : Expression) (l r : Token)
    (hl : p.tokens[p.current]? = some l) (hlt : l.type = TokenType.LEFT_PAREN)
    (hc : ∀ fuel, k ≤ fuel →
      parseExpression fuel ⟨p.tokens, p.current + 1⟩ = Except.ok (e, p1))
    (hr : p1.tokens[p1.current]? = some r) (hrt : r.type = TokenType.RIGHT_PAREN) :
    ∀ fuel, k + 1 ≤ fuel →
      parsePrimary fuel p = Except.ok (e, ⟨p1.tokens, p1.current + 1⟩) := by
  intro fuel hf
  obtain ⟨f, rfl⟩ : ∃ f, fuel = f + 1 := ⟨fuel - 1, by omega⟩
  rw [parsePrimary_paren f p l hl hlt, hc _ (by omega)]
  simp [Parser.matchToken_of_eq hr hrt, bind, Except.bind, pure, Except.pure]

/-- A primary followed by a token that is no comparison operator is a
comparison. -/
theorem parseComparison_of_primary (k : Nat) (p p1 : Parser) (e : Expression) (y : Token)
    (hc : ∀ fuel, k ≤ fuel → parsePrimary fuel p = Except.ok (e, p1))
    (hy : p1.tokens[p1.current]? = some y) (hn : comparisonOf y.type = none) :
    ∀ fuel, k + 1 ≤ fuel → parseComparison fuel p = Except.ok (e, p1) := by
  intro fuel hf
  obtain ⟨f, rfl⟩ : ∃ f, fuel = f + 1 := ⟨fuel - 1, by omega⟩
  exact parseComparison_single f p p1 e y (hc _ (by omega)) hy hn


theorem getElem?_append_add (pre l : List Token) (i : Nat) :
    (pre ++ l)[pre.length + i]? = l[i]? := by
  rw [List.getElem?_append_right (Nat.le_add_right _ _), Nat.add_sub_cancel_left]

/-- The comparison `l op r` of two primary tokens, whatever follows it. -/
theorem parseComparison_tokens (p : Parser) (l op r : Token) (o : Operator)
    (h0 : p.tokens[p.current]? = some l) (h1 : p.tokens[p.current + 1]? = some op)
    (h2 : p.tokens[p.current + 1 + 1]? = some r)
    (hl : isPrimaryToken l) (hr : isPrimaryToken r) (ho : comparisonOf op.type = some o) :
    ∀ fuel, 2 ≤ fuel →
      parseComparison fuel p =
        Except.ok (Expression.BinaryExpression (primaryOf l) (primaryOf r) o,
          ⟨p.tokens, p.current + 1 + 1 + 1⟩) := by
  intro fuel hf
  obtain ⟨f, rfl⟩ : ∃ f, fuel = f + 2 := ⟨fuel - 2, by omega⟩
  exact parseComparison_binary (f + 1) p ⟨p.tokens, p.current + 1⟩ _ _ _ op o
    (parsePrimary_leaf f p l h0 hl) h1 ho
    (parsePrimary_leaf f ⟨p.tokens, p.current + 1 + 1⟩ r h2 hr)

/-- The comparison that is one primary token, before a token that is no
comparison operator. -/
theorem parseComparison_token (p : Parser) (l y : Token)
    (h0 : p.tokens[p.current]? = some l) (h1 : p.tokens[p.current + 1]? = some y)
    (hl : isPrimaryToken l) (hy : comparisonOf y.type = none) :
    ∀ fuel, 2 ≤ fuel →
      parseComparison fuel p = Except.ok (primaryOf l, ⟨p.tokens, p.current + 1⟩) := by
  intro fuel hf
  obtain ⟨f, rfl⟩ : ∃ f, fuel = f + 2 := ⟨fuel - 2, by omega⟩
  exact parseComparison_single (f + 1) p ⟨p.tokens, p.current + 1⟩ _ y
    (parsePrimary_leaf f p l h0 hl) h1 hy

/-- A comparison followed by a token that is neither AND nor OR is what
`parseExpression` returns. -/
theorem parseExpression_of_comparison (k : Nat) (p p1 : Parser) (e : Expression) (y : Token)
    (hc : ∀ fuel, k ≤ fuel → parseComparison fuel p = Except.ok (e, p1))
    (hy : p1.tokens[p1.current]? = some y) (hna : y.type ≠ TokenType.AND)
    (hno : y.type ≠ TokenType.OR) :
    ∀ fuel, k + 5 ≤ fuel → parseExpression fuel p = Except.ok (e, p1) :=
  parseExpression_of_or (k + 4) p (e, p1)
    (parseOr_one (k + 2) p p1 e y (parseAnd_one k p p1 e y hc hy hna) hy hno)

/-- The statement `SELECT a FROM t WHERE ...`: the parse is the parse of the
predicate that starts at the sixth token. -/
theorem parse_select_where (sel a frm tbl whr : Token) (rest : List Token)
    (hsel : sel.type = TokenType.SELECT) (ha : a.type = TokenType.IDENTIFIER)
    (hfrm : frm.type = TokenType.FROM) (htbl : tbl.type = TokenType.IDENTIFIER)
    (hwhr : whr.type = TokenType.WHERE) (e : Expression) (p1 : Parser)
    (he : parseExpression (parseFuel (sel :: a :: frm :: tbl :: whr :: rest))
      ⟨sel :: a :: frm :: tbl :: whr :: rest, 5⟩ = Except.ok (e, p1)) :
    parse (sel :: a :: frm :: tbl :: whr :: rest) =
      Except.ok (Statement.SelectStatement [Expression.ColumnExpression a.value] tbl.value
        (some e)) := by
  generalize htoks : sel :: a :: frm :: tbl :: whr :: rest = toks at he ⊢
  have h0 : toks[0]? = some sel := by rw [← htoks]; rfl
  have h1 : toks[0 + 1]? = some a := by rw [← htoks]; rfl
  have h2 : toks[0 + 1 + 1]? = some frm := by rw [← htoks]; rfl
  have h3 : toks[0 + 1 + 1 + 1]? = some tbl := by rw [← htoks]; rfl
  have h4 : toks[0 + 1 + 1 + 1 + 1]? = some whr := by rw [← htoks]; simp
  have hF : parseFuel toks = (5 * toks.length + 7) + 1 := rfl
  have m0 : (Parser.new toks).matchToken TokenType.SELECT = Except.ok (true, ⟨toks, 0 + 1⟩) :=
    Parser.matchToken_of_eq (p := Parser.new toks) h0 hsel
  have m1 := parseColumnListLoop_step (5 * toks.length + 7) ⟨toks, 0 + 1⟩ [] a h1 (Or.inr ha)
  have m2 : Parser.matchToken ⟨toks, 0 + 1 + 1⟩ TokenType.COMMA =
      Except.ok (false, ⟨toks, 0 + 1 + 1⟩) :=
    Parser.matchToken_of_ne (p := ⟨toks, 0 + 1 + 1⟩) h2 (by rw [hfrm]; decide)
  have m3 : Parser.matchToken ⟨toks, 0 + 1 + 1⟩ TokenType.FROM =
      Except.ok (true, ⟨toks, 0 + 1 + 1 + 1⟩) :=
    Parser.matchToken_of_eq (p := ⟨toks, 0 + 1 + 1⟩) h2 hfrm
  have m4 : Parser.peek ⟨toks, 0 + 1 + 1 + 1⟩ = Except.ok tbl :=
    Parser.peek_of (p := ⟨toks, 0 + 1 + 1 + 1⟩) h3
  have m5 : Parser.advance ⟨toks, 0 + 1 + 1 + 1⟩ =
      Except.ok (tbl, ⟨toks, 0 + 1 + 1 + 1 + 1⟩) :=
    Parser.advance_of (p := ⟨toks, 0 + 1 + 1 + 1⟩) h3
  have m6 : Parser.matchToken ⟨toks, 0 + 1 + 1 + 1 + 1⟩ TokenType.WHERE =
      Except.ok (true, ⟨toks, 0 + 1 + 1 + 1 + 1 + 1⟩) :=
    Parser.matchToken_of_eq (p := ⟨toks, 0 + 1 + 1 + 1 + 1⟩) h4 hwhr
  have ha2 : a.type ≠ TokenType.STAR := by rw [ha]; decide
  unfold parse Parser.parse
  simp only [m0, bind, Except.bind, if_true, Parser.parseSelect, Parser.parseColumnList]
  rw [hF] at he ⊢
  rw [m1]
  simp only [m2, m3, m4, m5, m6, he, htbl, bind, Except.bind, pure, Except.pure, Except.map,
    Bool.false_eq_true, if_false, if_true, projectionOf, ha2, List.nil_append]


theorem comparisonOf_ne_and_or {t : TokenType} (h : comparisonOf t ≠ none) :
    t ≠ TokenType.AND ∧ t ≠ TokenType.OR := by
  constructor <;> (intro ht; rw [ht] at h; exact h rfl)

theorem comparisonOf_pairs (t : TokenType) (o : Operator)
    (h : (t, o) ∈ [(TokenType.EQUALS, Operator.EQUALS),
      (TokenType.NOT_EQUALS, Operator.NOT_EQUALS), (TokenType.LESS_THAN, Operator.LESS_THAN),
      (TokenType.GREATER_THAN, Operator.GREATER_THAN),
      (TokenType.LESS_EQUAL, Operator.LESS_EQUAL),
      (TokenType.GREATER_EQUAL, Operator.GREATER_EQUAL)]) :
    comparisonOf t = some o := by
  simp only [List.mem_cons, List.mem_singleton, List.not_mem_nil, or_false, Prod.mk.injEq] at h
  rcases h with ⟨rfl, rfl⟩ | ⟨rfl, rfl⟩ | ⟨rfl, rfl⟩ | ⟨rfl, rfl⟩ | ⟨rfl, rfl⟩ | ⟨rfl, rfl⟩ <;> rfl

/-- The statement `SELECT x FROM t WHERE l op r` followed by a token that is
neither AND nor OR: the predicate is the comparison, the rest is not read. -/
theorem parse_select_where_comparison (sel x frm tbl whr l op r y : Token) (rest : List Token)
    (o : Operator)
    (hsel : sel.type = TokenType.SELECT) (hx : x.type = TokenType.IDENTIFIER)
    (hfrm : frm.type = TokenType.FROM) (htbl : tbl.type = TokenType.IDENTIFIER)
    (hwhr : whr.type = TokenType.WHERE) (hl : isPrimaryToken l) (hr : isPrimaryToken r)
    (ho : comparisonOf op.type = some o) (hna : y.type ≠ TokenType.AND)
    (hno : y.type ≠ TokenType.OR) :
    parse (sel :: x :: frm :: tbl :: whr :: l :: op :: r :: y :: rest) =
      Except.ok (Statement.SelectStatement [Expression.ColumnExpression x.value] tbl.value
        (some (Expression.BinaryExpression (primaryOf l) (primaryOf r) o))) := by
  apply parse_select_where sel x frm tbl whr _ hsel hx hfrm htbl hwhr _
    ⟨sel :: x :: frm :: tbl :: whr :: l :: op :: r :: y :: rest, 5 + 1 + 1 + 1⟩
  apply parseExpression_of_comparison 2 _ _ _ y
  · exact parseComparison_tokens
      ⟨sel :: x :: frm :: tbl :: whr :: l :: op :: r :: y :: rest, 5⟩ l op r o
      (by simp) (by simp) (by simp) hl hr ho
  · simp
  · exact hna
  · exact hno
  · simp only [parseFuel, List.length_cons]
    omega

/-- The statement `SELECT x FROM t WHERE l` followed by a token that is no
comparison operator, AND or OR: the predicate is the primary, the rest is not
read. -/
theorem parse_select_where_primary (sel x frm tbl whr l y : Token) (rest : List Token)
    (hsel : sel.type = TokenType.SELECT) (hx : x.type = TokenType.IDENTIFIER)
    (hfrm : frm.type = TokenType.FROM) (htbl : tbl.type = TokenType.IDENTIFIER)
    (hwhr : whr.type = TokenType.WHERE) (hl : isPrimaryToken l)
    (hy : comparisonOf y.type = none) (hna : y.type ≠ TokenType.AND)
    (hno : y.type ≠ TokenType.OR) :
    parse (sel :: x :: frm :: tbl :: whr :: l :: y :: rest) =
      Except.ok (Statement.SelectStatement [Expression.ColumnExpression x.value] tbl.value
        (some (primaryOf l))) := by
  apply parse_select_where sel x frm tbl whr _ hsel hx hfrm htbl hwhr _
    ⟨sel :: x :: frm :: tbl :: whr :: l :: y :: rest, 5 + 1⟩
  apply parseExpression_of_comparison 2 _ _ _ y
  · exact parseComparison_token
      ⟨sel :: x :: frm :: tbl :: whr :: l :: y :: rest, 5⟩ l y (by simp) (by simp) hl hy
  · simp
  · exact hna
  · exact hno
  · simp only [parseFuel, List.length_cons]
    omega

/-- C11: for primary tokens `l` and `r` (NUMBER, STRING or IDENTIFIER) and a
comparison operator token `op`, the tokens SELECT a FROM t WHERE l op r
END_OF_FILE parse to a SelectStatement whose predicate is the
BinaryExpression of the operator of `op` with the node of `l` on the left and
the node of `r` on the right; the node of an IDENTIFIER is a ColumnExpression
with its text, the node of a NUMBER or STRING a LiteralExpression with the
raw text and the literal kind. -/
theorem parse_where_comparison (sel a frm tbl whr l op r eof : Token) (o : Operator)
    (hsel : sel.type = TokenType.SELECT) (ha : a.type = TokenType.IDENTIFIER)
    (hfrm : frm.type = TokenType.FROM) (htbl : tbl.type = TokenType.IDENTIFIER)
    (hwhr : whr.type = TokenType.WHERE) (heof : eof.type = TokenType.END_OF_FILE)
    (hl : l.type = TokenType.NUMBER ∨ l.type = TokenType.STRING ∨
      l.type = TokenType.IDENTIFIER)
    (hr : r.type = TokenType.NUMBER ∨ r.type = TokenType.STRING ∨
      r.type = TokenType.IDENTIFIER)
    (ho : (op.type, o) ∈ [(TokenType.EQUALS, Operator.EQUALS),
      (TokenType.NOT_EQUALS, Operator.NOT_EQUALS), (TokenType.LESS_THAN, Operator.LESS_THAN),
      (TokenType.GREATER_THAN, Operator.GREATER_THAN),
      (TokenType.LESS_EQUAL, Operator.LESS_EQUAL),
      (TokenType.GREATER_EQUAL, Operator.GREATER_EQUAL)]) :
    parse [sel, a, frm, tbl, whr, l, op, r, eof] =
      Except.ok (Statement.SelectStatement [Expression.ColumnExpression a.value] tbl.value
        (some (Expression.BinaryExpression (primaryOf l) (primaryOf r) o))) ∧
    (l.type = TokenType.IDENTIFIER → primaryOf l = Expression.ColumnExpression l.value) ∧
    (l.type = TokenType.NUMBER →
      primaryOf l = Expression.LiteralExpression l.value LiteralType.NUMBER) ∧
    (l.type = TokenType.STRING →
      primaryOf l = Expression.LiteralExpression l.value LiteralType.STRING) := by
  refine ⟨parse_select_where_comparison sel a frm tbl whr l op r eof [] o hsel ha hfrm htbl hwhr
    hl hr (comparisonOf_pairs _ _ ho) (by rw [heof]; decide) (by rw [heof]; decide), ?_, ?_, ?_⟩
  · intro h; simp [primaryOf, h]
  · intro h; simp [primaryOf, h]
  · intro h; simp [primaryOf, h]

/-- C11, at the tokens of `SELECT a FROM t WHERE a = 1`. -/
theorem parse_where_comparison_witness :
    tokenize "SELECT a FROM t WHERE a = 1".toList =
      some [⟨TokenType.SELECT, "SELECT".toList, 0⟩, ⟨TokenType.IDENTIFIER, ['a'], 7⟩,
        ⟨TokenType.FROM, "FROM".toList, 9⟩, ⟨TokenType.IDENTIFIER, ['t'], 14⟩,
        ⟨TokenType.WHERE, "WHERE".toList, 16⟩, ⟨TokenType.IDENTIFIER, ['a'], 22⟩,
        ⟨TokenType.EQUALS, ['='], 24⟩, ⟨TokenType.NUMBER, ['1'], 26⟩,
        ⟨TokenType.END_OF_FILE, [], 27⟩] ∧
    parse [⟨TokenType.SELECT, "SELECT".toList, 0⟩, ⟨TokenType.IDENTIFIER, ['a'], 7⟩,
        ⟨TokenType.FROM, "FROM".toList, 9⟩, ⟨TokenType.IDENTIFIER, ['t'], 14⟩,
        ⟨TokenType.WHERE, "WHERE".toList, 16⟩, ⟨TokenType.IDENTIFIER, ['a'], 22⟩,
        ⟨TokenType.EQUALS, ['='], 24⟩, ⟨TokenType.NUMBER, ['1'], 26⟩,
        ⟨TokenType.END_OF_FILE, [], 27⟩] =
      Except.ok (Statement.SelectStatement [Expression.ColumnExpression ['a']] ['t']
        (some (Expression.BinaryExpression (Expression.ColumnExpression ['a'])
          (Expression.LiteralExpression ['1'] LiteralType.NUMBER) Operator.EQUALS))) :=
  ⟨by decide,
    (parse_where_comparison ⟨TokenType.SELECT, "SELECT".toList, 0⟩
      ⟨TokenType.IDENTIFIER, ['a'], 7⟩ ⟨TokenType.FROM, "FROM".toList, 9⟩
      ⟨TokenType.IDENTIFIER, ['t'], 14⟩ ⟨TokenType.WHERE, "WHERE".toList, 16⟩
      ⟨TokenType.IDENTIFIER, ['a'], 22⟩ ⟨TokenType.EQUALS, ['='], 24⟩
      ⟨TokenType.NUMBER, ['1'], 26⟩ ⟨TokenType.END_OF_FILE, [], 27⟩ Operator.EQUALS
      rfl rfl rfl rfl rfl rfl (Or.inr (Or.inr rfl)) (Or.inl rfl) (by simp)).1⟩


/-- C15, amended: a chained comparison and an arithmetic operator are not
parsed and not rejected. For primary tokens `a` and `b`, in SELECT x FROM t
WHERE a op b op2 ... with comparison operators `op` and `op2` the parse
succeeds with the predicate `a op b`, and in SELECT x FROM t WHERE a ar ...
with `ar` one of `+ - * /` it succeeds with the predicate `a`; the tokens from
`op2` or `ar` on are not read. -/
theorem parse_where_chain_or_arithmetic (sel x frm tbl whr a op b op2 ar : Token)
    (rest rest2 : List Token) (o : Operator)
    (hsel : sel.type = TokenType.SELECT) (hx : x.type = TokenType.IDENTIFIER)
    (hfrm : frm.type = TokenType.FROM) (htbl : tbl.type = TokenType.IDENTIFIER)
    (hwhr : whr.type = TokenType.WHERE)
    (ha : a.type = TokenType.NUMBER ∨ a.type = TokenType.STRING ∨
      a.type = TokenType.IDENTIFIER)
    (hb : b.type = TokenType.NUMBER ∨ b.type = TokenType.STRING ∨
      b.type = TokenType.IDENTIFIER)
    (ho : comparisonOf op.type = some o) (ho2 : comparisonOf op2.type ≠ none)
    (har : ar.type ∈ [TokenType.PLUS, TokenType.MINUS, TokenType.STAR, TokenType.SLASH]) :
    parse (sel :: x :: frm :: tbl :: whr :: a :: op :: b :: op2 :: rest) =
      Except.ok (Statement.SelectStatement [Expression.ColumnExpression x.value] tbl.value
        (some (Expression.BinaryExpression (primaryOf a) (primaryOf b) o))) ∧
    parse (sel :: x :: frm :: tbl :: whr :: a :: ar :: rest2) =
      Except.ok (Statement.SelectStatement [Expression.ColumnExpression x.value] tbl.value
        (some (primaryOf a))) := by
  constructor
  · exact parse_select_where_comparison sel x frm tbl whr a op b op2 rest o hsel hx hfrm htbl
      hwhr ha hb ho (comparisonOf_ne_and_or ho2).1 (comparisonOf_ne_and_or ho2).2
  · simp only [List.mem_cons, List.mem_singleton, List.not_mem_nil, or_false] at har
    apply parse_select_where_primary sel x frm tbl whr a ar rest2 hsel hx hfrm htbl hwhr ha
    all_goals rcases har with h | h | h | h <;> rw [h] <;> decide

/-- C15, amended, at the tokens of `SELECT x FROM t WHERE a = b = c` and of
`SELECT x FROM t WHERE a + 1`. -/
theorem parse_where_chain_or_arithmetic_witness :
    parse [⟨TokenType.SELECT, "SELECT".toList, 0⟩, ⟨TokenType.IDENTIFIER, ['x'], 7⟩,
        ⟨TokenType.FROM, "FROM".toList, 9⟩, ⟨TokenType.IDENTIFIER, ['t'], 14⟩,
        ⟨TokenType.WHERE, "WHERE".toList, 16⟩, ⟨TokenType.IDENTIFIER, ['a'], 22⟩,
        ⟨TokenType.EQUALS, ['='], 24⟩, ⟨TokenType.IDENTIFIER, ['b'], 26⟩,
        ⟨TokenType.EQUALS, ['='], 28⟩, ⟨TokenType.IDENTIFIER, ['c'], 30⟩,
        ⟨TokenType.END_OF_FILE, [], 31⟩] =
      Except.ok (Statement.SelectStatement [Expression.ColumnExpression ['x']] ['t']
        (some (Expression.BinaryExpression (Expression.ColumnExpression ['a'])
          (Expression.ColumnExpression ['b']) Operator.EQUALS))) ∧
    parse [⟨TokenType.SELECT, "SELECT".toList, 0⟩, ⟨TokenType.IDENTIFIER, ['x'], 7⟩,
        ⟨TokenType.FROM, "FROM".toList, 9⟩, ⟨TokenType.IDENTIFIER, ['t'], 14⟩,
        ⟨TokenType.WHERE, "WHERE".toList, 16⟩, ⟨TokenType.IDENTIFIER, ['a'], 22⟩,
        ⟨TokenType.PLUS, ['+'], 24⟩, ⟨TokenType.NUMBER, ['1'], 26⟩,
        ⟨TokenType.END_OF_FILE, [], 27⟩] =
      Except.ok (Statement.SelectStatement [Expression.ColumnExpression ['x']] ['t']
        (some (Expression.ColumnExpression ['a']))) := by
  have h := parse_where_chain_or_arithmetic ⟨TokenType.SELECT, "SELECT".toList, 0⟩
    ⟨TokenType.IDENTIFIER, ['x'], 7⟩ ⟨TokenType.FROM, "FROM".toList, 9⟩
    ⟨TokenType.IDENTIFIER, ['t'], 14⟩ ⟨TokenType.WHERE, "WHERE".toList, 16⟩
    ⟨TokenType.IDENTIFIER, ['a'], 22⟩ ⟨TokenType.EQUALS, ['='], 24⟩
    ⟨TokenType.IDENTIFIER, ['b'], 26⟩ ⟨TokenType.EQUALS, ['='], 28⟩
    ⟨TokenType.PLUS, ['+'], 24⟩
    [⟨TokenType.IDENTIFIER, ['c'], 30⟩, ⟨TokenType.END_OF_FILE, [], 31⟩]
    [⟨TokenType.NUMBER, ['1'], 26⟩, ⟨TokenType.END_OF_FILE, [], 27⟩] Operator.EQUALS
    rfl rfl rfl rfl rfl (Or.inr (Or.inr rfl)) (Or.inr (Or.inr rfl)) rfl (by decide) (by decide)
  exact h

/-- C15 as stated fails: the tokens of `SELECT x FROM t WHERE a = b = c` and
of `SELECT x FROM t WHERE a + 1` are what `tokenize` returns for these texts,
and `parse` returns a statement for both, no error. -/
theorem parse_chain_and_arithmetic_accepted :
    tokenize "SELECT x FROM t WHERE a = b = c".toList =
      some [⟨TokenType.SELECT, "SELECT".toList, 0⟩, ⟨TokenType.IDENTIFIER, ['x'], 7⟩,
        ⟨TokenType.FROM, "FROM".toList, 9⟩, ⟨TokenType.IDENTIFIER, ['t'], 14⟩,
        ⟨TokenType.WHERE, "WHERE".toList, 16⟩, ⟨TokenType.IDENTIFIER, ['a'], 22⟩,
        ⟨TokenType.EQUALS, ['='], 24⟩, ⟨TokenType.IDENTIFIER, ['b'], 26⟩,
        ⟨TokenType.EQUALS, ['='], 28⟩, ⟨TokenType.IDENTIFIER, ['c'], 30⟩,
        ⟨TokenType.END_OF_FILE, [], 31⟩] ∧
    (∃ s, parse [⟨TokenType.SELECT, "SELECT".toList, 0⟩, ⟨TokenType.IDENTIFIER, ['x'], 7⟩,
        ⟨TokenType.FROM, "FROM".toList, 9⟩, ⟨TokenType.IDENTIFIER, ['t'], 14⟩,
        ⟨TokenType.WHERE, "WHERE".toList, 16⟩, ⟨TokenType.IDENTIFIER, ['a'], 22⟩,
        ⟨TokenType.EQUALS, ['='], 24⟩, ⟨TokenType.IDENTIFIER, ['b'], 26⟩,
        ⟨TokenType.EQUALS, ['='], 28⟩, ⟨TokenType.IDENTIFIER, ['c'], 30⟩,
        ⟨TokenType.END_OF_FILE, [], 31⟩] = Except.ok s) ∧
    tokenize "SELECT x FROM t WHERE a + 1".toList =
      some [⟨TokenType.SELECT, "SELECT".toList, 0⟩, ⟨TokenType.IDENTIFIER, ['x'], 7⟩,
        ⟨TokenType.FROM, "FROM".toList, 9⟩, ⟨TokenType.IDENTIFIER, ['t'], 14⟩,
        ⟨TokenType.WHERE, "WHERE".toList, 16⟩, ⟨TokenType.IDENTIFIER, ['a'], 22⟩,
        ⟨TokenType.PLUS, ['+'], 24⟩, ⟨TokenType.NUMBER, ['1'], 26⟩,
        ⟨TokenType.END_OF_FILE, [], 27⟩] ∧
    (∃ s, parse [⟨TokenType.SELECT, "SELECT".toList, 0⟩, ⟨TokenType.IDENTIFIER, ['x'], 7⟩,
        ⟨TokenType.FROM, "FROM".toList, 9⟩, ⟨TokenType.IDENTIFIER, ['t'], 14⟩,
        ⟨TokenType.WHERE, "WHERE".toList, 16⟩, ⟨TokenType.IDENTIFIER, ['a'], 22⟩,
        ⟨TokenType.PLUS, ['+'], 24⟩, ⟨TokenType.NUMBER, ['1'], 26⟩,
        ⟨TokenType.END_OF_FILE, [], 27⟩] = Except.ok s) :=
  ⟨by decide,
    ⟨Statement.SelectStatement [Expression.ColumnExpression ['x']] ['t']
      (some (Expression.BinaryExpression (Expression.ColumnExpression ['a'])
        (Expression.ColumnExpression ['b']) Operator.EQUALS)), by decide⟩,
    by decide,
    ⟨Statement.SelectStatement [Expression.ColumnExpression ['x']] ['t']
      (some (Expression.ColumnExpression ['a'])), by decide⟩⟩


/-! ## Precedence of AND and OR -/

theorem parsesComparison_tokens (l op r : Token) (o : Operator) (hl : isPrimaryToken l)
    (hr : isPrimaryToken r) (ho : comparisonOf op.type = some o) :
    ParsesComparison [l, op, r]
      (Expression.BinaryExpression (primaryOf l) (primaryOf r) o) := by
  intro pre post y fuel hf _
  have h := parseComparison_tokens ⟨pre ++ ([l, op, r] ++ y :: post), pre.length⟩ l op r o
    (by show (pre ++ _)[pre.length + 0]? = _; rw [getElem?_append_add]; simp)
    (by show (pre ++ _)[pre.length + 1]? = _; rw [getElem?_append_add]; simp)
    (by show (pre ++ _)[pre.length + 2]? = _; rw [getElem?_append_add]; simp)
    hl hr ho fuel (by simp at hf; omega)
  rw [h]
  rfl

theorem parsesComparison_token (l : Token) (hl : isPrimaryToken l) :
    ParsesComparison [l] (primaryOf l) := by
  intro pre post y fuel hf hy
  have h := parseComparison_token ⟨pre ++ ([l] ++ y :: post), pre.length⟩ l y
    (by show (pre ++ _)[pre.length + 0]? = _; rw [getElem?_append_add]; simp)
    (by show (pre ++ _)[pre.length + 1]? = _; rw [getElem?_append_add]; simp)
    hl hy fuel (by simp at hf; omega)
  rw [h]
  rfl

theorem parsesComparison_at {x : List Token} {e : Expression} (h : ParsesComparison x e)
    (pre post : List Token) (y : Token) (hy : comparisonOf y.type = none)
    (toks : List Token) (c : Nat) (ht : toks = pre ++ (x ++ y :: post)) (hc : c = pre.length)
    (k : Nat) (hk : 5 * x.length ≤ k) :
    (∀ fuel, k ≤ fuel →
      parseComparison fuel ⟨toks, c⟩ = Except.ok (e, ⟨toks, c + x.length⟩)) ∧
    toks[c + x.length]? = some y := by
  subst ht hc
  refine ⟨fun fuel hf => h pre post y fuel (by omega) hy, ?_⟩
  rw [← List.append_assoc, ← List.length_append]
  exact getElem?_append_cons_length _ _ _

/-- The chain `x OR y AND z`. -/
theorem parseExpression_or_and (x y z : List Token) (ex ey ez : Expression)
    (hx : ParsesComparison x ex) (hy : ParsesComparison y ey) (hz : ParsesComparison z ez)
    (tor tand w : Token) (hor : tor.type = TokenType.OR) (hand : tand.type = TokenType.AND)
    (hw : comparisonOf w.type = none) (hwa : w.type ≠ TokenType.AND)
    (hwo : w.type ≠ TokenType.OR) (pre post toks : List Token)
    (ht : toks = pre ++ (x ++ tor :: (y ++ tand :: (z ++ w :: post)))) :
    ∀ fuel, 5 * (x.length + y.length + z.length) + 7 ≤ fuel →
      parseExpression fuel ⟨toks, pre.length⟩ =
        Except.ok (Expression.BinaryExpression ex
            (Expression.BinaryExpression ey ez Operator.AND) Operator.OR,
          ⟨toks, pre.length + x.length + 1 + y.length + 1 + z.length⟩) := by
  have a1 := parsesComparison_at hx pre (y ++ tand :: (z ++ w :: post)) tor (by rw [hor]; rfl)
    toks pre.length ht rfl (5 * (x.length + y.length + z.length)) (by omega)
  have a2 := parsesComparison_at hy (pre ++ x ++ [tor]) (z ++ w :: post) tand
    (by rw [hand]; rfl) toks (pre.length + x.length + 1) (by rw [ht]; simp)
    (by simp only [List.length_append, List.length_cons, List.length_nil])
    (5 * (x.length + y.length + z.length)) (by omega)
  have a3 := parsesComparison_at hz (pre ++ x ++ [tor] ++ y ++ [tand]) post w hw toks
    (pre.length + x.length + 1 + y.length + 1) (by rw [ht]; simp)
    (by simp only [List.length_append, List.length_cons, List.length_nil])
    (5 * (x.length + y.length + z.length)) (by omega)
  have b1 := parseAnd_one _ ⟨toks, pre.length⟩ _ ex tor a1.1 a1.2 (by rw [hor]; decide)
  have b2 := parseAnd_two _ ⟨toks, pre.length + x.length + 1⟩ _ _ ey ez tand w a2.1 a2.2 hand
    a3.1 a3.2 hwa
  have c1 := parseOr_two (5 * (x.length + y.length + z.length) + 3) ⟨toks, pre.length⟩ _ _ ex _
    tor w (fun fuel hf => b1 fuel (by omega)) a1.2 hor b2 a3.2 hwo
  exact parseExpression_of_or _ _ _ c1


/-- The chain `x AND y OR z`. -/
theorem parseExpression_and_or (x y z : List Token) (ex ey ez : Expression)
    (hx : ParsesComparison x ex) (hy : ParsesComparison y ey) (hz : ParsesComparison z ez)
    (tand tor w : Token) (hand : tand.type = TokenType.AND) (hor : tor.type = TokenType.OR)
    (hw : comparisonOf w.type = none) (hwa : w.type ≠ TokenType.AND)
    (hwo : w.type ≠ TokenType.OR) (pre post toks : List Token)
    (ht : toks = pre ++ (x ++ tand :: (y ++ tor :: (z ++ w :: post)))) :
    ∀ fuel, 5 * (x.length + y.length + z.length) + 7 ≤ fuel →
      parseExpression fuel ⟨toks, pre.length⟩ =
        Except.ok (Expression.BinaryExpression
            (Expression.BinaryExpression ex ey Operator.AND) ez Operator.OR,
          ⟨toks, pre.length + x.length + 1 + y.length + 1 + z.length⟩) := by
  have a1 := parsesComparison_at hx pre (y ++ tor :: (z ++ w :: post)) tand (by rw [hand]; rfl)
    toks pre.length ht rfl (5 * (x.length + y.length + z.length)) (by omega)
  have a2 := parsesComparison_at hy (pre ++ x ++ [tand]) (z ++ w :: post) tor
    (by rw [hor]; rfl) toks (pre.length + x.length + 1) (by rw [ht]; simp)
    (by simp only [List.length_append, List.length_cons, List.length_nil])
    (5 * (x.length + y.length + z.length)) (by omega)
  have a3 := parsesComparison_at hz (pre ++ x ++ [tand] ++ y ++ [tor]) post w hw toks
    (pre.length + x.length + 1 + y.length + 1) (by rw [ht]; simp)
    (by simp only [List.length_append, List.length_cons, List.length_nil])
    (5 * (x.length + y.length + z.length)) (by omega)
  have b1 := parseAnd_two _ ⟨toks, pre.length⟩ _ _ ex ey tand tor a1.1 a1.2 hand a2.1 a2.2
    (by rw [hor]; decide)
  have b2 := parseAnd_one _ ⟨toks, pre.length + x.length + 1 + y.length + 1⟩ _ ez w a3.1 a3.2
    hwa
  have c1 := parseOr_two (5 * (x.length + y.length + z.length) + 3) ⟨toks, pre.length⟩ _ _ _ ez
    tor w b1 a2.2 hor (fun fuel hf => b2 fuel (by omega)) a3.2 hwo
  exact parseExpression_of_or _ _ _ c1

/-- The chain `x OR y OR z`. -/
theorem parseExpression_or_or (x y z : List Token) (ex ey ez : Expression)
    (hx : ParsesComparison x ex) (hy : ParsesComparison y ey) (hz : ParsesComparison z ez)
    (tor tor2 w : Token) (hor : tor.type = TokenType.OR) (hor2 : tor2.type = TokenType.OR)
    (hw : comparisonOf w.type = none) (hwa : w.type ≠ TokenType.AND)
    (hwo : w.type ≠ TokenType.OR) (pre post toks : List Token)
    (ht : toks = pre ++ (x ++ tor :: (y ++ tor2 :: (z ++ w :: post)))) :
    ∀ fuel, 5 * (x.length + y.length + z.length) + 7 ≤ fuel →
      parseExpression fuel ⟨toks, pre.length⟩ =
        Except.ok (Expression.BinaryExpression
            (Expression.BinaryExpression ex ey Operator.OR) ez Operator.OR,
          ⟨toks, pre.length + x.length + 1 + y.length + 1 + z.length⟩) := by
  have a1 := parsesComparison_at hx pre (y ++ tor2 :: (z ++ w :: post)) tor (by rw [hor]; rfl)
    toks pre.length ht rfl (5 * (x.length + y.length + z.length)) (by omega)
  have a2 := parsesComparison_at hy (pre ++ x ++ [tor]) (z ++ w :: post) tor2
    (by rw [hor2]; rfl) toks (pre.length + x.length + 1) (by rw [ht]; simp)
    (by simp only [List.length_append, List.length_cons, List.length_nil])
    (5 * (x.length + y.length + z.length)) (by omega)
  have a3 := parsesComparison_at hz (pre ++ x ++ [tor] ++ y ++ [tor2]) post w hw toks
    (pre.length + x.length + 1 + y.length + 1) (by rw [ht]; simp)
    (by simp only [List.length_append, List.length_cons, List.length_nil])
    (5 * (x.length + y.length + z.length)) (by omega)
  have b1 := parseAnd_one _ ⟨toks, pre.length⟩ _ ex tor a1.1 a1.2 (by rw [hor]; decide)
  have b2 := parseAnd_one _ ⟨toks, pre.length + x.length + 1⟩ _ ey tor2 a2.1 a2.2
    (by rw [hor2]; decide)
  have b3 := parseAnd_one _ ⟨toks, pre.length + x.length + 1 + y.length + 1⟩ _ ez w a3.1 a3.2
    hwa
  have c1 := parseOr_three (5 * (x.length + y.length + z.length) + 2) ⟨toks, pre.length⟩ _ _ _
    ex ey ez tor tor2 w b1 a1.2 hor b2 a2.2 hor2 b3 a3.2 hwo
  exact fun fuel hf => parseExpression_of_or _ _ _ c1 fuel (by omega)

/-- The chain `x AND y AND z`. -/
theorem parseExpression_and_and (x y z : List Token) (ex ey ez : Expression)
    (hx : ParsesComparison x ex) (hy : ParsesComparison y ey) (hz : ParsesComparison z ez)
    (tand tand2 w : Token) (hand : tand.type = TokenType.AND)
    (hand2 : tand2.type = TokenType.AND)
    (hw : comparisonOf w.type = none) (hwa : w.type ≠ TokenType.AND)
    (hwo : w.type ≠ TokenType.OR) (pre post toks : List Token)
    (ht : toks = pre ++ (x ++ tand :: (y ++ tand2 :: (z ++ w :: post)))) :
    ∀ fuel, 5 * (x.length + y.length + z.length) + 7 ≤ fuel →
      parseExpression fuel ⟨toks, pre.length⟩ =
        Except.ok (Expression.BinaryExpression
            (Expression.BinaryExpression ex ey Operator.AND) ez Operator.AND,
          ⟨toks, pre.length + x.length + 1 + y.length + 1 + z.length⟩) := by
  have a1 := parsesComparison_at hx pre (y ++ tand2 :: (z ++ w :: post)) tand
    (by rw [hand]; rfl) toks pre.length ht rfl (5 * (x.length + y.length + z.length))
    (by omega)
  have a2 := parsesComparison_at hy (pre ++ x ++ [tand]) (z ++ w :: post) tand2
    (by rw [hand2]; rfl) toks (pre.length + x.length + 1) (by rw [ht]; simp)
    (by simp only [List.length_append, List.length_cons, List.length_nil])
    (5 * (x.length + y.length + z.length)) (by omega)
  have a3 := parsesComparison_at hz (pre ++ x ++ [tand] ++ y ++ [tand2]) post w hw toks
    (pre.length + x.length + 1 + y.length + 1) (by rw [ht]; simp)
    (by simp only [List.length_append, List.length_cons, List.length_nil])
    (5 * (x.length + y.length + z.length)) (by omega)
  have b1 := parseAnd_three _ ⟨toks, pre.length⟩ _ _ _ ex ey ez tand tand2 w a1.1 a1.2 hand
    a2.1 a2.2 hand2 a3.1 a3.2 hwa
  have c1 := parseOr_one (5 * (x.length + y.length + z.length) + 4) ⟨toks, pre.length⟩ _ _ w
    b1 a3.2 hwo
  exact fun fuel hf => parseExpression_of_or _ _ _ c1 fuel (by omega)

/-- The chain `( x OR y ) AND z`. -/
theorem parseExpression_paren_or_and (x y z : List Token) (ex ey ez : Expression)
    (hx : ParsesComparison x ex) (hy : ParsesComparison y ey) (hz : ParsesComparison z ez)
    (lp tor rp tand w : Token) (hlp : lp.type = TokenType.LEFT_PAREN)
    (hor : tor.type = TokenType.OR) (hrp : rp.type = TokenType.RIGHT_PAREN)
    (hand : tand.type = TokenType.AND)
    (hw : comparisonOf w.type = none) (hwa : w.type ≠ TokenType.AND)
    (hwo : w.type ≠ TokenType.OR) (pre post toks : List Token)
    (ht : toks = pre ++ lp :: (x ++ tor :: (y ++ rp :: tand :: (z ++ w :: post)))) :
    ∀ fuel, 5 * (x.length + y.length + z.length) + 14 ≤ fuel →
      parseExpression fuel ⟨toks, pre.length⟩ =
        Except.ok (Expression.BinaryExpression
            (Expression.BinaryExpression ex ey Operator.OR) ez Operator.AND,
          ⟨toks, pre.length + 1 + x.length + 1 + y.length + 1 + 1 + z.length⟩) := by
  have h0 : toks[pre.length]? = some lp := by
    rw [ht]; exact getElem?_append_cons_length _ _ _
  have a1 := parsesComparison_at hx (pre ++ [lp]) (y ++ rp :: tand :: (z ++ w :: post)) tor
    (by rw [hor]; rfl) toks (pre.length + 1) (by rw [ht]; simp)
    (by simp only [List.length_append, List.length_cons, List.length_nil])
    (5 * (x.length + y.length + z.length)) (by omega)
  have a2 := parsesComparison_at hy (pre ++ [lp] ++ x ++ [tor]) (tand :: (z ++ w :: post)) rp
    (by rw [hrp]; rfl) toks (pre.length + 1 + x.length + 1) (by rw [ht]; simp)
    (by simp only [List.length_append, List.length_cons, List.length_nil])
    (5 * (x.length + y.length + z.length)) (by omega)
  have h1 : toks[pre.length + 1 + x.length + 1 + y.length + 1]? = some tand := by
    have := getElem?_append_cons_length (pre ++ [lp] ++ x ++ [tor] ++ y ++ [rp]) tand
      (z ++ w :: post)
    simp only [List.length_append, List.length_cons, List.length_nil] at this
    rw [← this, ht]
    simp
  have a3 := parsesComparison_at hz (pre ++ [lp] ++ x ++ [tor] ++ y ++ [rp, tand]) post w hw
    toks (pre.length + 1 + x.length + 1 + y.length + 1 + 1) (by rw [ht]; simp)
    (by simp only [List.length_append, List.length_cons, List.length_nil])
    (5 * (x.length + y.length + z.length)) (by omega)
  have b1 := parseAnd_one _ ⟨toks, pre.length + 1⟩ _ ex tor a1.1 a1.2 (by rw [hor]; decide)
  have b2 := parseAnd_one _ ⟨toks, pre.length + 1 + x.length + 1⟩ _ ey rp a2.1 a2.2
    (by rw [hrp]; decide)
  have c1 := parseOr_two (5 * (x.length + y.length + z.length) + 2) ⟨toks, pre.length + 1⟩ _ _
    ex ey tor rp b1 a1.2 hor b2 a2.2 (by rw [hrp]; decide)
  have d1 := parseExpression_of_or _ _ _ c1
  have e1 := parsePrimary_parenthesized _ ⟨toks, pre.length⟩ _ _ lp rp h0 hlp d1 a2.2 hrp
  have f1 := parseComparison_of_primary _ ⟨toks, pre.length⟩ _ _ tand e1 h1
    (by rw [hand]; rfl)
  have g1 := parseAnd_two _ ⟨toks, pre.length⟩ _ _ _ ez tand w f1 h1 hand
    (fun fuel hf => a3.1 fuel (by omega)) a3.2 hwa
  have i1 := parseOr_one _ ⟨toks, pre.length⟩ _ _ w g1 a3.2 hwo
  exact fun fuel hf => parseExpression_of_or _ _ _ i1 fuel (by omega)


/-- C13: in a WHERE predicate AND binds tighter than OR, both associate to
the left, and parentheses override this. For token runs `x`, `y`, `z` that
are comparisons with trees `ex`, `ey`, `ez`: `x OR y AND z` parses to
OR(ex, AND(ey, ez)), `x AND y OR z` to OR(AND(ex, ey), ez), `x OR y OR z` to
OR(OR(ex, ey), ez), `x AND y AND z` to AND(AND(ex, ey), ez) and
`( x OR y ) AND z` to AND(OR(ex, ey), ez). -/
theorem parse_where_precedence (sel a frm tbl whr tor tor2 tand tand2 lp rp eof : Token)
    (x y z : List Token) (ex ey ez : Expression)
    (hsel : sel.type = TokenType.SELECT) (ha : a.type = TokenType.IDENTIFIER)
    (hfrm : frm.type = TokenType.FROM) (htbl : tbl.type = TokenType.IDENTIFIER)
    (hwhr : whr.type = TokenType.WHERE) (hor : tor.type = TokenType.OR)
    (hor2 : tor2.type = TokenType.OR) (hand : tand.type = TokenType.AND)
    (hand2 : tand2.type = TokenType.AND) (hlp : lp.type = TokenType.LEFT_PAREN)
    (hrp : rp.type = TokenType.RIGHT_PAREN) (heof : eof.type = TokenType.END_OF_FILE)
    (hx : ParsesComparison x ex) (hy : ParsesComparison y ey) (hz : ParsesComparison z ez) :
    parse (sel :: a :: frm :: tbl :: whr :: (x ++ tor :: (y ++ tand :: (z ++ [eof])))) =
      Except.ok (Statement.SelectStatement [Expression.ColumnExpression a.value] tbl.value
        (some (Expression.BinaryExpression ex
          (Expression.BinaryExpression ey ez Operator.AND) Operator.OR))) ∧
    parse (sel :: a :: frm :: tbl :: whr :: (x ++ tand :: (y ++ tor :: (z ++ [eof])))) =
      Except.ok (Statement.SelectStatement [Expression.ColumnExpression a.value] tbl.value
        (some (Expression.BinaryExpression
          (Expression.BinaryExpression ex ey Operator.AND) ez Operator.OR))) ∧
    parse (sel :: a :: frm :: tbl :: whr :: (x ++ tor :: (y ++ tor2 :: (z ++ [eof])))) =
      Except.ok (Statement.SelectStatement [Expression.ColumnExpression a.value] tbl.value
        (some (Expression.BinaryExpression
          (Expression.BinaryExpression ex ey Operator.OR) ez Operator.OR))) ∧
    parse (sel :: a :: frm :: tbl :: whr :: (x ++ tand :: (y ++ tand2 :: (z ++ [eof])))) =
      Except.ok (Statement.SelectStatement [Expression.ColumnExpression a.value] tbl.value
        (some (Expression.BinaryExpression
          (Expression.BinaryExpression ex ey Operator.AND) ez Operator.AND))) ∧
    parse (sel :: a :: frm :: tbl :: whr ::
        lp :: (x ++ tor :: (y ++ rp :: tand :: (z ++ [eof])))) =
      Except.ok (Statement.SelectStatement [Expression.ColumnExpression a.value] tbl.value
        (some (Expression.BinaryExpression
          (Expression.BinaryExpression ex ey Operator.OR) ez Operator.AND))) := by
  have hw : comparisonOf eof.type = none := by rw [heof]; rfl
  have hwa : eof.type ≠ TokenType.AND := by rw [heof]; decide
  have hwo : eof.type ≠ TokenType.OR := by rw [heof]; decide
  refine ⟨?_, ?_, ?_, ?_, ?_⟩
  · exact parse_select_where sel a frm tbl whr _ hsel ha hfrm htbl hwhr _ _
      (parseExpression_or_and x y z ex ey ez hx hy hz tor tand eof hor hand hw hwa hwo
        [sel, a, frm, tbl, whr] [] _ rfl _
        (by simp only [parseFuel, List.length_cons, List.length_append, List.length_nil]; omega))
  · exact parse_select_where sel a frm tbl whr _ hsel ha hfrm htbl hwhr _ _
      (parseExpression_and_or x y z ex ey ez hx hy hz tand tor eof hand hor hw hwa hwo
        [sel, a, frm, tbl, whr] [] _ rfl _
        (by simp only [parseFuel, List.length_cons, List.length_append, List.length_nil]; omega))
  · exact parse_select_where sel a frm tbl whr _ hsel ha hfrm htbl hwhr _ _
      (parseExpression_or_or x y z ex ey ez hx hy hz tor tor2 eof hor hor2 hw hwa hwo
        [sel, a, frm, tbl, whr] [] _ rfl _
        (by simp only [parseFuel, List.length_cons, List.length_append, List.length_nil]; omega))
  · exact parse_select_where sel a frm tbl whr _ hsel ha hfrm htbl hwhr _ _
      (parseExpression_and_and x y z ex ey ez hx hy hz tand tand2 eof hand hand2 hw hwa hwo
        [sel, a, frm, tbl, whr] [] _ rfl _
        (by simp only [parseFuel, List.length_cons, List.length_append, List.length_nil]; omega))
  · exact parse_select_where sel a frm tbl whr _ hsel ha hfrm htbl hwhr _ _
      (parseExpression_paren_or_and x y z ex ey ez hx hy hz lp tor rp tand eof hlp hor hrp hand
        hw hwa hwo [sel, a, frm, tbl, whr] [] _ rfl _
        (by simp only [parseFuel, List.length_cons, List.length_append, List.length_nil]; omega))

/-- C13, at `a = 1 OR b AND c < 2` and its four companions. -/
theorem parse_where_precedence_witness :
    ParsesComparison
      [⟨TokenType.IDENTIFIER, ['a'], 0⟩, ⟨TokenType.EQUALS, ['='], 0⟩,
        ⟨TokenType.NUMBER, ['1'], 0⟩]
      (Expression.BinaryExpression (Expression.ColumnExpression ['a'])
        (Expression.LiteralExpression ['1'] LiteralType.NUMBER) Operator.EQUALS) ∧
    ParsesComparison [⟨TokenType.IDENTIFIER, ['b'], 0⟩] (Expression.ColumnExpression ['b']) ∧
    parse [⟨TokenType.SELECT, [], 0⟩, ⟨TokenType.IDENTIFIER, ['x'], 0⟩,
        ⟨TokenType.FROM, [], 0⟩, ⟨TokenType.IDENTIFIER, ['t'], 0⟩, ⟨TokenType.WHERE, [], 0⟩,
        ⟨TokenType.IDENTIFIER, ['a'], 0⟩, ⟨TokenType.EQUALS, ['='], 0⟩,
        ⟨TokenType.NUMBER, ['1'], 0⟩, ⟨TokenType.OR, [], 0⟩,
        ⟨TokenType.IDENTIFIER, ['b'], 0⟩, ⟨TokenType.AND, [], 0⟩,
        ⟨TokenType.IDENTIFIER, ['c'], 0⟩, ⟨TokenType.LESS_THAN, ['<'], 0⟩,
        ⟨TokenType.NUMBER, ['2'], 0⟩, ⟨TokenType.END_OF_FILE, [], 0⟩] =
      Except.ok (Statement.SelectStatement [Expression.ColumnExpression ['x']] ['t']
        (some (Expression.BinaryExpression
          (Expression.BinaryExpression (Expression.ColumnExpression ['a'])
            (Expression.LiteralExpression ['1'] LiteralType.NUMBER) Operator.EQUALS)
          (Expression.BinaryExpression (Expression.ColumnExpression ['b'])
            (Expression.BinaryExpression (Expression.ColumnExpression ['c'])
              (Expression.LiteralExpression ['2'] LiteralType.NUMBER) Operator.LESS_THAN)
            Operator.AND)
          Operator.OR))) := by
  have hx := parsesComparison_tokens ⟨TokenType.IDENTIFIER, ['a'], 0⟩
    ⟨TokenType.EQUALS, ['='], 0⟩ ⟨TokenType.NUMBER, ['1'], 0⟩ Operator.EQUALS
    (Or.inr (Or.inr rfl)) (Or.inl rfl) rfl
  have hy := parsesComparison_token ⟨TokenType.IDENTIFIER, ['b'], 0⟩ (Or.inr (Or.inr rfl))
  have hz := parsesComparison_tokens ⟨TokenType.IDENTIFIER, ['c'], 0⟩
    ⟨TokenType.LESS_THAN, ['<'], 0⟩ ⟨TokenType.NUMBER, ['2'], 0⟩ Operator.LESS_THAN
    (Or.inr (Or.inr rfl)) (Or.inl rfl) rfl
  exact ⟨hx, hy,
    (parse_where_precedence ⟨TokenType.SELECT, [], 0⟩ ⟨TokenType.IDENTIFIER, ['x'], 0⟩
      ⟨TokenType.FROM, [], 0⟩ ⟨TokenType.IDENTIFIER, ['t'], 0⟩ ⟨TokenType.WHERE, [], 0⟩
      ⟨TokenType.OR, [], 0⟩ ⟨TokenType.OR, [], 0⟩ ⟨TokenType.AND, [], 0⟩
      ⟨TokenType.AND, [], 0⟩ ⟨TokenType.LEFT_PAREN, [], 0⟩ ⟨TokenType.RIGHT_PAREN, [], 0⟩
      ⟨TokenType.END_OF_FILE, [], 0⟩ _ _ _ _ _ _ rfl rfl rfl rfl rfl rfl rfl rfl rfl rfl rfl
      rfl hx hy hz).1⟩

/-! ## SELECT without a projection, and INSERT -/

/-- C14: a token sequence that starts with SELECT and whose second token is
neither STAR nor IDENTIFIER fails to parse with the message
`Expected column name or *`; `parse` returns no statement. -/
theorem parse_select_without_projection (sel x : Token) (rest : List Token)
    (hsel : sel.type = TokenType.SELECT) (h1 : x.type ≠ TokenType.STAR)
    (h2 : x.type ≠ TokenType.IDENTIFIER) :
    parse (sel :: x :: rest) =
      Except.error (ParseError.runtime_error "Expected column name or *") := by
  have m0 : (Parser.new (sel :: x :: rest)).matchToken TokenType.SELECT =
      Except.ok (true, ⟨sel :: x :: rest, 0 + 1⟩) :=
    Parser.matchToken_of_eq (p := Parser.new (sel :: x :: rest)) (by simp [Parser.new]) hsel
  have m1 : Parser.peek ⟨sel :: x :: rest, 0 + 1⟩ = Except.ok x :=
    Parser.peek_of (p := ⟨sel :: x :: rest, 0 + 1⟩) (by simp)
  have hF : parseFuel (sel :: x :: rest) = (5 * (sel :: x :: rest).length + 7) + 1 := rfl
  unfold parse Parser.parse
  simp only [m0, bind, Except.bind, if_true, Parser.parseSelect, Parser.parseColumnList]
  rw [hF, parseColumnListLoop]
  simp only [m1, h1, h2, bind, Except.bind, if_false, throw, throwThe, MonadExceptOf.throw,
    Except.map]

/-- C14, at the tokens of `SELECT FROM t`. -/
theorem parse_select_without_projection_witness :
    tokenize "SELECT FROM t".toList =
      some [⟨TokenType.SELECT, "SELECT".toList, 0⟩, ⟨TokenType.FROM, "FROM".toList, 7⟩,
        ⟨TokenType.IDENTIFIER, ['t'], 12⟩, ⟨TokenType.END_OF_FILE, [], 13⟩] ∧
    parse [⟨TokenType.SELECT, "SELECT".toList, 0⟩, ⟨TokenType.FROM, "FROM".toList, 7⟩,
        ⟨TokenType.IDENTIFIER, ['t'], 12⟩, ⟨TokenType.END_OF_FILE, [], 13⟩] =
      Except.error (ParseError.runtime_error "Expected column name or *") :=
  ⟨by decide,
    parse_select_without_projection ⟨TokenType.SELECT, "SELECT".toList, 0⟩
      ⟨TokenType.FROM, "FROM".toList, 7⟩
      [⟨TokenType.IDENTIFIER, ['t'], 12⟩, ⟨TokenType.END_OF_FILE, [], 13⟩] rfl (by decide)
      (by decide)⟩

theorem parseInsertColumnsLoop_step (fuel : Nat) (p : Parser) (columns : List (List Char))
    (x : Token) (h : p.tokens[p.current]? = some x) (hx : x.type = TokenType.IDENTIFIER) :
    parseInsertColumnsLoop (fuel + 1) p columns =
      (do
        let (m, p1) ← Parser.matchToken ⟨p.tokens, p.current + 1⟩ TokenType.COMMA
        if m then parseInsertColumnsLoop fuel p1 (columns ++ [x.value])
        else pure (columns ++ [x.value], p1)) := by
  rw [parseInsertColumnsLoop]
  simp [Parser.peek_of h, Parser.advance_of h, hx, bind, Except.bind, pure, Except.pure]

theorem parseInsertColumnsLoop_list (y : Token) (tail : List Token)
    (hy : y.type ≠ TokenType.COMMA) :
    ∀ (rest : List (Token × Token)) (c1 : Token) (pre : List Token)
      (columns : List (List Char)) (fuel : Nat), rest.length < fuel →
      c1.type = TokenType.IDENTIFIER →
      (∀ cp ∈ rest, cp.1.type = TokenType.COMMA ∧ cp.2.type = TokenType.IDENTIFIER) →
      parseInsertColumnsLoop fuel
          ⟨pre ++ c1 :: ((rest.flatMap fun cp => [cp.1, cp.2]) ++ y :: tail), pre.length⟩
          columns =
        Except.ok (columns ++ (c1 :: rest.map Prod.snd).map Token.value,
          ⟨pre ++ c1 :: ((rest.flatMap fun cp => [cp.1, cp.2]) ++ y :: tail),
            pre.length + 1 + 2 * rest.length⟩) := by
  intro rest
  induction rest with
  | nil =>
    intro c1 pre columns fuel hf hc1 _
    obtain ⟨fuel, rfl⟩ : ∃ k, fuel = k + 1 := ⟨fuel - 1, by simp at hf; omega⟩
    rw [parseInsertColumnsLoop_step fuel _ columns c1 (getElem?_append_cons_length _ _ _) hc1]
    have h2 : (pre ++ c1 :: (([] : List (Token × Token)).flatMap (fun cp => [cp.1, cp.2]) ++
        y :: tail))[pre.length + 1]? = some y := by
      have := getElem?_append_cons_length (pre ++ [c1]) y tail
      simpa using this
    rw [Parser.matchToken_of_ne h2 hy]
    simp [bind, Except.bind, pure, Except.pure]
  | cons cp rest ih =>
    intro c1 pre columns fuel hf hc1 hrest
    obtain ⟨fuel, rfl⟩ : ∃ k, fuel = k + 1 := ⟨fuel - 1, by simp at hf; omega⟩
    simp only [List.length_cons] at hf
    have hcp := hrest cp (List.mem_cons_self _ _)
    rw [parseInsertColumnsLoop_step fuel _ columns c1 (getElem?_append_cons_length _ _ _) hc1]
    have h2 : (pre ++ c1 :: ((cp :: rest).flatMap (fun cp => [cp.1, cp.2]) ++
        y :: tail))[pre.length + 1]? = some cp.1 := by
      have := getElem?_append_cons_length (pre ++ [c1]) cp.1
        (cp.2 :: (rest.flatMap (fun cp => [cp.1, cp.2]) ++ y :: tail))
      simpa using this
    rw [Parser.matchToken_of_eq h2 hcp.1]
    simp only [bind, Except.bind, if_true]
    have h3 : pre ++ c1 :: ((cp :: rest).flatMap (fun cp => [cp.1, cp.2]) ++ y :: tail) =
        (pre ++ [c1, cp.1]) ++ cp.2 :: (rest.flatMap (fun cp => [cp.1, cp.2]) ++ y :: tail) := by
      simp
    have h4 : pre.length + 1 + 1 = (pre ++ [c1, cp.1]).length := by simp
    rw [h3, h4, ih cp.2 (pre ++ [c1, cp.1]) _ fuel (by omega) hcp.2
      (fun c hc => hrest c (List.mem_cons_of_mem _ hc))]
    simp only [List.length_append, List.length_cons, List.length_nil, List.map_cons,
      List.append_assoc, List.singleton_append]
    congr 3
    omega

theorem parseInsertValuesLoop_step (fuel : Nat) (p : Parser) (values : List Expression)
    (x : Token) (h : p.tokens[p.current]? = some x) (hx : isPrimaryToken x) :
    parseInsertValuesLoop (fuel + 1 + 1) p values =
      (do
        let (m, p1) ← Parser.matchToken ⟨p.tokens, p.current + 1⟩ TokenType.COMMA
        if m then parseInsertValuesLoop (fuel + 1) p1 (values ++ [primaryOf x])
        else pure (values ++ [primaryOf x], p1)) := by
  rw [parseInsertValuesLoop, parsePrimary_leaf fuel p x h hx]
  simp [bind, Except.bind, pure, Except.pure]

theorem parseInsertValuesLoop_list (y : Token) (tail : List Token)
    (hy : y.type ≠ TokenType.COMMA) :
    ∀ (rest : List (Token × Token)) (v1 : Token) (pre : List Token)
      (values : List Expression) (fuel : Nat), rest.length + 1 < fuel →
      isPrimaryToken v1 →
      (∀ cp ∈ rest, cp.1.type = TokenType.COMMA ∧ isPrimaryToken cp.2) →
      parseInsertValuesLoop fuel
          ⟨pre ++ v1 :: ((rest.flatMap fun cp => [cp.1, cp.2]) ++ y :: tail), pre.length⟩
          values =
        Except.ok (values ++ (v1 :: rest.map Prod.snd).map primaryOf,
          ⟨pre ++ v1 :: ((rest.flatMap fun cp => [cp.1, cp.2]) ++ y :: tail),
            pre.length + 1 + 2 * rest.length⟩) := by
  intro rest
  induction rest with
  | nil =>
    intro v1 pre values fuel hf hv1 _
    obtain ⟨fuel, rfl⟩ : ∃ k, fuel = k + 1 + 1 := ⟨fuel - 2, by simp at hf; omega⟩
    rw [parseInsertValuesLoop_step fuel _ values v1 (getElem?_append_cons_length _ _ _) hv1]
    have h2 : (pre ++ v1 :: (([] : List (Token × Token)).flatMap (fun cp => [cp.1, cp.2]) ++
        y :: tail))[pre.length + 1]? = some y := by
      have := getElem?_append_cons_length (pre ++ [v1]) y tail
      simpa using this
    rw [Parser.matchToken_of_ne h2 hy]
    simp [bind, Except.bind, pure, Except.pure]
  | cons cp rest ih =>
    intro v1 pre values fuel hf hv1 hrest
    obtain ⟨fuel, rfl⟩ : ∃ k, fuel = k + 1 + 1 := ⟨fuel - 2, by simp at hf; omega⟩
    simp only [List.length_cons] at hf
    have hcp := hrest cp (List.mem_cons_self _ _)
    rw [parseInsertValuesLoop_step fuel _ values v1 (getElem?_append_cons_length _ _ _) hv1]
    have h2 : (pre ++ v1 :: ((cp :: rest).flatMap (fun cp => [cp.1, cp.2]) ++
        y :: tail))[pre.length + 1]? = some cp.1 := by
      have := getElem?_append_cons_length (pre ++ [v1]) cp.1
        (cp.2 :: (rest.flatMap (fun cp => [cp.1, cp.2]) ++ y :: tail))
      simpa using this
    rw [Parser.matchToken_of_eq h2 hcp.1]
    simp only [bind, Except.bind, if_true]
    have h3 : pre ++ v1 :: ((cp :: rest).flatMap (fun cp => [cp.1, cp.2]) ++ y :: tail) =
        (pre ++ [v1, cp.1]) ++ cp.2 :: (rest.flatMap (fun cp => [cp.1, cp.2]) ++ y :: tail) := by
      simp
    have h4 : pre.length + 1 + 1 = (pre ++ [v1, cp.1]).length := by simp
    rw [h3, h4, ih cp.2 (pre ++ [v1, cp.1]) _ (fuel + 1) (by omega) hcp.2
      (fun c hc => hrest c (List.mem_cons_of_mem _ hc))]
    simp only [List.length_append, List.length_cons, List.length_nil, List.map_cons,
      List.append_assoc, List.singleton_append]
    congr 3
    omega


/-- The statement `INSERT INTO t VALUES ( v1 , ... , vn )` without a column
list, from the token INTO on. -/
theorem parseInsert_values (into tbl vals lp2 v1 rp2 : Token) (vrest : List (Token × Token))
    (pre tail toks : List Token) (fuel : Nat)
    (hinto : into.type = TokenType.INTO) (htbl : tbl.type = TokenType.IDENTIFIER)
    (hvals : vals.type = TokenType.VALUES) (hlp2 : lp2.type = TokenType.LEFT_PAREN)
    (hrp2 : rp2.type = TokenType.RIGHT_PAREN) (hv1 : isPrimaryToken v1)
    (hvrest : ∀ cp ∈ vrest, cp.1.type = TokenType.COMMA ∧ isPrimaryToken cp.2)
    (hfuel : vrest.length + 1 < fuel)
    (ht : toks = pre ++ into :: tbl :: vals :: lp2 :: v1 ::
      ((vrest.flatMap fun cp => [cp.1, cp.2]) ++ rp2 :: tail)) :
    Parser.parseInsert fuel ⟨toks, pre.length⟩ =
      Except.ok (Statement.InsertStatement tbl.value []
          ((v1 :: vrest.map Prod.snd).map primaryOf),
        ⟨toks, pre.length + 1 + 1 + 1 + 1 + 1 + 2 * vrest.length + 1⟩) := by
  have h0 : toks[pre.length]? = some into := by
    rw [ht]; exact getElem?_append_cons_length _ _ _
  have h1 : toks[pre.length + 1]? = some tbl := by
    rw [ht, getElem?_append_add]; simp
  have h2 : toks[pre.length + 1 + 1]? = some vals := by
    rw [ht]; show (pre ++ _)[pre.length + 2]? = _; rw [getElem?_append_add]; simp
  have h3 : toks[pre.length + 1 + 1 + 1]? = some lp2 := by
    rw [ht]; show (pre ++ _)[pre.length + 3]? = _; rw [getElem?_append_add]; simp
  have hloop := parseInsertValuesLoop_list rp2 tail (by rw [hrp2]; decide) vrest v1
    (pre ++ [into, tbl, vals, lp2]) [] fuel hfuel hv1 hvrest
  have ht2 : (pre ++ [into, tbl, vals, lp2]) ++ v1 ::
      ((vrest.flatMap fun cp => [cp.1, cp.2]) ++ rp2 :: tail) = toks := by
    rw [ht]; simp
  have hl2 : (pre ++ [into, tbl, vals, lp2]).length = pre.length + 1 + 1 + 1 + 1 := by
    simp
  rw [ht2, hl2] at hloop
  have h4 : toks[pre.length + 1 + 1 + 1 + 1 + 1 + 2 * vrest.length]? = some rp2 := by
    have := getElem?_append_cons_length
      (pre ++ [into, tbl, vals, lp2, v1] ++ (vrest.flatMap fun cp => [cp.1, cp.2])) rp2 tail
    simp only [List.length_append, List.length_cons, List.length_nil,
      flatMap_pair_length] at this
    rw [← this, ht]
    simp
  have m0 := Parser.matchToken_of_eq (p := ⟨toks, pre.length⟩) h0 hinto
  have m1 := Parser.peek_of (p := ⟨toks, pre.length + 1⟩) h1
  have m2 := Parser.advance_of (p := ⟨toks, pre.length + 1⟩) h1
  have m3 := Parser.matchToken_of_ne (p := ⟨toks, pre.length + 1 + 1⟩)
    (T := TokenType.LEFT_PAREN) h2 (by rw [hvals]; decide)
  have m4 := Parser.matchToken_of_eq (p := ⟨toks, pre.length + 1 + 1⟩) h2 hvals
  have m5 := Parser.matchToken_of_eq (p := ⟨toks, pre.length + 1 + 1 + 1⟩) h3 hlp2
  have m6 := Parser.matchToken_of_eq
    (p := ⟨toks, pre.length + 1 + 1 + 1 + 1 + 1 + 2 * vrest.length⟩) h4 hrp2
  unfold Parser.parseInsert
  simp only [m0, m1, m2, m3, m4, m5, m6, hloop, htbl, bind, Except.bind, pure, Except.pure,
    if_true, Bool.false_eq_true, if_false, List.nil_append]

/-- The statement `INSERT INTO t ( c1 , ... , cm ) VALUES ( v1 , ... , vn )`,
from the token INTO on. -/
theorem parseInsert_columns_values (into tbl lp c1 rp vals lp2 v1 rp2 : Token)
    (crest vrest : List (Token × Token)) (pre tail toks : List Token) (fuel : Nat)
    (hinto : into.type = TokenType.INTO) (htbl : tbl.type = TokenType.IDENTIFIER)
    (hlp : lp.type = TokenType.LEFT_PAREN) (hc1 : c1.type = TokenType.IDENTIFIER)
    (hcrest : ∀ cp ∈ crest, cp.1.type = TokenType.COMMA ∧ cp.2.type = TokenType.IDENTIFIER)
    (hrp : rp.type = TokenType.RIGHT_PAREN)
    (hvals : vals.type = TokenType.VALUES) (hlp2 : lp2.type = TokenType.LEFT_PAREN)
    (hrp2 : rp2.type = TokenType.RIGHT_PAREN) (hv1 : isPrimaryToken v1)
    (hvrest : ∀ cp ∈ vrest, cp.1.type = TokenType.COMMA ∧ isPrimaryToken cp.2)
    (hfuel : vrest.length + 1 < fuel) (hfuel2 : crest.length < fuel)
    (ht : toks = pre ++ into :: tbl :: lp :: c1 ::
      ((crest.flatMap fun cp => [cp.1, cp.2]) ++ rp :: vals :: lp2 :: v1 ::
        ((vrest.flatMap fun cp => [cp.1, cp.2]) ++ rp2 :: tail))) :
    ∃ p1, Parser.parseInsert fuel ⟨toks, pre.length⟩ =
      Except.ok (Statement.InsertStatement tbl.value
          ((c1 :: crest.map Prod.snd).map Token.value)
          ((v1 :: vrest.map Prod.snd).map primaryOf), p1) := by
  have h0 : toks[pre.length]? = some into := by
    rw [ht]; exact getElem?_append_cons_length _ _ _
  have h1 : toks[pre.length + 1]? = some tbl := by
    rw [ht, getElem?_append_add]; simp
  have h2 : toks[pre.length + 1 + 1]? = some lp := by
    rw [ht]; show (pre ++ _)[pre.length + 2]? = _; rw [getElem?_append_add]; simp
  have hcloop := parseInsertColumnsLoop_list rp
    (vals :: lp2 :: v1 :: ((vrest.flatMap fun cp => [cp.1, cp.2]) ++ rp2 :: tail))
    (by rw [hrp]; decide) crest c1 (pre ++ [into, tbl, lp]) [] fuel hfuel2 hc1 hcrest
  have ht1 : (pre ++ [into, tbl, lp]) ++ c1 :: ((crest.flatMap fun cp => [cp.1, cp.2]) ++
      rp :: vals :: lp2 :: v1 :: ((vrest.flatMap fun cp => [cp.1, cp.2]) ++ rp2 :: tail)) =
      toks := by
    rw [ht]; simp
  have hl1 : (pre ++ [into, tbl, lp]).length = pre.length + 1 + 1 + 1 := by simp
  rw [ht1, hl1] at hcloop
  generalize hn : pre.length + 1 + 1 + 1 + 1 + 2 * crest.length = n at hcloop
  have hpre2 : toks = (pre ++ [into, tbl, lp, c1] ++ (crest.flatMap fun cp => [cp.1, cp.2])) ++
      rp :: vals :: lp2 :: v1 :: ((vrest.flatMap fun cp => [cp.1, cp.2]) ++ rp2 :: tail) := by
    rw [ht]; simp
  have hlen2 : (pre ++ [into, tbl, lp, c1] ++
      (crest.flatMap fun cp => [cp.1, cp.2])).length = n := by
    simp only [List.length_append, List.length_cons, List.length_nil, flatMap_pair_length]
    omega
  have h3 : toks[n]? = some rp := by
    rw [← hlen2, hpre2]; exact getElem?_append_cons_length _ _ _
  have h4 : toks[n + 1]? = some vals := by
    rw [← hlen2, hpre2, getElem?_append_add]; simp
  have h5 : toks[n + 1 + 1]? = some lp2 := by
    rw [← hlen2, hpre2]
    show (_ ++ _)[_ + 2]? = _
    rw [getElem?_append_add]; simp
  have hvloop := parseInsertValuesLoop_list rp2 tail (by rw [hrp2]; decide) vrest v1
    (pre ++ [into, tbl, lp, c1] ++ (crest.flatMap fun cp => [cp.1, cp.2]) ++ [rp, vals, lp2])
    [] fuel hfuel hv1 hvrest
  have ht3 : (pre ++ [into, tbl, lp, c1] ++ (crest.flatMap fun cp => [cp.1, cp.2]) ++
      [rp, vals, lp2]) ++ v1 :: ((vrest.flatMap fun cp => [cp.1, cp.2]) ++ rp2 :: tail) =
      toks := by
    rw [ht]; simp
  have hl3 : (pre ++ [into, tbl, lp, c1] ++ (crest.flatMap fun cp => [cp.1, cp.2]) ++
      [rp, vals, lp2]).length = n + 1 + 1 + 1 := by
    rw [List.length_append, hlen2]; rfl
  rw [ht3, hl3] at hvloop
  have h6 : toks[n + 1 + 1 + 1 + 1 + 2 * vrest.length]? = some rp2 := by
    have := getElem?_append_cons_length
      (pre ++ [into, tbl, lp, c1] ++ (crest.flatMap fun cp => [cp.1, cp.2]) ++
        [rp, vals, lp2, v1] ++ (vrest.flatMap fun cp => [cp.1, cp.2])) rp2 tail
    rw [List.length_append, List.length_append, hlen2, flatMap_pair_length] at this
    rw [← this, ht]
    simp
  have m0 := Parser.matchToken_of_eq (p := ⟨toks, pre.length⟩) h0 hinto
  have m1 := Parser.peek_of (p := ⟨toks, pre.length + 1⟩) h1
  have m2 := Parser.advance_of (p := ⟨toks, pre.length + 1⟩) h1
  have m3 := Parser.matchToken_of_eq (p := ⟨toks, pre.length + 1 + 1⟩) h2 hlp
  have m4 := Parser.matchToken_of_eq (p := ⟨toks, n⟩) h3 hrp
  have m5 := Parser.matchToken_of_eq (p := ⟨toks, n + 1⟩) h4 hvals
  have m6 := Parser.matchToken_of_eq (p := ⟨toks, n + 1 + 1⟩) h5 hlp2
  have m7 := Parser.matchToken_of_eq
    (p := ⟨toks, n + 1 + 1 + 1 + 1 + 2 * vrest.length⟩) h6 hrp2
  refine ⟨⟨toks, n + 1 + 1 + 1 + 1 + 2 * vrest.length + 1⟩, ?_⟩
  unfold Parser.parseInsert
  simp only [m0, m1, m2, m3, m4, m5, m6, m7, hcloop, hvloop, htbl, bind, Except.bind, pure,
    Except.pure, if_true, Bool.false_eq_true, if_false, List.nil_append]


theorem parse_insert_of (ins : Token) (rest : List Token) (hins : ins.type = TokenType.INSERT)
    (r : Statement × Parser)
    (h : Parser.parseInsert (parseFuel (ins :: rest)) ⟨ins :: rest, 1⟩ = Except.ok r) :
    parse (ins :: rest) = Except.ok r.1 := by
  have m0 : (Parser.new (ins :: rest)).matchToken TokenType.SELECT =
      Except.ok (false, Parser.new (ins :: rest)) :=
    Parser.matchToken_of_ne (p := Parser.new (ins :: rest)) (x := ins) (by simp [Parser.new])
      (by rw [hins]; decide)
  have m1 : (Parser.new (ins :: rest)).matchToken TokenType.INSERT =
      Except.ok (true, ⟨ins :: rest, 0 + 1⟩) :=
    Parser.matchToken_of_eq (p := Parser.new (ins :: rest)) (x := ins) (by simp [Parser.new])
      hins
  unfold parse Parser.parse
  simp only [m0, m1, bind, Except.bind, Bool.false_eq_true, if_false, if_true, h, Except.map]

/-- C12: the tokens INSERT INTO t, an optional column list ( c1 , ... , cm )
of IDENTIFIER tokens, VALUES ( v1 , ... , vn ) with NUMBER, STRING or
IDENTIFIER tokens and END_OF_FILE parse to an InsertStatement with target
table the text of `t`, columns the texts of the `c` in order (none when the
list is absent) and values the nodes of the `v` in order; `m` and `n` are
independent. -/
theorem parse_insert (ins into tbl vals lp2 v1 rp2 eof : Token) (vrest : List (Token × Token))
    (colTokens : List Token) (cs : List (List Char))
    (hins : ins.type = TokenType.INSERT)
    (hinto : into.type = TokenType.INTO) (htbl : tbl.type = TokenType.IDENTIFIER)
    (hvals : vals.type = TokenType.VALUES) (hlp2 : lp2.type = TokenType.LEFT_PAREN)
    (hrp2 : rp2.type = TokenType.RIGHT_PAREN) (_heof : eof.type = TokenType.END_OF_FILE)
    (hv1 : v1.type = TokenType.NUMBER ∨ v1.type = TokenType.STRING ∨
      v1.type = TokenType.IDENTIFIER)
    (hvrest : ∀ cp ∈ vrest, cp.1.type = TokenType.COMMA ∧
      (cp.2.type = TokenType.NUMBER ∨ cp.2.type = TokenType.STRING ∨
        cp.2.type = TokenType.IDENTIFIER))
    (hcols : (colTokens = [] ∧ cs = []) ∨
      ∃ (lp c1 rp : Token) (crest : List (Token × Token)),
        lp.type = TokenType.LEFT_PAREN ∧ c1.type = TokenType.IDENTIFIER ∧
        rp.type = TokenType.RIGHT_PAREN ∧
        (∀ cp ∈ crest, cp.1.type = TokenType.COMMA ∧ cp.2.type = TokenType.IDENTIFIER) ∧
        colTokens = lp :: c1 :: ((crest.flatMap fun cp => [cp.1, cp.2]) ++ [rp]) ∧
        cs = (c1 :: crest.map Prod.snd).map Token.value) :
    parse (ins :: into :: tbl :: (colTokens ++ vals :: lp2 :: v1 ::
        ((vrest.flatMap fun cp => [cp.1, cp.2]) ++ [rp2, eof]))) =
      Except.ok (Statement.InsertStatement tbl.value cs
        ((v1 :: vrest.map Prod.snd).map primaryOf)) := by
  rcases hcols with ⟨rfl, rfl⟩ | ⟨lp, c1, rp, crest, hlp, hc1, hrp, hcrest, rfl, rfl⟩
  · have h := parseInsert_values into tbl vals lp2 v1 rp2 vrest [ins] [eof]
      (ins :: into :: tbl :: ([] ++ vals :: lp2 :: v1 ::
        ((vrest.flatMap fun cp => [cp.1, cp.2]) ++ [rp2, eof])))
      (parseFuel (ins :: into :: tbl :: ([] ++ vals :: lp2 :: v1 ::
        ((vrest.flatMap fun cp => [cp.1, cp.2]) ++ [rp2, eof]))))
      hinto htbl hvals hlp2 hrp2 hv1 hvrest
      (by simp only [parseFuel, List.length_cons, List.length_append, flatMap_pair_length,
            List.length_nil]; omega)
      (by simp)
    exact parse_insert_of ins _ hins _ h
  · obtain ⟨p1, h⟩ := parseInsert_columns_values into tbl lp c1 rp vals lp2 v1 rp2 crest vrest
      [ins] [eof]
      (ins :: into :: tbl :: ((lp :: c1 :: ((crest.flatMap fun cp => [cp.1, cp.2]) ++ [rp])) ++
        vals :: lp2 :: v1 :: ((vrest.flatMap fun cp => [cp.1, cp.2]) ++ [rp2, eof])))
      (parseFuel (ins :: into :: tbl ::
        ((lp :: c1 :: ((crest.flatMap fun cp => [cp.1, cp.2]) ++ [rp])) ++
        vals :: lp2 :: v1 :: ((vrest.flatMap fun cp => [cp.1, cp.2]) ++ [rp2, eof]))))
      hinto htbl hlp hc1 hcrest hrp hvals hlp2 hrp2 hv1 hvrest
      (by simp only [parseFuel, List.length_cons, List.length_append, flatMap_pair_length,
            List.length_nil]; omega)
      (by simp only [parseFuel, List.length_cons, List.length_append, flatMap_pair_length,
            List.length_nil]; omega)
      (by simp)
    exact parse_insert_of ins _ hins _ h

/-- C12, at the tokens of `INSERT INTO t (a,b) VALUES (1,'x')`. -/
theorem parse_insert_witness :
    tokenize ("INSERT INTO t (a,b) VALUES (1,".toList ++ [quote, 'x', quote, ')']) =
      some [⟨TokenType.INSERT, "INSERT".toList, 0⟩, ⟨TokenType.INTO, "INTO".toList, 7⟩,
        ⟨TokenType.IDENTIFIER, ['t'], 12⟩, ⟨TokenType.LEFT_PAREN, ['('], 14⟩,
        ⟨TokenType.IDENTIFIER, ['a'], 15⟩, ⟨TokenType.COMMA, [','], 16⟩,
        ⟨TokenType.IDENTIFIER, ['b'], 17⟩, ⟨TokenType.RIGHT_PAREN, [')'], 18⟩,
        ⟨TokenType.VALUES, "VALUES".toList, 20⟩, ⟨TokenType.LEFT_PAREN, ['('], 27⟩,
        ⟨TokenType.NUMBER, ['1'], 28⟩, ⟨TokenType.COMMA, [','], 29⟩,
        ⟨TokenType.STRING, ['x'], 30⟩, ⟨TokenType.RIGHT_PAREN, [')'], 33⟩,
        ⟨TokenType.END_OF_FILE, [], 34⟩] ∧
    parse [⟨TokenType.INSERT, "INSERT".toList, 0⟩, ⟨TokenType.INTO, "INTO".toList, 7⟩,
        ⟨TokenType.IDENTIFIER, ['t'], 12⟩, ⟨TokenType.LEFT_PAREN, ['('], 14⟩,
        ⟨TokenType.IDENTIFIER, ['a'], 15⟩, ⟨TokenType.COMMA, [','], 16⟩,
        ⟨TokenType.IDENTIFIER, ['b'], 17⟩, ⟨TokenType.RIGHT_PAREN, [')'], 18⟩,
        ⟨TokenType.VALUES, "VALUES".toList, 20⟩, ⟨TokenType.LEFT_PAREN, ['('], 27⟩,
        ⟨TokenType.NUMBER, ['1'], 28⟩, ⟨TokenType.COMMA, [','], 29⟩,
        ⟨TokenType.STRING, ['x'], 30⟩, ⟨TokenType.RIGHT_PAREN, [')'], 33⟩,
        ⟨TokenType.END_OF_FILE, [], 34⟩] =
      Except.ok (Statement.InsertStatement ['t'] [['a'], ['b']]
        [Expression.LiteralExpression ['1'] LiteralType.NUMBER,
          Expression.LiteralExpression ['x'] LiteralType.STRING]) := by
  refine ⟨by decide, ?_⟩
  have h := parse_insert ⟨TokenType.INSERT, "INSERT".toList, 0⟩
    ⟨TokenType.INTO, "INTO".toList, 7⟩ ⟨TokenType.IDENTIFIER, ['t'], 12⟩
    ⟨TokenType.VALUES, "VALUES".toList, 20⟩ ⟨TokenType.LEFT_PAREN, ['('], 27⟩
    ⟨TokenType.NUMBER, ['1'], 28⟩ ⟨TokenType.RIGHT_PAREN, [')'], 33⟩
    ⟨TokenType.END_OF_FILE, [], 34⟩
    [(⟨TokenType.COMMA, [','], 29⟩, ⟨TokenType.STRING, ['x'], 30⟩)]
    [⟨TokenType.LEFT_PAREN, ['('], 14⟩, ⟨TokenType.IDENTIFIER, ['a'], 15⟩,
      ⟨TokenType.COMMA, [','], 16⟩, ⟨TokenType.IDENTIFIER, ['b'], 17⟩,
      ⟨TokenType.RIGHT_PAREN, [')'], 18⟩]
    [['a'], ['b']] rfl rfl rfl rfl rfl rfl rfl (Or.inl rfl) (by decide)
    (Or.inr ⟨⟨TokenType.LEFT_PAREN, ['('], 14⟩, ⟨TokenType.IDENTIFIER, ['a'], 15⟩,
      ⟨TokenType.RIGHT_PAREN, [')'], 18⟩,
      [(⟨TokenType.COMMA, [','], 16⟩, ⟨TokenType.IDENTIFIER, ['b'], 17⟩)],
      rfl, rfl, rfl, by decide, rfl, rfl⟩)
  exact h


theorem parseInsertValuesLoop_one (fuel : Nat) (p p1 : Parser) (values : List Expression)
    (e : Expression) (y : Token) (hp : parsePrimary fuel p = Except.ok (e, p1))
    (hy : p1.tokens[p1.current]? = some y) (hn : y.type ≠ TokenType.COMMA) :
    parseInsertValuesLoop (fuel + 1) p values = Except.ok (values ++ [e], p1) := by
  rw [parseInsertValuesLoop]
  simp [hp, Parser.matchToken_of_ne hy hn, bind, Except.bind, pure, Except.pure]

/-- C17, amended: INSERT values are what the primary production returns, and
a parenthesized sub-expression is a primary. For primary tokens `l`, `r` and a
comparison operator `op`, INSERT INTO t VALUES ( ( l op r ) ) is accepted and
its one value is the BinaryExpression `l op r`, while the unparenthesized
INSERT INTO t VALUES ( l op r ) is rejected with `Expected closing
parenthesis`; the value of a NUMBER, STRING or IDENTIFIER token is a
LiteralExpression or a ColumnExpression, never a BinaryExpression. -/
theorem parse_insert_parenthesized_value (ins into tbl vals lp2 lpi l op r rpi rp2 eof : Token)
    (o : Operator)
    (hins : ins.type = TokenType.INSERT)
    (hinto : into.type = TokenType.INTO) (htbl : tbl.type = TokenType.IDENTIFIER)
    (hvals : vals.type = TokenType.VALUES) (hlp2 : lp2.type = TokenType.LEFT_PAREN)
    (hlpi : lpi.type = TokenType.LEFT_PAREN) (hrpi : rpi.type = TokenType.RIGHT_PAREN)
    (hrp2 : rp2.type = TokenType.RIGHT_PAREN)
    (hl : l.type = TokenType.NUMBER ∨ l.type = TokenType.STRING ∨
      l.type = TokenType.IDENTIFIER)
    (hr : r.type = TokenType.NUMBER ∨ r.type = TokenType.STRING ∨
      r.type = TokenType.IDENTIFIER)
    (ho : comparisonOf op.type = some o) :
    parse [ins, into, tbl, vals, lp2, lpi, l, op, r, rpi, rp2, eof] =
      Except.ok (Statement.InsertStatement tbl.value []
        [Expression.BinaryExpression (primaryOf l) (primaryOf r) o]) ∧
    parse [ins, into, tbl, vals, lp2, l, op, r, rp2, eof] =
      Except.error (ParseError.runtime_error "Expected closing parenthesis") ∧
    (∀ (t : Token) (e1 e2 : Expression) (o2 : Operator),
      primaryOf t ≠ Expression.BinaryExpression e1 e2 o2) := by
  have hop : op.type ≠ TokenType.COMMA ∧ op.type ≠ TokenType.RIGHT_PAREN := by
    constructor <;> (intro h; rw [h] at ho; exact Option.noConfusion ho)
  refine ⟨?_, ?_, ?_⟩
  · generalize htoks : [ins, into, tbl, vals, lp2, lpi, l, op, r, rpi, rp2, eof] = toks
    have hF : parseFuel toks = 66 + 1 + 1 := by rw [← htoks]; rfl
    have e1 := parseExpression_of_comparison 2 ⟨toks, 6⟩ _ _ rpi
      (parseComparison_tokens ⟨toks, 6⟩ l op r o (by rw [← htoks]; simp)
        (by rw [← htoks]; simp) (by rw [← htoks]; simp) hl hr ho)
      (by rw [← htoks]; simp) (by rw [hrpi]; decide) (by rw [hrpi]; decide)
    have e2 := parsePrimary_parenthesized 7 ⟨toks, 5⟩ _ _ lpi rpi (by rw [← htoks]; simp) hlpi
      e1 (by rw [← htoks]; simp) hrpi 67 (by omega)
    have e3 := parseInsertValuesLoop_one 67 ⟨toks, 5⟩ _ [] _ rp2 e2 (by rw [← htoks]; simp)
      (by rw [hrp2]; decide)
    have m0 := Parser.matchToken_of_eq (p := ⟨toks, 1⟩) (x := into) (by rw [← htoks]; simp)
      hinto
    have m1 := Parser.peek_of (p := ⟨toks, 1 + 1⟩) (x := tbl) (by rw [← htoks]; simp)
    have m2 := Parser.advance_of (p := ⟨toks, 1 + 1⟩) (x := tbl) (by rw [← htoks]; simp)
    have m3 := Parser.matchToken_of_ne (p := ⟨toks, 1 + 1 + 1⟩) (x := vals)
      (T := TokenType.LEFT_PAREN) (by rw [← htoks]; simp) (by rw [hvals]; decide)
    have m4 := Parser.matchToken_of_eq (p := ⟨toks, 1 + 1 + 1⟩) (x := vals)
      (by rw [← htoks]; simp) hvals
    have m5 := Parser.matchToken_of_eq (p := ⟨toks, 1 + 1 + 1 + 1⟩) (x := lp2)
      (by rw [← htoks]; simp) hlp2
    have m6 := Parser.matchToken_of_eq (p := ⟨toks, 6 + 1 + 1 + 1 + 1⟩) (x := rp2)
      (by rw [← htoks]; simp) hrp2
    have hp : Parser.parseInsert (parseFuel toks) ⟨toks, 1⟩ =
        Except.ok (Statement.InsertStatement tbl.value []
          [Expression.BinaryExpression (primaryOf l) (primaryOf r) o],
          ⟨toks, 6 + 1 + 1 + 1 + 1 + 1⟩) := by
      rw [hF]
      unfold Parser.parseInsert
      simp only [m0, m1, m2, m3, m4, m5, m6, e3, htbl, bind, Except.bind, pure, Except.pure,
        if_true, Bool.false_eq_true, if_false, List.nil_append]
    rw [← htoks] at hp ⊢
    exact parse_insert_of ins _ hins _ hp
  · generalize htoks : [ins, into, tbl, vals, lp2, l, op, r, rp2, eof] = toks
    have hF : parseFuel toks = 56 + 1 + 1 := by rw [← htoks]; rfl
    have e3 := parseInsertValuesLoop_one 57 ⟨toks, 5⟩ _ [] _ op
      (parsePrimary_leaf 56 ⟨toks, 5⟩ l (by rw [← htoks]; simp) hl) (by rw [← htoks]; simp)
      hop.1
    have m0 := Parser.matchToken_of_ne (p := Parser.new toks) (x := ins)
      (T := TokenType.SELECT) (by rw [← htoks]; simp [Parser.new]) (by rw [hins]; decide)
    have m0b := Parser.matchToken_of_eq (p := Parser.new toks) (x := ins)
      (by rw [← htoks]; simp [Parser.new]) hins
    have m0c := Parser.matchToken_of_eq (p := ⟨toks, 0 + 1⟩) (x := into)
      (by rw [← htoks]; simp) hinto
    have m1 := Parser.peek_of (p := ⟨toks, 0 + 1 + 1⟩) (x := tbl) (by rw [← htoks]; simp)
    have m2 := Parser.advance_of (p := ⟨toks, 0 + 1 + 1⟩) (x := tbl) (by rw [← htoks]; simp)
    have m3 := Parser.matchToken_of_ne (p := ⟨toks, 0 + 1 + 1 + 1⟩) (x := vals)
      (T := TokenType.LEFT_PAREN) (by rw [← htoks]; simp) (by rw [hvals]; decide)
    have m4 := Parser.matchToken_of_eq (p := ⟨toks, 0 + 1 + 1 + 1⟩) (x := vals)
      (by rw [← htoks]; simp) hvals
    have m5 := Parser.matchToken_of_eq (p := ⟨toks, 0 + 1 + 1 + 1 + 1⟩) (x := lp2)
      (by rw [← htoks]; simp) hlp2
    have m6 := Parser.matchToken_of_ne (p := ⟨toks, 5 + 1⟩) (x := op)
      (T := TokenType.RIGHT_PAREN) (by rw [← htoks]; simp) hop.2
    unfold parse Parser.parse
    rw [hF]
    unfold Parser.parseInsert
    simp only [Parser.new] at m0 m0b
    simp only [Parser.new, m0, m0b, m0c, m1, m2, m3, m4, m5, m6, e3, htbl, bind, Except.bind,
      pure, Except.pure, if_true, Bool.false_eq_true, if_false, List.nil_append, Except.map,
      throw, throwThe, MonadExceptOf.throw]
  · intro t e1 e2 o2
    unfold primaryOf
    split
    · exact Expression.noConfusion
    · split <;> exact Expression.noConfusion

/-- C17, amended, at the tokens of `INSERT INTO t VALUES ((a = 1))` and of
`INSERT INTO t VALUES (a = 1)`. -/
theorem parse_insert_parenthesized_value_witness :
    parse [⟨TokenType.INSERT, "INSERT".toList, 0⟩, ⟨TokenType.INTO, "INTO".toList, 7⟩,
        ⟨TokenType.IDENTIFIER, ['t'], 12⟩, ⟨TokenType.VALUES, "VALUES".toList, 14⟩,
        ⟨TokenType.LEFT_PAREN, ['('], 21⟩, ⟨TokenType.LEFT_PAREN, ['('], 22⟩,
        ⟨TokenType.IDENTIFIER, ['a'], 23⟩, ⟨TokenType.EQUALS, ['='], 25⟩,
        ⟨TokenType.NUMBER, ['1'], 27⟩, ⟨TokenType.RIGHT_PAREN, [')'], 28⟩,
        ⟨TokenType.RIGHT_PAREN, [')'], 29⟩, ⟨TokenType.END_OF_FILE, [], 30⟩] =
      Except.ok (Statement.InsertStatement ['t'] []
        [Expression.BinaryExpression (Expression.ColumnExpression ['a'])
          (Expression.LiteralExpression ['1'] LiteralType.NUMBER) Operator.EQUALS]) ∧
    parse [⟨TokenType.INSERT, "INSERT".toList, 0⟩, ⟨TokenType.INTO, "INTO".toList, 7⟩,
        ⟨TokenType.IDENTIFIER, ['t'], 12⟩, ⟨TokenType.VALUES, "VALUES".toList, 14⟩,
        ⟨TokenType.LEFT_PAREN, ['('], 21⟩,
        ⟨TokenType.IDENTIFIER, ['a'], 23⟩, ⟨TokenType.EQUALS, ['='], 25⟩,
        ⟨TokenType.NUMBER, ['1'], 27⟩,
        ⟨TokenType.RIGHT_PAREN, [')'], 29⟩, ⟨TokenType.END_OF_FILE, [], 30⟩] =
      Except.error (ParseError.runtime_error "Expected closing parenthesis") := by
  have h := parse_insert_parenthesized_value ⟨TokenType.INSERT, "INSERT".toList, 0⟩
    ⟨TokenType.INTO, "INTO".toList, 7⟩ ⟨TokenType.IDENTIFIER, ['t'], 12⟩
    ⟨TokenType.VALUES, "VALUES".toList, 14⟩ ⟨TokenType.LEFT_PAREN, ['('], 21⟩
    ⟨TokenType.LEFT_PAREN, ['('], 22⟩ ⟨TokenType.IDENTIFIER, ['a'], 23⟩
    ⟨TokenType.EQUALS, ['='], 25⟩ ⟨TokenType.NUMBER, ['1'], 27⟩
    ⟨TokenType.RIGHT_PAREN, [')'], 28⟩ ⟨TokenType.RIGHT_PAREN, [')'], 29⟩
    ⟨TokenType.END_OF_FILE, [], 30⟩ Operator.EQUALS rfl rfl rfl rfl rfl rfl rfl rfl
    (Or.inr (Or.inr rfl)) (Or.inl rfl) rfl
  exact ⟨h.1, h.2.1⟩

/-- C17 as stated fails: the tokens of `INSERT INTO t VALUES ((a = 1))` are
what `tokenize` returns for this text, and `parse` accepts them and returns
an InsertStatement whose value is a BinaryExpression. -/
theorem parse_insert_binary_value_accepted :
    tokenize "INSERT INTO t VALUES ((a = 1))".toList =
      some [⟨TokenType.INSERT, "INSERT".toList, 0⟩, ⟨TokenType.INTO, "INTO".toList, 7⟩,
        ⟨TokenType.IDENTIFIER, ['t'], 12⟩, ⟨TokenType.VALUES, "VALUES".toList, 14⟩,
        ⟨TokenType.LEFT_PAREN, ['('], 21⟩, ⟨TokenType.LEFT_PAREN, ['('], 22⟩,
        ⟨TokenType.IDENTIFIER, ['a'], 23⟩, ⟨TokenType.EQUALS, ['='], 25⟩,
        ⟨TokenType.NUMBER, ['1'], 27⟩, ⟨TokenType.RIGHT_PAREN, [')'], 28⟩,
        ⟨TokenType.RIGHT_PAREN, [')'], 29⟩, ⟨TokenType.END_OF_FILE, [], 30⟩] ∧
    parse [⟨TokenType.INSERT, "INSERT".toList, 0⟩, ⟨TokenType.INTO, "INTO".toList, 7⟩,
        ⟨TokenType.IDENTIFIER, ['t'], 12⟩, ⟨TokenType.VALUES, "VALUES".toList, 14⟩,
        ⟨TokenType.LEFT_PAREN, ['('], 21⟩, ⟨TokenType.LEFT_PAREN, ['('], 22⟩,
        ⟨TokenType.IDENTIFIER, ['a'], 23⟩, ⟨TokenType.EQUALS, ['='], 25⟩,
        ⟨TokenType.NUMBER, ['1'], 27⟩, ⟨TokenType.RIGHT_PAREN, [')'], 28⟩,
        ⟨TokenType.RIGHT_PAREN, [')'], 29⟩, ⟨TokenType.END_OF_FILE, [], 30⟩] =
      Except.ok (Statement.InsertStatement ['t'] []
        [Expression.BinaryExpression (Expression.ColumnExpression ['a'])
          (Expression.LiteralExpression ['1'] LiteralType.NUMBER) Operator.EQUALS]) :=
  ⟨by decide, by decide⟩

/-! ## The end of the token vector, and a lone `!` -/

/-- C20 fails on the code: the four tokens SELECT, STAR, FROM, IDENTIFIER
without an end marker make `parse` read `tokens[4]` of a vector of four
tokens, in the `peek` of `match(WHERE)`; the guard of `advance` is never
reached. -/
theorem parse_without_end_marker_out_of_bounds :
    parse [⟨TokenType.SELECT, "SELECT".toList, 0⟩, ⟨TokenType.STAR, ['*'], 7⟩,
        ⟨TokenType.FROM, "FROM".toList, 9⟩, ⟨TokenType.IDENTIFIER, ['t'], 14⟩] =
      Except.error ParseError.outOfBounds ∧
    Parser.advance ⟨[⟨TokenType.SELECT, "SELECT".toList, 0⟩, ⟨TokenType.STAR, ['*'], 7⟩,
        ⟨TokenType.FROM, "FROM".toList, 9⟩, ⟨TokenType.IDENTIFIER, ['t'], 14⟩], 4⟩ =
      Except.ok (⟨TokenType.IDENTIFIER, ['t'], 14⟩,
        ⟨[⟨TokenType.SELECT, "SELECT".toList, 0⟩, ⟨TokenType.STAR, ['*'], 7⟩,
          ⟨TokenType.FROM, "FROM".toList, 9⟩, ⟨TokenType.IDENTIFIER, ['t'], 14⟩], 4⟩) ∧
    Parser.peek ⟨[⟨TokenType.SELECT, "SELECT".toList, 0⟩, ⟨TokenType.STAR, ['*'], 7⟩,
        ⟨TokenType.FROM, "FROM".toList, 9⟩, ⟨TokenType.IDENTIFIER, ['t'], 14⟩], 4⟩ =
      Except.error ParseError.outOfBounds := by
  decide

/-- C21, amended: a `!` that is not followed by `=` is scanned as any unknown
character is, the case of the switch falls through to `default`: the pass
pushes an INVALID token with text `!` and moves the position forward by one;
a `!` followed by `=` gives NOT_EQUALS with text `!=` and moves it by two. -/
theorem scanPass_bang (lx : Lexer)
    (hc : charAt lx.input lx.position = '!') :
    (lx.position + 1 < lx.input.length ∧ charAt lx.input (lx.position + 1) = '=' →
      lx.scanPass = some (some ⟨TokenType.NOT_EQUALS, ['!', '='], lx.position⟩,
        ⟨lx.input, lx.position + 1 + 1⟩)) ∧
    (¬ (lx.position + 1 < lx.input.length ∧ charAt lx.input (lx.position + 1) = '=') →
      lx.scanPass = some (some ⟨TokenType.INVALID, ['!'], lx.position⟩,
        ⟨lx.input, lx.position + 1⟩)) := by
  have h1 : isspace '!' = false := by decide
  have h2 : isdigit '!' = false := by decide
  have h3 : isalpha '!' = false := by decide
  have h4 : ('!' == quote) = false := by decide
  constructor
  · intro h
    simp [Lexer.scanPass, Lexer.readOperator, hc, h1, h2, h3, h4, h.1, h.2]
  · intro h
    have h5 : (decide (lx.position + 1 < lx.input.length) &&
        charAt lx.input (lx.position + 1) == '=') = false := by
      rw [Bool.and_eq_false_iff]
      by_cases h6 : lx.position + 1 < lx.input.length
      · right
        simpa using fun h7 => h ⟨h6, h7⟩
      · left
        simpa using h6
    simp [Lexer.scanPass, Lexer.readOperator, hc, h1, h2, h3, h4, h5]

/-- C21, amended, at the inputs `!` and `!=`. -/
theorem scanPass_bang_witness :
    Lexer.scanPass ⟨['!'], 0⟩ = some (some ⟨TokenType.INVALID, ['!'], 0⟩, ⟨['!'], 1⟩) ∧
    Lexer.scanPass ⟨['!', '='], 0⟩ =
      some (some ⟨TokenType.NOT_EQUALS, ['!', '='], 0⟩, ⟨['!', '='], 2⟩) :=
  ⟨(scanPass_bang ⟨['!'], 0⟩ rfl).2 (by decide),
    (scanPass_bang ⟨['!', '='], 0⟩ rfl).1 (by decide)⟩

/-- C21 as stated fails: the input `!` is tokenized to an INVALID token with
text `!`, and the input `!a` to that token followed by the identifier at
position 1, so the scan has moved past the `!`. -/
theorem tokenize_lone_bang_is_invalid :
    tokenize ['!'] =
      some [⟨TokenType.INVALID, ['!'], 0⟩, ⟨TokenType.END_OF_FILE, [], 1⟩] ∧
    tokenize ['!', 'a'] =
      some [⟨TokenType.INVALID, ['!'], 0⟩, ⟨TokenType.IDENTIFIER, ['a'], 1⟩,
        ⟨TokenType.END_OF_FILE, [], 2⟩] := by
  decide


/-! ## Two runs of the parser side by side -/

theorem Outcome.weaken {α : Type} {toks1 toks2 : List Token} {j : Nat} {E E1 : Prop}
    {c c1 : Nat} {r1 r2 : Except ParseError (α × Parser)}
    (h : Outcome toks1 toks2 j E1 c1 r1 r2) (hE : E → E1) (hc : c ≤ c1) :
    Outcome toks1 toks2 j E c r1 r2 := by
  rcases h with ⟨h1, h2⟩ | ⟨w, h1, h2⟩ | ⟨a, c2, h1, h2, h3, h4⟩
  · exact Or.inl ⟨h1, fun e => h2 (hE e)⟩
  · exact Or.inr (Or.inl ⟨w, h1, h2⟩)
  · exact Or.inr (Or.inr ⟨a, c2, by omega, h2, h3, h4⟩)

theorem Outcome.bind {α β : Type} {toks1 toks2 : List Token} {j : Nat} {E E1 : Prop}
    {c : Nat} {m1 m2 : Except ParseError (α × Parser)}
    {f1 f2 : α × Parser → Except ParseError (β × Parser)}
    (hm : Outcome toks1 toks2 j E1 c m1 m2) (hE : E → E1)
    (hf : ∀ a c1, c ≤ c1 → c1 ≤ j → m1 = Except.ok (a, ⟨toks1, c1⟩) →
      Outcome toks1 toks2 j E c (f1 (a, ⟨toks1, c1⟩)) (f2 (a, ⟨toks2, c1⟩))) :
    Outcome toks1 toks2 j E c (m1 >>= f1) (m2 >>= f2) := by
  rcases hm with ⟨h1, h2⟩ | ⟨w, h1, h2⟩ | ⟨a, c2, h1, h2, h3, h4⟩
  · rw [h1]
    exact Or.inl ⟨rfl, fun e => h2 (hE e)⟩
  · rw [h1, h2]
    exact Or.inr (Or.inl ⟨w, rfl, rfl⟩)
  · have := hf a c2 h1 h2 h3
    rw [h3, h4]
    exact this

theorem Outcome.ok {α : Type} {toks1 toks2 : List Token} {j : Nat} {E : Prop} {c c1 : Nat}
    (a : α) (h1 : c ≤ c1) (h2 : c1 ≤ j) :
    Outcome toks1 toks2 j E c (Except.ok (a, ⟨toks1, c1⟩)) (Except.ok (a, ⟨toks2, c1⟩)) :=
  Or.inr (Or.inr ⟨a, c1, h1, h2, rfl, rfl⟩)

theorem Outcome.error {α : Type} {toks1 toks2 : List Token} {j : Nat} {E : Prop} {c : Nat}
    (what : String) :
    Outcome (α := α) toks1 toks2 j E c (Except.error (ParseError.runtime_error what))
      (Except.error (ParseError.runtime_error what)) :=
  Or.inr (Or.inl ⟨what, rfl, rfl⟩)

theorem Outcome.outOfFuel {α : Type} {toks1 toks2 : List Token} {j : Nat} {E : Prop} {c : Nat}
    (r2 : Except ParseError (α × Parser)) (hE : ¬ E) :
    Outcome toks1 toks2 j E c (Except.error ParseError.outOfFuel) r2 :=
  Or.inl ⟨rfl, hE⟩

/-- The tokens under a cursor `c ≤ j`: the same token, with room to move on,
or a token each that no production consumes. -/
theorem Barrier.current {toks1 toks2 : List Token} {j : Nat} (B : Barrier toks1 toks2 j)
    {c : Nat} (hc : c ≤ j) :
    ∃ t1 t2, toks1[c]? = some t1 ∧ toks2[c]? = some t2 ∧
      ((t1 = t2 ∧ c + 1 ≤ j) ∨ (consumable t1.type = false ∧ consumable t2.type = false)) := by
  obtain ⟨s1, hs1, hn1⟩ := B.stop1
  obtain ⟨s2, hs2, hn2⟩ := B.stop2
  by_cases h : c < j
  · have hj : j < toks1.length := by
      by_contra hge
      rw [List.getElem?_eq_none (by omega)] at hs1
      exact Option.noConfusion hs1
    have h1 : toks1[c]? = some toks1[c] := List.getElem?_eq_getElem (by omega)
    exact ⟨toks1[c], toks1[c], h1, by rw [← B.agree c h, h1], Or.inl ⟨rfl, by omega⟩⟩
  · have : c = j := by omega
    subst this
    exact ⟨s1, s2, hs1, hs2, Or.inr ⟨hn1, hn2⟩⟩

theorem consumable_ne {t : Token} {T : TokenType} (h : consumable t.type = false)
    (hT : consumable T = true) : t.type ≠ T := by
  intro e
  rw [e, hT] at h
  exact Bool.noConfusion h

/-- The call `match(T)` for a kind `T` that is consumed, on both vectors. -/
theorem Barrier.matchToken {toks1 toks2 : List Token} {j : Nat} (B : Barrier toks1 toks2 j)
    {c : Nat} (hc : c ≤ j) (T : TokenType) (hT : consumable T = true) :
    (c + 1 ≤ j ∧ Parser.matchToken ⟨toks1, c⟩ T = Except.ok (true, ⟨toks1, c + 1⟩) ∧
      Parser.matchToken ⟨toks2, c⟩ T = Except.ok (true, ⟨toks2, c + 1⟩)) ∨
    (Parser.matchToken ⟨toks1, c⟩ T = Except.ok (false, ⟨toks1, c⟩) ∧
      Parser.matchToken ⟨toks2, c⟩ T = Except.ok (false, ⟨toks2, c⟩)) := by
  obtain ⟨t1, t2, h1, h2, hcase⟩ := B.current hc
  rcases hcase with ⟨rfl, hlt⟩ | ⟨hn1, hn2⟩
  · by_cases ht : t1.type = T
    · exact Or.inl ⟨hlt, Parser.matchToken_of_eq (p := ⟨toks1, c⟩) h1 ht,
        Parser.matchToken_of_eq (p := ⟨toks2, c⟩) h2 ht⟩
    · exact Or.inr ⟨Parser.matchToken_of_ne (p := ⟨toks1, c⟩) h1 ht,
        Parser.matchToken_of_ne (p := ⟨toks2, c⟩) h2 ht⟩
  · exact Or.inr ⟨Parser.matchToken_of_ne (p := ⟨toks1, c⟩) h1 (consumable_ne hn1 hT),
      Parser.matchToken_of_ne (p := ⟨toks2, c⟩) h2 (consumable_ne hn2 hT)⟩


theorem ok_bind {α β : Type} (x : α) (f : α → Except ParseError β) :
    (Except.ok x >>= f) = f x := rfl

theorem Outcome.bind_same {α β : Type} {toks1 toks2 : List Token} {j : Nat} {E : Prop}
    {c : Nat} {m1 m2 : Except ParseError (α × Parser)}
    {f1 f2 : α × Parser → Except ParseError (β × Parser)}
    (hm : Outcome toks1 toks2 j E c m1 m2)
    (hf : ∀ a c1, c ≤ c1 → c1 ≤ j →
      Outcome toks1 toks2 j E c (f1 (a, ⟨toks1, c1⟩)) (f2 (a, ⟨toks2, c1⟩))) :
    Outcome toks1 toks2 j E c (m1 >>= f1) (m2 >>= f2) :=
  Outcome.bind hm id (fun a c1 h1 h2 _ => hf a c1 h1 h2)

theorem Outcome.bind_at {α β : Type} {toks1 toks2 : List Token} {j : Nat} {E E1 : Prop}
    {c c0 : Nat} {m1 m2 : Except ParseError (α × Parser)}
    {f1 f2 : α × Parser → Except ParseError (β × Parser)}
    (hm : Outcome toks1 toks2 j E1 c0 m1 m2) (hE : E → E1)
    (hf : ∀ a c1, c0 ≤ c1 → c1 ≤ j →
      Outcome toks1 toks2 j E c (f1 (a, ⟨toks1, c1⟩)) (f2 (a, ⟨toks2, c1⟩))) :
    Outcome toks1 toks2 j E c (m1 >>= f1) (m2 >>= f2) := by
  rcases hm with ⟨h1, h2⟩ | ⟨w, h1, h2⟩ | ⟨a, c2, h1, h2, h3, h4⟩
  · rw [h1]
    exact Or.inl ⟨rfl, fun e => h2 (hE e)⟩
  · rw [h1, h2]
    exact Or.inr (Or.inl ⟨w, rfl, rfl⟩)
  · have := hf a c2 h1 h2
    rw [h3, h4]
    exact this

/-- The functions of the expression grammar on two vectors with a common
barrier, the second run with at least the fuel of the first: the outcomes
agree, the cursor stays at or before the barrier, and fuel of five units for
each token before the barrier, and a few more, is enough. -/
theorem expression_outcome {toks1 toks2 : List Token} {j : Nat} (B : Barrier toks1 toks2 j) :
    ∀ fuel1 : Nat,
      (∀ fuel2 c, fuel1 ≤ fuel2 → c ≤ j →
        Outcome toks1 toks2 j (5 * (j - c) + 5 ≤ fuel1) c
          (parseExpression fuel1 ⟨toks1, c⟩) (parseExpression fuel2 ⟨toks2, c⟩)) ∧
      (∀ fuel2 c, fuel1 ≤ fuel2 → c ≤ j →
        Outcome toks1 toks2 j (5 * (j - c) + 4 ≤ fuel1) c
          (parseOr fuel1 ⟨toks1, c⟩) (parseOr fuel2 ⟨toks2, c⟩)) ∧
      (∀ fuel2 c left, fuel1 ≤ fuel2 → c ≤ j →
        Outcome toks1 toks2 j (5 * (j - c) + 3 ≤ fuel1) c
          (parseOrLoop fuel1 ⟨toks1, c⟩ left) (parseOrLoop fuel2 ⟨toks2, c⟩ left)) ∧
      (∀ fuel2 c, fuel1 ≤ fuel2 → c ≤ j →
        Outcome toks1 toks2 j (5 * (j - c) + 3 ≤ fuel1) c
          (parseAnd fuel1 ⟨toks1, c⟩) (parseAnd fuel2 ⟨toks2, c⟩)) ∧
      (∀ fuel2 c left, fuel1 ≤ fuel2 → c ≤ j →
        Outcome toks1 toks2 j (5 * (j - c) + 2 ≤ fuel1) c
          (parseAndLoop fuel1 ⟨toks1, c⟩ left) (parseAndLoop fuel2 ⟨toks2, c⟩ left)) ∧
      (∀ fuel2 c, fuel1 ≤ fuel2 → c ≤ j →
        Outcome toks1 toks2 j (5 * (j - c) + 2 ≤ fuel1) c
          (parseComparison fuel1 ⟨toks1, c⟩) (parseComparison fuel2 ⟨toks2, c⟩)) ∧
      (∀ fuel2 c, fuel1 ≤ fuel2 → c ≤ j →
        Outcome toks1 toks2 j (5 * (j - c) + 1 ≤ fuel1) c
          (parsePrimary fuel1 ⟨toks1, c⟩) (parsePrimary fuel2 ⟨toks2, c⟩)) := by
  intro fuel1
  induction fuel1 with
  | zero =>
    refine ⟨?_, ?_, ?_, ?_, ?_, ?_, ?_⟩
    · intro fuel2 c _ _
      rw [parseExpression]
      exact Outcome.outOfFuel _ (by omega)
    · intro fuel2 c _ _
      rw [parseOr]
      exact Outcome.outOfFuel _ (by omega)
    · intro fuel2 c left _ _
      rw [parseOrLoop]
      exact Outcome.outOfFuel _ (by omega)
    · intro fuel2 c _ _
      rw [parseAnd]
      exact Outcome.outOfFuel _ (by omega)
    · intro fuel2 c left _ _
      rw [parseAndLoop]
      exact Outcome.outOfFuel _ (by omega)
    · intro fuel2 c _ _
      rw [parseComparison]
      exact Outcome.outOfFuel _ (by omega)
    · intro fuel2 c _ _
      rw [parsePrimary]
      exact Outcome.outOfFuel _ (by omega)
  | succ f1 ih =>
    obtain ⟨ihE, ihO, ihOL, ihA, ihAL, ihC, ihP⟩ := ih
    refine ⟨?_, ?_, ?_, ?_, ?_, ?_, ?_⟩
    · -- parseExpression
      intro fuel2 c hf hc
      obtain ⟨f2, rfl⟩ : ∃ k, fuel2 = k + 1 := ⟨fuel2 - 1, by omega⟩
      rw [parseExpression, parseExpression]
      exact (ihO f2 c (by omega) hc).weaken (by omega) (le_refl _)
    · -- parseOr
      intro fuel2 c hf hc
      obtain ⟨f2, rfl⟩ : ∃ k, fuel2 = k + 1 := ⟨fuel2 - 1, by omega⟩
      rw [parseOr, parseOr]
      apply Outcome.bind_same ((ihA f2 c (by omega) hc).weaken (by omega) (le_refl _))
      intro a c1 h1 h2
      exact (ihOL f2 c1 a (by omega) h2).weaken (by omega) h1
    · -- parseOrLoop
      intro fuel2 c left hf hc
      obtain ⟨f2, rfl⟩ : ∃ k, fuel2 = k + 1 := ⟨fuel2 - 1, by omega⟩
      rw [parseOrLoop, parseOrLoop]
      rcases B.matchToken hc TokenType.OR rfl with ⟨hlt, e1, e2⟩ | ⟨e1, e2⟩
      · simp only [e1, e2, ok_bind, if_true]
        apply Outcome.bind_at (ihA f2 (c + 1) (by omega) hlt) (by omega)
        intro a c1 h1 h2
        exact (ihOL f2 c1 _ (by omega) h2).weaken (by omega) (by omega)
      · simp only [e1, e2, ok_bind, Bool.false_eq_true, if_false, pure, Except.pure]
        exact Outcome.ok _ (le_refl _) hc
    · -- parseAnd
      intro fuel2 c hf hc
      obtain ⟨f2, rfl⟩ : ∃ k, fuel2 = k + 1 := ⟨fuel2 - 1, by omega⟩
      rw [parseAnd, parseAnd]
      apply Outcome.bind_same ((ihC f2 c (by omega) hc).weaken (by omega) (le_refl _))
      intro a c1 h1 h2
      exact (ihAL f2 c1 a (by omega) h2).weaken (by omega) h1
    · -- parseAndLoop
      intro fuel2 c left hf hc
      obtain ⟨f2, rfl⟩ : ∃ k, fuel2 = k + 1 := ⟨fuel2 - 1, by omega⟩
      rw [parseAndLoop, parseAndLoop]
      rcases B.matchToken hc TokenType.AND rfl with ⟨hlt, e1, e2⟩ | ⟨e1, e2⟩
      · simp only [e1, e2, ok_bind, if_true]
        apply Outcome.bind_at (ihC f2 (c + 1) (by omega) hlt) (by omega)
        intro a c1 h1 h2
        exact (ihAL f2 c1 _ (by omega) h2).weaken (by omega) (by omega)
      · simp only [e1, e2, ok_bind, Bool.false_eq_true, if_false, pure, Except.pure]
        exact Outcome.ok _ (le_refl _) hc
    · -- parseComparison
      intro fuel2 c hf hc
      obtain ⟨f2, rfl⟩ : ∃ k, fuel2 = k + 1 := ⟨fuel2 - 1, by omega⟩
      rw [parseComparison, parseComparison]
      apply Outcome.bind_same ((ihP f2 c (by omega) hc).weaken (by omega) (le_refl _))
      intro a c1 h1 h2
      have right : ∀ o : Operator, c1 + 1 ≤ j →
          Outcome toks1 toks2 j (5 * (j - c) + 2 ≤ f1 + 1) c
            (parsePrimary f1 ⟨toks1, c1 + 1⟩ >>= fun x =>
              Except.ok (Expression.BinaryExpression a x.1 o, x.2))
            (parsePrimary f2 ⟨toks2, c1 + 1⟩ >>= fun x =>
              Except.ok (Expression.BinaryExpression a x.1 o, x.2)) := by
        intro o hlt
        apply Outcome.bind_same ((ihP f2 (c1 + 1) (by omega) hlt).weaken (by omega)
          (by omega))
        intro b c2 h3 h4
        exact Outcome.ok _ h3 h4
      simp only []
      rcases B.matchToken h2 TokenType.EQUALS rfl with ⟨hlt, e1, e2⟩ | ⟨e1, e2⟩
      · simp only [e1, e2, ok_bind, if_true]
        exact right _ hlt
      simp only [e1, e2, ok_bind, Bool.false_eq_true, if_false]
      rcases B.matchToken h2 TokenType.NOT_EQUALS rfl with ⟨hlt, e1, e2⟩ | ⟨e1, e2⟩
      · simp only [e1, e2, ok_bind, if_true]
        exact right _ hlt
      simp only [e1, e2, ok_bind, Bool.false_eq_true, if_false]
      rcases B.matchToken h2 TokenType.LESS_THAN rfl with ⟨hlt, e1, e2⟩ | ⟨e1, e2⟩
      · simp only [e1, e2, ok_bind, if_true]
        exact right _ hlt
      simp only [e1, e2, ok_bind, Bool.false_eq_true, if_false]
      rcases B.matchToken h2 TokenType.GREATER_THAN rfl with ⟨hlt, e1, e2⟩ | ⟨e1, e2⟩
      · simp only [e1, e2, ok_bind, if_true]
        exact right _ hlt
      simp only [e1, e2, ok_bind, Bool.false_eq_true, if_false]
      rcases B.matchToken h2 TokenType.LESS_EQUAL rfl with ⟨hlt, e1, e2⟩ | ⟨e1, e2⟩
      · simp only [e1, e2, ok_bind, if_true]
        exact right _ hlt
      simp only [e1, e2, ok_bind, Bool.false_eq_true, if_false]
      rcases B.matchToken h2 TokenType.GREATER_EQUAL rfl with ⟨hlt, e1, e2⟩ | ⟨e1, e2⟩
      · simp only [e1, e2, ok_bind, if_true]
        exact right _ hlt
      simp only [e1, e2, ok_bind, Bool.false_eq_true, if_false, pure, Except.pure]
      exact Outcome.ok _ h1 h2
    · -- parsePrimary
      intro fuel2 c hf hc
      obtain ⟨f2, rfl⟩ : ∃ k, fuel2 = k + 1 := ⟨fuel2 - 1, by omega⟩
      rw [parsePrimary, parsePrimary]
      obtain ⟨t1, t2, h1, h2, hcase⟩ := B.current hc
      have p1 := Parser.peek_of (p := ⟨toks1, c⟩) h1
      have p2 := Parser.peek_of (p := ⟨toks2, c⟩) h2
      have a1 := Parser.advance_of (p := ⟨toks1, c⟩) h1
      have a2 := Parser.advance_of (p := ⟨toks2, c⟩) h2
      simp only [p1, p2, a1, a2, ok_bind]
      rcases hcase with ⟨rfl, hlt⟩ | ⟨hn1, hn2⟩
      · by_cases hN : t1.type = TokenType.NUMBER
        · simp only [hN, if_true, pure, Except.pure]
          exact Outcome.ok _ (Nat.le_succ _) hlt
        by_cases hS : t1.type = TokenType.STRING
        · simp only [hS, if_true, pure, Except.pure]
          simp only [show ¬ (TokenType.STRING = TokenType.NUMBER) by decide, if_false]
          exact Outcome.ok _ (Nat.le_succ _) hlt
        by_cases hI : t1.type = TokenType.IDENTIFIER
        · simp only [hI, if_true, pure, Except.pure]
          simp only [show ¬ (TokenType.IDENTIFIER = TokenType.NUMBER) by decide,
            show ¬ (TokenType.IDENTIFIER = TokenType.STRING) by decide, if_false]
          exact Outcome.ok _ (Nat.le_succ _) hlt
        simp only [hN, hS, hI, if_false]
        by_cases hL : t1.type = TokenType.LEFT_PAREN
        · rw [Parser.matchToken_of_eq (p := ⟨toks1, c⟩) h1 hL,
            Parser.matchToken_of_eq (p := ⟨toks2, c⟩) h2 hL]
          simp only [ok_bind, if_true]
          apply Outcome.bind_same ((ihE f2 (c + 1) (by omega) hlt).weaken (by omega)
            (Nat.le_succ _))
          intro a c1 h3 h4
          simp only []
          rcases B.matchToken h4 TokenType.RIGHT_PAREN rfl with ⟨hlt2, e1, e2⟩ | ⟨e1, e2⟩
          · simp only [e1, e2, ok_bind, if_true, pure, Except.pure]
            exact Outcome.ok _ (by omega) hlt2
          · simp only [e1, e2, ok_bind, Bool.false_eq_true, if_false]
            exact Outcome.error _
        · rw [Parser.matchToken_of_ne (p := ⟨toks1, c⟩) h1 hL,
            Parser.matchToken_of_ne (p := ⟨toks2, c⟩) h2 hL]
          simp only [ok_bind, Bool.false_eq_true, if_false]
          exact Outcome.error _
      · simp only [consumable_ne hn1 (T := TokenType.NUMBER) rfl,
          consumable_ne hn1 (T := TokenType.STRING) rfl,
          consumable_ne hn1 (T := TokenType.IDENTIFIER) rfl,
          consumable_ne hn2 (T := TokenType.NUMBER) rfl,
          consumable_ne hn2 (T := TokenType.STRING) rfl,
          consumable_ne hn2 (T := TokenType.IDENTIFIER) rfl, if_false]
        rw [Parser.matchToken_of_ne (p := ⟨toks1, c⟩) h1
            (consumable_ne hn1 (T := TokenType.LEFT_PAREN) rfl),
          Parser.matchToken_of_ne (p := ⟨toks2, c⟩) h2
            (consumable_ne hn2 (T := TokenType.LEFT_PAREN) rfl)]
        simp only [ok_bind, Bool.false_eq_true, if_false]
        exact Outcome.error _


theorem Barrier.matchToken_outcome {toks1 toks2 : List Token} {j : Nat}
    (B : Barrier toks1 toks2 j) {c : Nat} (hc : c ≤ j) (T : TokenType)
    (hT : consumable T = true) (E : Prop) :
    Outcome toks1 toks2 j E c (Parser.matchToken ⟨toks1, c⟩ T)
      (Parser.matchToken ⟨toks2, c⟩ T) := by
  rcases B.matchToken hc T hT with ⟨hlt, e1, e2⟩ | ⟨e1, e2⟩
  · rw [e1, e2]
    exact Outcome.ok _ (Nat.le_succ _) hlt
  · rw [e1, e2]
    exact Outcome.ok _ (le_refl _) hc

theorem parseColumnListLoop_outcome {toks1 toks2 : List Token} {j : Nat}
    (B : Barrier toks1 toks2 j) :
    ∀ fuel1 fuel2 c columns, fuel1 ≤ fuel2 → c ≤ j →
      Outcome toks1 toks2 j ((j - c) + 1 ≤ fuel1) c
        (parseColumnListLoop fuel1 ⟨toks1, c⟩ columns)
        (parseColumnListLoop fuel2 ⟨toks2, c⟩ columns) := by
  intro fuel1
  induction fuel1 with
  | zero =>
    intro fuel2 c columns _ _
    rw [parseColumnListLoop]
    exact Outcome.outOfFuel _ (by omega)
  | succ f1 ih =>
    intro fuel2 c columns hf hc
    obtain ⟨f2, rfl⟩ : ∃ k, fuel2 = k + 1 := ⟨fuel2 - 1, by omega⟩
    rw [parseColumnListLoop, parseColumnListLoop]
    obtain ⟨t1, t2, h1, h2, hcase⟩ := B.current hc
    have p1 := Parser.peek_of (p := ⟨toks1, c⟩) h1
    have p2 := Parser.peek_of (p := ⟨toks2, c⟩) h2
    have a1 := Parser.advance_of (p := ⟨toks1, c⟩) h1
    have a2 := Parser.advance_of (p := ⟨toks2, c⟩) h2
    simp only [p1, p2, a1, a2, ok_bind]
    have next : ∀ cols : List Expression, c + 1 ≤ j →
        Outcome toks1 toks2 j ((j - c) + 1 ≤ f1 + 1) c
          (Parser.matchToken ⟨toks1, c + 1⟩ TokenType.COMMA >>= fun x =>
            if x.1 = true then parseColumnListLoop f1 x.2 cols else Except.ok (cols, x.2))
          (Parser.matchToken ⟨toks2, c + 1⟩ TokenType.COMMA >>= fun x =>
            if x.1 = true then parseColumnListLoop f2 x.2 cols else Except.ok (cols, x.2)) := by
      intro cols hlt
      rcases B.matchToken hlt TokenType.COMMA rfl with ⟨hlt2, e1, e2⟩ | ⟨e1, e2⟩
      · simp only [e1, e2, ok_bind, if_true]
        exact (ih f2 (c + 1 + 1) cols (by omega) hlt2).weaken (by omega) (by omega)
      · simp only [e1, e2, ok_bind, Bool.false_eq_true, if_false]
        exact Outcome.ok _ (Nat.le_succ _) hlt
    rcases hcase with ⟨rfl, hlt⟩ | ⟨hn1, hn2⟩
    · by_cases hS : t1.type = TokenType.STAR
      · simp only [hS, if_true, pure, Except.pure, ok_bind]
        exact next _ hlt
      by_cases hI : t1.type = TokenType.IDENTIFIER
      · simp only [hI, if_true, pure, Except.pure, ok_bind,
          show ¬ (TokenType.IDENTIFIER = TokenType.STAR) by decide, if_false]
        exact next _ hlt
      simp only [hS, hI, if_false]
      exact Outcome.error _
    · simp only [consumable_ne hn1 (T := TokenType.STAR) rfl,
        consumable_ne hn1 (T := TokenType.IDENTIFIER) rfl,
        consumable_ne hn2 (T := TokenType.STAR) rfl,
        consumable_ne hn2 (T := TokenType.IDENTIFIER) rfl, if_false]
      exact Outcome.error _

theorem parseInsertColumnsLoop_outcome {toks1 toks2 : List Token} {j : Nat}
    (B : Barrier toks1 toks2 j) :
    ∀ fuel1 fuel2 c columns, fuel1 ≤ fuel2 → c ≤ j →
      Outcome toks1 toks2 j ((j - c) + 1 ≤ fuel1) c
        (parseInsertColumnsLoop fuel1 ⟨toks1, c⟩ columns)
        (parseInsertColumnsLoop fuel2 ⟨toks2, c⟩ columns) := by
  intro fuel1
  induction fuel1 with
  | zero =>
    intro fuel2 c columns _ _
    rw [parseInsertColumnsLoop]
    exact Outcome.outOfFuel _ (by omega)
  | succ f1 ih =>
    intro fuel2 c columns hf hc
    obtain ⟨f2, rfl⟩ : ∃ k, fuel2 = k + 1 := ⟨fuel2 - 1, by omega⟩
    rw [parseInsertColumnsLoop, parseInsertColumnsLoop]
    obtain ⟨t1, t2, h1, h2, hcase⟩ := B.current hc
    have p1 := Parser.peek_of (p := ⟨toks1, c⟩) h1
    have p2 := Parser.peek_of (p := ⟨toks2, c⟩) h2
    have a1 := Parser.advance_of (p := ⟨toks1, c⟩) h1
    have a2 := Parser.advance_of (p := ⟨toks2, c⟩) h2
    simp only [p1, p2, a1, a2, ok_bind]
    rcases hcase with ⟨rfl, hlt⟩ | ⟨hn1, hn2⟩
    · by_cases hI : t1.type = TokenType.IDENTIFIER
      · simp only [hI, if_true]
        rcases B.matchToken hlt TokenType.COMMA rfl with ⟨hlt2, e1, e2⟩ | ⟨e1, e2⟩
        · simp only [e1, e2, ok_bind, if_true]
          exact (ih f2 (c + 1 + 1) _ (by omega) hlt2).weaken (by omega) (by omega)
        · simp only [e1, e2, ok_bind, Bool.false_eq_true, if_false, pure, Except.pure]
          exact Outcome.ok _ (Nat.le_succ _) hlt
      · simp only [hI, if_false]
        exact Outcome.error _
    · simp only [consumable_ne hn1 (T := TokenType.IDENTIFIER) rfl,
        consumable_ne hn2 (T := TokenType.IDENTIFIER) rfl, if_false]
      exact Outcome.error _

theorem parseInsertValuesLoop_outcome {toks1 toks2 : List Token} {j : Nat}
    (B : Barrier toks1 toks2 j) :
    ∀ fuel1 fuel2 c values, fuel1 ≤ fuel2 → c ≤ j →
      Outcome toks1 toks2 j (5 * (j - c) + 2 ≤ fuel1) c
        (parseInsertValuesLoop fuel1 ⟨toks1, c⟩ values)
        (parseInsertValuesLoop fuel2 ⟨toks2, c⟩ values) := by
  intro fuel1
  induction fuel1 with
  | zero =>
    intro fuel2 c values _ _
    rw [parseInsertValuesLoop]
    exact Outcome.outOfFuel _ (by omega)
  | succ f1 ih =>
    intro fuel2 c values hf hc
    obtain ⟨f2, rfl⟩ : ∃ k, fuel2 = k + 1 := ⟨fuel2 - 1, by omega⟩
    rw [parseInsertValuesLoop, parseInsertValuesLoop]
    apply Outcome.bind_at ((expression_outcome B f1).2.2.2.2.2.2 f2 c (by omega) hc) (by omega)
    intro e c1 h1 h2
    simp only []
    rcases B.matchToken h2 TokenType.COMMA rfl with ⟨hlt2, e1, e2⟩ | ⟨e1, e2⟩
    · simp only [e1, e2, ok_bind, if_true]
      exact (ih f2 (c1 + 1) _ (by omega) hlt2).weaken (by omega) (by omega)
    · simp only [e1, e2, ok_bind, Bool.false_eq_true, if_false, pure, Except.pure]
      exact Outcome.ok _ h1 h2


theorem parseSelect_outcome {toks1 toks2 : List Token} {j : Nat} (B : Barrier toks1 toks2 j)
    (fuel1 fuel2 c : Nat) (hf : fuel1 ≤ fuel2) (hc : c ≤ j) :
    Outcome toks1 toks2 j (5 * (j - c) + 5 ≤ fuel1) c
      (Parser.parseSelect fuel1 ⟨toks1, c⟩) (Parser.parseSelect fuel2 ⟨toks2, c⟩) := by
  unfold Parser.parseSelect Parser.parseColumnList
  apply Outcome.bind_at (parseColumnListLoop_outcome B fuel1 fuel2 c [] hf hc) (by omega)
  intro columns c1 h1 h2
  simp only []
  rcases B.matchToken h2 TokenType.FROM rfl with ⟨hlt, e1, e2⟩ | ⟨e1, e2⟩
  · simp only [e1, e2, ok_bind, if_true]
    obtain ⟨t1, t2, g1, g2, hcase⟩ := B.current hlt
    have p1 := Parser.peek_of (p := ⟨toks1, c1 + 1⟩) g1
    have p2 := Parser.peek_of (p := ⟨toks2, c1 + 1⟩) g2
    have a1 := Parser.advance_of (p := ⟨toks1, c1 + 1⟩) g1
    have a2 := Parser.advance_of (p := ⟨toks2, c1 + 1⟩) g2
    simp only [p1, p2, a1, a2, ok_bind]
    rcases hcase with ⟨rfl, hlt2⟩ | ⟨hn1, hn2⟩
    · by_cases hI : t1.type = TokenType.IDENTIFIER
      · simp only [hI, if_true]
        rcases B.matchToken hlt2 TokenType.WHERE rfl with ⟨hlt3, e3, e4⟩ | ⟨e3, e4⟩
        · simp only [e3, e4, ok_bind, if_true]
          apply Outcome.bind_at
            ((expression_outcome B fuel1).1 fuel2 (c1 + 1 + 1 + 1) hf hlt3) (by omega)
          intro w c2 h3 h4
          simp only [pure, Except.pure]
          exact Outcome.ok _ (by omega) h4
        · simp only [e3, e4, ok_bind, Bool.false_eq_true, if_false, pure, Except.pure]
          exact Outcome.ok _ (by omega) hlt2
      · simp only [hI, if_false]
        exact Outcome.error _
    · simp only [consumable_ne hn1 (T := TokenType.IDENTIFIER) rfl,
        consumable_ne hn2 (T := TokenType.IDENTIFIER) rfl, if_false]
      exact Outcome.error _
  · simp only [e1, e2, ok_bind, Bool.false_eq_true, if_false]
    exact Outcome.error _

theorem parseInsert_outcome {toks1 toks2 : List Token} {j : Nat} (B : Barrier toks1 toks2 j)
    (fuel1 fuel2 c : Nat) (hf : fuel1 ≤ fuel2) (hc : c ≤ j) :
    Outcome toks1 toks2 j (5 * (j - c) + 5 ≤ fuel1) c
      (Parser.parseInsert fuel1 ⟨toks1, c⟩) (Parser.parseInsert fuel2 ⟨toks2, c⟩) := by
  unfold Parser.parseInsert
  rcases B.matchToken hc TokenType.INTO rfl with ⟨hlt, e1, e2⟩ | ⟨e1, e2⟩
  · simp only [e1, e2, ok_bind, if_true]
    obtain ⟨t1, t2, g1, g2, hcase⟩ := B.current hlt
    have p1 := Parser.peek_of (p := ⟨toks1, c + 1⟩) g1
    have p2 := Parser.peek_of (p := ⟨toks2, c + 1⟩) g2
    have a1 := Parser.advance_of (p := ⟨toks1, c + 1⟩) g1
    have a2 := Parser.advance_of (p := ⟨toks2, c + 1⟩) g2
    simp only [p1, p2, a1, a2, ok_bind]
    rcases hcase with ⟨rfl, hlt2⟩ | ⟨hn1, hn2⟩
    · by_cases hI : t1.type = TokenType.IDENTIFIER
      · simp only [hI, if_true]
        apply Outcome.bind_at (B.matchToken_outcome hlt2 TokenType.LEFT_PAREN rfl
          (5 * (j - c) + 5 ≤ fuel1)) id
        intro m c1 h1 h2
        simp only []
        have rest : ∀ (cols : List (List Char)) (c2 : Nat), c1 ≤ c2 → c2 ≤ j →
            Outcome toks1 toks2 j (5 * (j - c) + 5 ≤ fuel1) c
              (Parser.matchToken ⟨toks1, c2⟩ TokenType.VALUES >>= fun x =>
                if x.1 = true then
                  x.2.matchToken TokenType.LEFT_PAREN >>= fun x2 =>
                    if x2.1 = true then
                      parseInsertValuesLoop fuel1 x2.2 [] >>= fun v =>
                        v.2.matchToken TokenType.RIGHT_PAREN >>= fun x3 =>
                          if x3.1 = true then
                            Except.ok (Statement.InsertStatement t1.value cols v.1, x3.2)
                          else
                            Except.error
                              (ParseError.runtime_error "Expected closing parenthesis")
                    else
                      Except.error (ParseError.runtime_error "Expected opening parenthesis")
                else Except.error (ParseError.runtime_error "Expected VALUES"))
              (Parser.matchToken ⟨toks2, c2⟩ TokenType.VALUES >>= fun x =>
                if x.1 = true then
                  x.2.matchToken TokenType.LEFT_PAREN >>= fun x2 =>
                    if x2.1 = true then
                      parseInsertValuesLoop fuel2 x2.2 [] >>= fun v =>
                        v.2.matchToken TokenType.RIGHT_PAREN >>= fun x3 =>
                          if x3.1 = true then
                            Except.ok (Statement.InsertStatement t1.value cols v.1, x3.2)
                          else
                            Except.error
                              (ParseError.runtime_error "Expected closing parenthesis")
                    else
                      Except.error (ParseError.runtime_error "Expected opening parenthesis")
                else Except.error (ParseError.runtime_error "Expected VALUES")) := by
          intro cols c2 h3 h4
          rcases B.matchToken h4 TokenType.VALUES rfl with ⟨hlt3, e3, e4⟩ | ⟨e3, e4⟩
          · simp only [e3, e4, ok_bind, if_true]
            rcases B.matchToken hlt3 TokenType.LEFT_PAREN rfl with ⟨hlt4, e5, e6⟩ | ⟨e5, e6⟩
            · simp only [e5, e6, ok_bind, if_true]
              apply Outcome.bind_at
                (parseInsertValuesLoop_outcome B fuel1 fuel2 (c2 + 1 + 1) [] hf hlt4) (by omega)
              intro vals c3 h5 h6
              simp only []
              rcases B.matchToken h6 TokenType.RIGHT_PAREN rfl with ⟨hlt5, e7, e8⟩ | ⟨e7, e8⟩
              · simp only [e7, e8, ok_bind, if_true]
                exact Outcome.ok _ (by omega) hlt5
              · simp only [e7, e8, ok_bind, Bool.false_eq_true, if_false]
                exact Outcome.error _
            · simp only [e5, e6, ok_bind, Bool.false_eq_true, if_false]
              exact Outcome.error _
          · simp only [e3, e4, ok_bind, Bool.false_eq_true, if_false]
            exact Outcome.error _
        cases m with
        | true =>
          simp only [if_true]
          apply Outcome.bind_at
            (parseInsertColumnsLoop_outcome B fuel1 fuel2 c1 [] hf h2) (by omega)
          intro cols c2 h3 h4
          simp only []
          rcases B.matchToken h4 TokenType.RIGHT_PAREN rfl with ⟨hlt3, e3, e4⟩ | ⟨e3, e4⟩
          · simp only [e3, e4, ok_bind, if_true, pure, Except.pure]
            exact rest cols (c2 + 1) (by omega) hlt3
          · simp only [e3, e4, ok_bind, Bool.false_eq_true, if_false]
            exact Outcome.error _
        | false =>
          simp only [Bool.false_eq_true, if_false, pure, Except.pure, ok_bind]
          exact rest [] c1 (le_refl _) h2
      · simp only [hI, if_false]
        exact Outcome.error _
    · simp only [consumable_ne hn1 (T := TokenType.IDENTIFIER) rfl,
        consumable_ne hn2 (T := TokenType.IDENTIFIER) rfl, if_false]
      exact Outcome.error _
  · simp only [e1, e2, ok_bind, Bool.false_eq_true, if_false]
    exact Outcome.error _

theorem parse_outcome {toks1 toks2 : List Token} {j : Nat} (B : Barrier toks1 toks2 j)
    (fuel1 fuel2 c : Nat) (hf : fuel1 ≤ fuel2) (hc : c ≤ j) :
    Outcome toks1 toks2 j (5 * (j - c) + 5 ≤ fuel1) c
      (Parser.parse fuel1 ⟨toks1, c⟩) (Parser.parse fuel2 ⟨toks2, c⟩) := by
  unfold Parser.parse
  rcases B.matchToken hc TokenType.SELECT rfl with ⟨hlt, e1, e2⟩ | ⟨e1, e2⟩
  · simp only [e1, e2, ok_bind, if_true]
    exact (parseSelect_outcome B fuel1 fuel2 (c + 1) hf hlt).weaken (by omega) (Nat.le_succ _)
  · simp only [e1, e2, ok_bind, Bool.false_eq_true, if_false]
    rcases B.matchToken hc TokenType.INSERT rfl with ⟨hlt, e3, e4⟩ | ⟨e3, e4⟩
    · simp only [e3, e4, ok_bind, if_true]
      exact (parseInsert_outcome B fuel1 fuel2 (c + 1) hf hlt).weaken (by omega)
        (Nat.le_succ _)
    · simp only [e3, e4, ok_bind, Bool.false_eq_true, if_false]
      exact Outcome.error _


/-! ## Tokens that no production consumes -/

/-- A vector against itself, cut at a token that no production consumes. -/
theorem Barrier.same {toks : List Token} {j : Nat} {t : Token} (h : toks[j]? = some t)
    (hn : consumable t.type = false) : Barrier toks toks j :=
  ⟨fun _ _ => rfl, ⟨t, h, hn⟩, ⟨t, h, hn⟩⟩

/-- Two vectors with the same tokens `ts` in front, each followed by a token
that no production consumes. -/
theorem Barrier.append (ts : List Token) (x y : Token) (l1 l2 : List Token)
    (hx : consumable x.type = false) (hy : consumable y.type = false) :
    Barrier (ts ++ x :: l1) (ts ++ y :: l2) ts.length :=
  ⟨fun i hi => by
      rw [List.getElem?_append_left hi, List.getElem?_append_left hi],
    ⟨x, getElem?_append_cons_length ts x l1, hx⟩,
    ⟨y, getElem?_append_cons_length ts y l2, hy⟩⟩

/-- A vector with a token that no production consumes at index `i`, against
its first `i` tokens followed by another such token. -/
theorem Barrier.take {toks : List Token} {i : Nat} {t : Token} (x : Token)
    (h : toks[i]? = some t) (hn : consumable t.type = false)
    (hx : consumable x.type = false) : Barrier (toks.take i ++ [x]) toks i := by
  have hlt : i < toks.length := by
    by_contra hge
    rw [List.getElem?_eq_none (by omega)] at h
    exact Option.noConfusion h
  have hlen : (toks.take i).length = i := by
    rw [List.length_take]
    omega
  refine ⟨fun k hk => ?_, ⟨x, ?_, hx⟩, ⟨t, h, hn⟩⟩
  · rw [List.getElem?_append_left (by omega), List.getElem?_take_of_lt hk]
  · have := getElem?_append_cons_length (toks.take i) x []
    rw [hlen] at this
    exact this

/-- With fuel for the tokens before the barrier, and not less of it in the
second run, `parse` ends in both runs with the same syntax error or with the
same statement and cursor, at or before the barrier. -/
theorem parse_at_barrier {toks1 toks2 : List Token} {j : Nat} (B : Barrier toks1 toks2 j)
    (fuel1 fuel2 c : Nat) (hf : fuel1 ≤ fuel2) (hc : c ≤ j)
    (he : 5 * (j - c) + 5 ≤ fuel1) :
    (∃ what, Parser.parse fuel1 ⟨toks1, c⟩ = Except.error (ParseError.runtime_error what) ∧
      Parser.parse fuel2 ⟨toks2, c⟩ = Except.error (ParseError.runtime_error what)) ∨
    (∃ r c1, c ≤ c1 ∧ c1 ≤ j ∧ Parser.parse fuel1 ⟨toks1, c⟩ = Except.ok (r, ⟨toks1, c1⟩) ∧
      Parser.parse fuel2 ⟨toks2, c⟩ = Except.ok (r, ⟨toks2, c1⟩)) := by
  rcases parse_outcome B fuel1 fuel2 c hf hc with ⟨_, h2⟩ | h | h
  · exact absurd he h2
  · exact Or.inl h
  · exact Or.inr h

/-- The function `parse` on two vectors with a common barrier. -/
theorem parse_eq_of_barrier {toks1 toks2 : List Token} {j : Nat} (B : Barrier toks1 toks2 j)
    (h1 : j < toks1.length) (h2 : toks1.length ≤ toks2.length) :
    parse toks1 = parse toks2 ∧
    ((∃ what, parse toks1 = Except.error (ParseError.runtime_error what)) ∨
      ∃ r, parse toks1 = Except.ok r) ∧
    ∀ r p2, Parser.parse (parseFuel toks2) (Parser.new toks2) = Except.ok (r, p2) →
      p2.current ≤ j := by
  have hb := parse_at_barrier B (parseFuel toks1) (parseFuel toks2) 0
    (by unfold parseFuel; omega) (Nat.zero_le _) (by unfold parseFuel; omega)
  unfold parse Parser.new
  rcases hb with ⟨w, e1, e2⟩ | ⟨r, c1, _, hc1, e1, e2⟩
  · rw [e1, e2]
    refine ⟨rfl, Or.inl ⟨w, rfl⟩, ?_⟩
    intro r p2 h
    exact Except.noConfusion h
  · rw [e1, e2]
    refine ⟨rfl, Or.inr ⟨r, rfl⟩, ?_⟩
    intro r2 p2 h
    injection h with h
    injection h with _ h
    rw [← h]
    exact hc1

/-- C16 as stated fails: the text `SELECT * FROM t @` is tokenized to a
sequence with the INVALID token `@` before END_OF_FILE, and `parse` returns
the statement of `SELECT * FROM t` for it, no error. -/
theorem parse_trailing_invalid_accepted :
    tokenize "SELECT * FROM t @".toList =
      some [⟨TokenType.SELECT, "SELECT".toList, 0⟩, ⟨TokenType.STAR, ['*'], 7⟩,
        ⟨TokenType.FROM, "FROM".toList, 9⟩, ⟨TokenType.IDENTIFIER, ['t'], 14⟩,
        ⟨TokenType.INVALID, ['@'], 16⟩, ⟨TokenType.END_OF_FILE, [], 17⟩] ∧
    parse [⟨TokenType.SELECT, "SELECT".toList, 0⟩, ⟨TokenType.STAR, ['*'], 7⟩,
        ⟨TokenType.FROM, "FROM".toList, 9⟩, ⟨TokenType.IDENTIFIER, ['t'], 14⟩,
        ⟨TokenType.INVALID, ['@'], 16⟩, ⟨TokenType.END_OF_FILE, [], 17⟩] =
      Except.ok (Statement.SelectStatement [Expression.ColumnExpression ['*']] ['t'] none) :=
  ⟨by decide, by decide⟩

/-- C16, amended: an INVALID token matches no expected kind and is never
consumed, so `parse` treats it as the end of the input. For a token sequence
with an INVALID token at index `i`, `parse` returns what it returns for the
`i` tokens before it followed by END_OF_FILE, which is a syntax error or a
statement, and when it is a statement the cursor has stopped at or before
index `i`. -/
theorem parse_invalid_token (toks : List Token) (i : Nat) (t eof : Token)
    (ht : toks[i]? = some t) (hi : t.type = TokenType.INVALID)
    (he : eof.type = TokenType.END_OF_FILE) :
    parse toks = parse (toks.take i ++ [eof]) ∧
    ((∃ what, parse toks = Except.error (ParseError.runtime_error what)) ∨
      ∃ r, parse toks = Except.ok r) ∧
    ∀ r p1, Parser.parse (parseFuel toks) (Parser.new toks) = Except.ok (r, p1) →
      p1.current ≤ i := by
  have hlt : i < toks.length := by
    by_contra hge
    rw [List.getElem?_eq_none (by omega)] at ht
    exact Option.noConfusion ht
  have hlen : (toks.take i).length = i := by
    rw [List.length_take]
    omega
  have B : Barrier (toks.take i ++ [eof]) toks i :=
    Barrier.take eof ht (by rw [hi]; rfl) (by rw [he]; rfl)
  obtain ⟨h1, h2, h3⟩ := parse_eq_of_barrier B
    (by rw [List.length_append, hlen]; simp)
    (by rw [List.length_append, hlen]; simp; omega)
  exact ⟨h1.symm, h1 ▸ h2, h3⟩

/-- C16, amended, at the tokens of `SELECT @ FROM t`: the INVALID token stands
where a projection is expected and the parse fails as that of `SELECT` alone
does. -/
theorem parse_invalid_token_witness :
    parse [⟨TokenType.SELECT, "SELECT".toList, 0⟩, ⟨TokenType.INVALID, ['@'], 7⟩,
        ⟨TokenType.FROM, "FROM".toList, 9⟩, ⟨TokenType.IDENTIFIER, ['t'], 14⟩,
        ⟨TokenType.END_OF_FILE, [], 15⟩] =
      parse [⟨TokenType.SELECT, "SELECT".toList, 0⟩, ⟨TokenType.END_OF_FILE, [], 7⟩] ∧
    parse [⟨TokenType.SELECT, "SELECT".toList, 0⟩, ⟨TokenType.END_OF_FILE, [], 7⟩] =
      Except.error (ParseError.runtime_error "Expected column name or *") :=
  ⟨(parse_invalid_token [⟨TokenType.SELECT, "SELECT".toList, 0⟩,
      ⟨TokenType.INVALID, ['@'], 7⟩, ⟨TokenType.FROM, "FROM".toList, 9⟩,
      ⟨TokenType.IDENTIFIER, ['t'], 14⟩, ⟨TokenType.END_OF_FILE, [], 15⟩] 1
      ⟨TokenType.INVALID, ['@'], 7⟩ ⟨TokenType.END_OF_FILE, [], 7⟩ rfl rfl rfl).1,
    by decide⟩

/-- C18: for tokens `ts` whose parse, with END_OF_FILE after them, returns the
statement `r`, the parse with a SEMICOLON between them and END_OF_FILE returns
`r` too, and the cursor ends at or before the index `|ts|` of the SEMICOLON:
no production has consumed it. -/
theorem parse_trailing_semicolon (ts : List Token) (semi eof1 eof2 : Token)
    (hs : semi.type = TokenType.SEMICOLON) (he1 : eof1.type = TokenType.END_OF_FILE)
    (_he2 : eof2.type = TokenType.END_OF_FILE) (r : Statement)
    (h : parse (ts ++ [eof1]) = Except.ok r) :
    parse (ts ++ [semi, eof2]) = Except.ok r ∧
    ∀ r2 p2, Parser.parse (parseFuel (ts ++ [semi, eof2])) (Parser.new (ts ++ [semi, eof2])) =
        Except.ok (r2, p2) → p2.current ≤ ts.length := by
  have B : Barrier (ts ++ [eof1]) (ts ++ [semi, eof2]) ts.length :=
    Barrier.append ts eof1 semi [] [eof2] (by rw [he1]; rfl) (by rw [hs]; rfl)
  obtain ⟨h1, _, h3⟩ := parse_eq_of_barrier B (by simp) (by simp)
  exact ⟨h1 ▸ h, h3⟩

/-- C18, at the texts `SELECT * FROM t` and `SELECT * FROM t;`. -/
theorem parse_trailing_semicolon_witness :
    tokenize "SELECT * FROM t".toList =
      some ([⟨TokenType.SELECT, "SELECT".toList, 0⟩, ⟨TokenType.STAR, ['*'], 7⟩,
        ⟨TokenType.FROM, "FROM".toList, 9⟩, ⟨TokenType.IDENTIFIER, ['t'], 14⟩] ++
        [⟨TokenType.END_OF_FILE, [], 15⟩]) ∧
    tokenize "SELECT * FROM t;".toList =
      some ([⟨TokenType.SELECT, "SELECT".toList, 0⟩, ⟨TokenType.STAR, ['*'], 7⟩,
        ⟨TokenType.FROM, "FROM".toList, 9⟩, ⟨TokenType.IDENTIFIER, ['t'], 14⟩] ++
        [⟨TokenType.SEMICOLON, [';'], 15⟩, ⟨TokenType.END_OF_FILE, [], 16⟩]) ∧
    parse ([⟨TokenType.SELECT, "SELECT".toList, 0⟩, ⟨TokenType.STAR, ['*'], 7⟩,
        ⟨TokenType.FROM, "FROM".toList, 9⟩, ⟨TokenType.IDENTIFIER, ['t'], 14⟩] ++
        [⟨TokenType.SEMICOLON, [';'], 15⟩, ⟨TokenType.END_OF_FILE, [], 16⟩]) =
      Except.ok (Statement.SelectStatement [Expression.ColumnExpression ['*']] ['t'] none) :=
  ⟨by decide, by decide,
    (parse_trailing_semicolon
      [⟨TokenType.SELECT, "SELECT".toList, 0⟩, ⟨TokenType.STAR, ['*'], 7⟩,
        ⟨TokenType.FROM, "FROM".toList, 9⟩, ⟨TokenType.IDENTIFIER, ['t'], 14⟩]
      ⟨TokenType.SEMICOLON, [';'], 15⟩ ⟨TokenType.END_OF_FILE, [], 15⟩
      ⟨TokenType.END_OF_FILE, [], 16⟩ rfl rfl rfl
      (Statement.SelectStatement [Expression.ColumnExpression ['*']] ['t'] none)
      (by decide)).1⟩

/-- On a token sequence whose last token is END_OF_FILE, from any cursor at
or before that token and with any fuel, `parse` never reads outside the
vector, and a returned cursor has not moved back and stands at or before the
END_OF_FILE token. -/
theorem parse_in_bounds (toks : List Token) (eof : Token)
    (he : eof.type = TokenType.END_OF_FILE) :
    (∀ fuel c, c ≤ toks.length →
      Parser.parse fuel ⟨toks ++ [eof], c⟩ ≠ Except.error ParseError.outOfBounds ∧
      ∀ r p1, Parser.parse fuel ⟨toks ++ [eof], c⟩ = Except.ok (r, p1) →
        p1.tokens = toks ++ [eof] ∧ c ≤ p1.current ∧ p1.current ≤ toks.length ∧
          p1.current < (toks ++ [eof]).length) ∧
    parse (toks ++ [eof]) ≠ Except.error ParseError.outOfBounds := by
  have B : Barrier (toks ++ [eof]) (toks ++ [eof]) toks.length :=
    Barrier.append toks eof eof [] [] (by rw [he]; rfl) (by rw [he]; rfl)
  have main : ∀ fuel c, c ≤ toks.length →
      Parser.parse fuel ⟨toks ++ [eof], c⟩ ≠ Except.error ParseError.outOfBounds ∧
      ∀ r p1, Parser.parse fuel ⟨toks ++ [eof], c⟩ = Except.ok (r, p1) →
        p1.tokens = toks ++ [eof] ∧ c ≤ p1.current ∧ p1.current ≤ toks.length ∧
          p1.current < (toks ++ [eof]).length := by
    intro fuel c hc
    rcases parse_outcome B fuel fuel c (le_refl _) hc with ⟨e1, _⟩ | ⟨w, e1, _⟩ |
      ⟨r, c1, h1, h2, e1, _⟩
    · rw [e1]
      exact ⟨by decide, fun r p1 h => Except.noConfusion h⟩
    · rw [e1]
      exact ⟨fun h => by injection h with h; exact ParseError.noConfusion h,
        fun r p1 h => Except.noConfusion h⟩
    · rw [e1]
      refine ⟨fun h => Except.noConfusion h, ?_⟩
      intro r2 p1 h
      injection h with h
      injection h with _ h
      rw [← h]
      exact ⟨rfl, h1, h2, by simp; omega⟩
  refine ⟨main, ?_⟩
  intro h
  have hm := (main (parseFuel (toks ++ [eof])) 0 (Nat.zero_le _)).1
  unfold parse Parser.new at h
  cases hr : Parser.parse (parseFuel (toks ++ [eof])) ⟨toks ++ [eof], 0⟩ with
  | error e =>
    rw [hr] at h
    injection h with h
    rw [h] at hr
    exact hm hr
  | ok x =>
    rw [hr] at h
    exact Except.noConfusion h

/-- C19: on a token sequence whose last token is END_OF_FILE, from any cursor
at or before that token and with any fuel, `parse` never reads outside the
vector, and when it returns a statement the cursor has not moved back and
stands at or before the END_OF_FILE token, below the number of tokens. The
sequence `tokenize` returns for a text is such a sequence, so its parse never
reads outside the vector. -/
theorem parse_never_out_of_bounds (toks : List Token) (eof : Token)
    (he : eof.type = TokenType.END_OF_FILE) :
    (∀ fuel c, c ≤ toks.length →
      Parser.parse fuel ⟨toks ++ [eof], c⟩ ≠ Except.error ParseError.outOfBounds ∧
      ∀ r p1, Parser.parse fuel ⟨toks ++ [eof], c⟩ = Except.ok (r, p1) →
        p1.tokens = toks ++ [eof] ∧ c ≤ p1.current ∧ p1.current ≤ toks.length ∧
          p1.current < (toks ++ [eof]).length) ∧
    parse (toks ++ [eof]) ≠ Except.error ParseError.outOfBounds ∧
    ∀ (s : List Char) (ts : List Token), tokenize s = some ts →
      parse ts ≠ Except.error ParseError.outOfBounds := by
  refine ⟨(parse_in_bounds toks eof he).1, (parse_in_bounds toks eof he).2, ?_⟩
  intro s ts h
  obtain ⟨pre, h1, _⟩ := tokenize_spec s
  rw [h1] at h
  injection h with h
  rw [← h]
  exact (parse_in_bounds pre _ rfl).2

/-- C19, at the tokens of `SELECT * FROM t WHERE`: the parse reads the
END_OF_FILE token where an expression is expected and fails there. -/
theorem parse_never_out_of_bounds_witness :
    parse ([⟨TokenType.SELECT, "SELECT".toList, 0⟩, ⟨TokenType.STAR, ['*'], 7⟩,
        ⟨TokenType.FROM, "FROM".toList, 9⟩, ⟨TokenType.IDENTIFIER, ['t'], 14⟩,
        ⟨TokenType.WHERE, "WHERE".toList, 16⟩] ++ [⟨TokenType.END_OF_FILE, [], 21⟩]) ≠
      Except.error ParseError.outOfBounds :=
  (parse_never_out_of_bounds
    [⟨TokenType.SELECT, "SELECT".toList, 0⟩, ⟨TokenType.STAR, ['*'], 7⟩,
      ⟨TokenType.FROM, "FROM".toList, 9⟩, ⟨TokenType.IDENTIFIER, ['t'], 14⟩,
      ⟨TokenType.WHERE, "WHERE".toList, 16⟩] ⟨TokenType.END_OF_FILE, [], 21⟩ rfl).2.1

/-- A run with enough fuel ends with a value and a cursor that has not moved
back, or with a syntax error, and more fuel does not change it. -/
theorem Outcome.total {α : Type} {toks : List Token} {j : Nat} {E : Prop} {c : Nat}
    {r1 r2 : Except ParseError (α × Parser)} (h : Outcome toks toks j E c r1 r2) (hE : E) :
    ((∃ a c1, c ≤ c1 ∧ c1 ≤ j ∧ r1 = Except.ok (a, ⟨toks, c1⟩)) ∨
      ∃ what, r1 = Except.error (ParseError.runtime_error what)) ∧ r2 = r1 := by
  rcases h with ⟨_, h2⟩ | ⟨w, e1, e2⟩ | ⟨a, c1, h1, h2, e1, e2⟩
  · exact absurd hE h2
  · exact ⟨Or.inr ⟨w, e1⟩, by rw [e1, e2]⟩
  · exact ⟨Or.inl ⟨a, c1, h1, h2, e1⟩, by rw [e1, e2]⟩

/-- C23: on a token sequence that ends with END_OF_FILE `parse` returns a
statement or a syntax error. From any cursor `c` at or before the END_OF_FILE
token, five units of fuel for each token left before END_OF_FILE, and five
more, are enough for `parse` and for `parseExpression` to end with a value or
a syntax error; the cursor returned is not before `c`, and any larger amount
of fuel gives the same result. -/
theorem parse_terminates (toks : List Token) (eof : Token)
    (he : eof.type = TokenType.END_OF_FILE) :
    ((∃ r, parse (toks ++ [eof]) = Except.ok r) ∨
      ∃ what, parse (toks ++ [eof]) = Except.error (ParseError.runtime_error what)) ∧
    (∀ fuel c, c ≤ toks.length → 5 * (toks.length - c) + 5 ≤ fuel →
      ((∃ r c1, c ≤ c1 ∧ c1 ≤ toks.length ∧
          Parser.parse fuel ⟨toks ++ [eof], c⟩ = Except.ok (r, ⟨toks ++ [eof], c1⟩)) ∨
        ∃ what, Parser.parse fuel ⟨toks ++ [eof], c⟩ =
          Except.error (ParseError.runtime_error what)) ∧
      ∀ fuel2, fuel ≤ fuel2 →
        Parser.parse fuel2 ⟨toks ++ [eof], c⟩ = Parser.parse fuel ⟨toks ++ [eof], c⟩) ∧
    (∀ fuel c, c ≤ toks.length → 5 * (toks.length - c) + 5 ≤ fuel →
      ((∃ e c1, c ≤ c1 ∧ c1 ≤ toks.length ∧
          parseExpression fuel ⟨toks ++ [eof], c⟩ = Except.ok (e, ⟨toks ++ [eof], c1⟩)) ∨
        ∃ what, parseExpression fuel ⟨toks ++ [eof], c⟩ =
          Except.error (ParseError.runtime_error what)) ∧
      ∀ fuel2, fuel ≤ fuel2 →
        parseExpression fuel2 ⟨toks ++ [eof], c⟩ =
          parseExpression fuel ⟨toks ++ [eof], c⟩) := by
  have B : Barrier (toks ++ [eof]) (toks ++ [eof]) toks.length :=
    Barrier.append toks eof eof [] [] (by rw [he]; rfl) (by rw [he]; rfl)
  refine ⟨?_, ?_, ?_⟩
  · have h := (parse_outcome B (parseFuel (toks ++ [eof])) (parseFuel (toks ++ [eof])) 0
      (le_refl _) (Nat.zero_le _)).total (by unfold parseFuel; simp; omega)
    unfold parse Parser.new
    rcases h.1 with ⟨r, c1, _, _, e⟩ | ⟨w, e⟩
    · exact Or.inl ⟨r, by rw [e]; rfl⟩
    · exact Or.inr ⟨w, by rw [e]; rfl⟩
  · intro fuel c hc hfuel
    exact ⟨((parse_outcome B fuel fuel c (le_refl _) hc).total hfuel).1,
      fun fuel2 h2 => ((parse_outcome B fuel fuel2 c h2 hc).total hfuel).2⟩
  · intro fuel c hc hfuel
    exact ⟨(((expression_outcome B fuel).1 fuel c (le_refl _) hc).total hfuel).1,
      fun fuel2 h2 => (((expression_outcome B fuel).1 fuel2 c h2 hc).total hfuel).2⟩

/-- C23, at the tokens of `SELECT a FROM t WHERE ( ( a`: the parse ends, with
the syntax error of the missing closing parenthesis. -/
theorem parse_terminates_witness :
    ((∃ r, parse ([⟨TokenType.SELECT, "SELECT".toList, 0⟩, ⟨TokenType.IDENTIFIER, ['a'], 7⟩,
        ⟨TokenType.FROM, "FROM".toList, 9⟩, ⟨TokenType.IDENTIFIER, ['t'], 14⟩,
        ⟨TokenType.WHERE, "WHERE".toList, 16⟩, ⟨TokenType.LEFT_PAREN, ['('], 22⟩,
        ⟨TokenType.LEFT_PAREN, ['('], 24⟩, ⟨TokenType.IDENTIFIER, ['a'], 26⟩] ++
        [⟨TokenType.END_OF_FILE, [], 27⟩]) = Except.ok r) ∨
      ∃ what, parse ([⟨TokenType.SELECT, "SELECT".toList, 0⟩,
        ⟨TokenType.IDENTIFIER, ['a'], 7⟩,
        ⟨TokenType.FROM, "FROM".toList, 9⟩, ⟨TokenType.IDENTIFIER, ['t'], 14⟩,
        ⟨TokenType.WHERE, "WHERE".toList, 16⟩, ⟨TokenType.LEFT_PAREN, ['('], 22⟩,
        ⟨TokenType.LEFT_PAREN, ['('], 24⟩, ⟨TokenType.IDENTIFIER, ['a'], 26⟩] ++
        [⟨TokenType.END_OF_FILE, [], 27⟩]) = Except.error (ParseError.runtime_error what)) ∧
    parse ([⟨TokenType.SELECT, "SELECT".toList, 0⟩, ⟨TokenType.IDENTIFIER, ['a'], 7⟩,
        ⟨TokenType.FROM, "FROM".toList, 9⟩, ⟨TokenType.IDENTIFIER, ['t'], 14⟩,
        ⟨TokenType.WHERE, "WHERE".toList, 16⟩, ⟨TokenType.LEFT_PAREN, ['('], 22⟩,
        ⟨TokenType.LEFT_PAREN, ['('], 24⟩, ⟨TokenType.IDENTIFIER, ['a'], 26⟩] ++
        [⟨TokenType.END_OF_FILE, [], 27⟩]) =
      Except.error (ParseError.runtime_error "Expected closing parenthesis") :=
  ⟨(parse_terminates
    [⟨TokenType.SELECT, "SELECT".toList, 0⟩, ⟨TokenType.IDENTIFIER, ['a'], 7⟩,
      ⟨TokenType.FROM, "FROM".toList, 9⟩, ⟨TokenType.IDENTIFIER, ['t'], 14⟩,
      ⟨TokenType.WHERE, "WHERE".toList, 16⟩, ⟨TokenType.LEFT_PAREN, ['('], 22⟩,
      ⟨TokenType.LEFT_PAREN, ['('], 24⟩, ⟨TokenType.IDENTIFIER, ['a'], 26⟩]
    ⟨TokenType.END_OF_FILE, [], 27⟩ rfl).1, by decide⟩

/-! ## The operators of the trees that the parser builds -/

theorem Returns.andThen {β γ : Type} {P : β → Prop} {Q : γ → Prop} {m : Except ParseError β}
    {f : β → Except ParseError γ} (hm : Returns P m) (hf : ∀ b, P b → Returns Q (f b)) :
    Returns Q (m >>= f) := by
  intro c h
  cases m with
  | error e => exact Except.noConfusion h
  | ok b => exact hf b (hm b rfl) c h

theorem Returns.value {β : Type} {P : β → Prop} {b : β} (h : P b) :
    Returns P (Except.ok b : Except ParseError β) := by
  intro c hc
  injection hc with hc
  rw [← hc]
  exact h

theorem Returns.failure {β : Type} {P : β → Prop} (e : ParseError) :
    Returns P (Except.error e : Except ParseError β) :=
  fun _ h => Except.noConfusion h

theorem Returns.any {β : Type} (m : Except ParseError β) : Returns (fun _ => True) m :=
  fun _ _ => trivial

/-- The trees that the functions of the expression grammar return have no
arithmetic operator. -/
theorem expression_noArithmetic :
    ∀ fuel : Nat,
      (∀ p, Returns (fun x => noArithmetic x.1 = true) (parseExpression fuel p)) ∧
      (∀ p, Returns (fun x => noArithmetic x.1 = true) (parseOr fuel p)) ∧
      (∀ p left, noArithmetic left = true →
        Returns (fun x => noArithmetic x.1 = true) (parseOrLoop fuel p left)) ∧
      (∀ p, Returns (fun x => noArithmetic x.1 = true) (parseAnd fuel p)) ∧
      (∀ p left, noArithmetic left = true →
        Returns (fun x => noArithmetic x.1 = true) (parseAndLoop fuel p left)) ∧
      (∀ p, Returns (fun x => noArithmetic x.1 = true) (parseComparison fuel p)) ∧
      (∀ p, Returns (fun x => noArithmetic x.1 = true) (parsePrimary fuel p)) := by
  intro fuel
  induction fuel with
  | zero =>
    refine ⟨?_, ?_, ?_, ?_, ?_, ?_, ?_⟩
    · intro p
      rw [parseExpression]
      exact Returns.failure _
    · intro p
      rw [parseOr]
      exact Returns.failure _
    · intro p left _
      rw [parseOrLoop]
      exact Returns.failure _
    · intro p
      rw [parseAnd]
      exact Returns.failure _
    · intro p left _
      rw [parseAndLoop]
      exact Returns.failure _
    · intro p
      rw [parseComparison]
      exact Returns.failure _
    · intro p
      rw [parsePrimary]
      exact Returns.failure _
  | succ f ih =>
    obtain ⟨ihE, ihO, ihOL, ihA, ihAL, ihC, ihP⟩ := ih
    refine ⟨?_, ?_, ?_, ?_, ?_, ?_, ?_⟩
    · intro p
      rw [parseExpression]
      exact ihO p
    · intro p
      rw [parseOr]
      refine Returns.andThen (ihA p) ?_
      rintro ⟨a, p1⟩ ha
      exact ihOL p1 a ha
    · intro p left hl
      rw [parseOrLoop]
      refine Returns.andThen (Returns.any _) ?_
      rintro ⟨m, p1⟩ _
      cases m with
      | true =>
        simp only [if_true]
        refine Returns.andThen (ihA p1) ?_
        rintro ⟨b, p2⟩ hb
        refine ihOL p2 _ ?_
        simp only [noArithmetic, isComparisonOrLogical, isArithmetic, hl, Bool.and_self,
          Bool.not_false]
        exact hb
      | false =>
        simp only [Bool.false_eq_true, if_false]
        exact Returns.value hl
    · intro p
      rw [parseAnd]
      refine Returns.andThen (ihC p) ?_
      rintro ⟨a, p1⟩ ha
      exact ihAL p1 a ha
    · intro p left hl
      rw [parseAndLoop]
      refine Returns.andThen (Returns.any _) ?_
      rintro ⟨m, p1⟩ _
      cases m with
      | true =>
        simp only [if_true]
        refine Returns.andThen (ihC p1) ?_
        rintro ⟨b, p2⟩ hb
        refine ihAL p2 _ ?_
        simp only [noArithmetic, isComparisonOrLogical, isArithmetic, hl, Bool.and_self,
          Bool.not_false]
        exact hb
      | false =>
        simp only [Bool.false_eq_true, if_false]
        exact Returns.value hl
    · intro p
      rw [parseComparison]
      refine Returns.andThen (ihP p) ?_
      rintro ⟨a, p1⟩ ha
      have right : ∀ (o : Operator) (q : Parser), isComparisonOrLogical o = true →
          isArithmetic o = false →
          Returns (fun x => noArithmetic x.1 = true)
            (parsePrimary f q >>= fun x =>
              Except.ok (Expression.BinaryExpression a x.1 o, x.2)) := by
        intro o q h1 h2
        refine Returns.andThen (ihP q) ?_
        rintro ⟨b, p2⟩ hb
        refine Returns.value ?_
        simp only [noArithmetic, h1, h2, ha, hb, Bool.not_false, Bool.and_self]
      simp only []
      refine Returns.andThen (Returns.any _) ?_
      rintro ⟨m, p2⟩ _
      cases m
      swap
      · simp only [if_true]
        exact right _ _ rfl rfl
      simp only [Bool.false_eq_true, if_false]
      refine Returns.andThen (Returns.any _) ?_
      rintro ⟨m, p2⟩ _
      cases m
      swap
      · simp only [if_true]
        exact right _ _ rfl rfl
      simp only [Bool.false_eq_true, if_false]
      refine Returns.andThen (Returns.any _) ?_
      rintro ⟨m, p2⟩ _
      cases m
      swap
      · simp only [if_true]
        exact right _ _ rfl rfl
      simp only [Bool.false_eq_true, if_false]
      refine Returns.andThen (Returns.any _) ?_
      rintro ⟨m, p2⟩ _
      cases m
      swap
      · simp only [if_true]
        exact right _ _ rfl rfl
      simp only [Bool.false_eq_true, if_false]
      refine Returns.andThen (Returns.any _) ?_
      rintro ⟨m, p2⟩ _
      cases m
      swap
      · simp only [if_true]
        exact right _ _ rfl rfl
      simp only [Bool.false_eq_true, if_false]
      refine Returns.andThen (Returns.any _) ?_
      rintro ⟨m, p2⟩ _
      cases m
      swap
      · simp only [if_true]
        exact right _ _ rfl rfl
      simp only [Bool.false_eq_true, if_false]
      exact Returns.value ha
    · intro p
      rw [parsePrimary]
      refine Returns.andThen (Returns.any _) ?_
      intro t _
      by_cases hN : t.type = TokenType.NUMBER
      · simp only [hN, if_true]
        refine Returns.andThen (Returns.any _) ?_
        rintro ⟨t2, p2⟩ _
        exact Returns.value rfl
      simp only [hN, if_false]
      refine Returns.andThen (Returns.any _) ?_
      intro t _
      by_cases hS : t.type = TokenType.STRING
      · simp only [hS, if_true]
        refine Returns.andThen (Returns.any _) ?_
        rintro ⟨t2, p2⟩ _
        exact Returns.value rfl
      simp only [hS, if_false]
      refine Returns.andThen (Returns.any _) ?_
      intro t _
      by_cases hI : t.type = TokenType.IDENTIFIER
      · simp only [hI, if_true]
        refine Returns.andThen (Returns.any _) ?_
        rintro ⟨t2, p2⟩ _
        exact Returns.value rfl
      simp only [hI, if_false]
      refine Returns.andThen (Returns.any _) ?_
      rintro ⟨m, p2⟩ _
      cases m with
      | true =>
        simp only [if_true]
        refine Returns.andThen (ihE p2) ?_
        rintro ⟨e, p3⟩ he
        simp only []
        refine Returns.andThen (Returns.any _) ?_
        rintro ⟨m, p4⟩ _
        cases m with
        | true =>
          simp only [if_true]
          exact Returns.value he
        | false =>
          simp only [Bool.false_eq_true, if_false]
          exact Returns.failure _
      | false =>
        simp only [Bool.false_eq_true, if_false]
        exact Returns.failure _

theorem all_noArithmetic_append {l : List Expression} {e : Expression}
    (hl : l.all noArithmetic = true) (he : noArithmetic e = true) :
    (l ++ [e]).all noArithmetic = true := by
  rw [List.all_append, hl, List.all_cons, he]
  rfl

theorem parseColumnListLoop_noArithmetic :
    ∀ fuel p columns, columns.all noArithmetic = true →
      Returns (fun x => x.1.all noArithmetic = true) (parseColumnListLoop fuel p columns) := by
  intro fuel
  induction fuel with
  | zero =>
    intro p columns _
    rw [parseColumnListLoop]
    exact Returns.failure _
  | succ f ih =>
    intro p columns hc
    rw [parseColumnListLoop]
    have next : ∀ (cols : List Expression) (q : Parser), cols.all noArithmetic = true →
        Returns (fun x => x.1.all noArithmetic = true)
          (Parser.matchToken q TokenType.COMMA >>= fun x =>
            if x.1 = true then parseColumnListLoop f x.2 cols else Except.ok (cols, x.2)) := by
      intro cols q h
      refine Returns.andThen (Returns.any _) ?_
      rintro ⟨m, p1⟩ _
      cases m with
      | true =>
        simp only [if_true]
        exact ih p1 cols h
      | false =>
        simp only [Bool.false_eq_true, if_false]
        exact Returns.value h
    refine Returns.andThen (Returns.any _) ?_
    intro t _
    refine Returns.andThen (Returns.any _) ?_
    intro t1 _
    by_cases hS : t.type = TokenType.STAR
    · simp only [hS, if_true]
      refine Returns.andThen (Returns.any _) ?_
      rintro ⟨t2, p2⟩ _
      simp only [pure, Except.pure, ok_bind]
      exact next (columns ++ [Expression.ColumnExpression ['*']]) _
        (all_noArithmetic_append hc rfl)
    simp only [hS, if_false]
    by_cases hI : t1.type = TokenType.IDENTIFIER
    · simp only [hI, if_true]
      refine Returns.andThen (Returns.any _) ?_
      rintro ⟨t2, p2⟩ _
      simp only [pure, Except.pure, ok_bind]
      exact next (columns ++ [Expression.ColumnExpression t2.value]) _
        (all_noArithmetic_append hc rfl)
    simp only [hI, if_false]
    exact Returns.failure _

theorem parseInsertValuesLoop_noArithmetic :
    ∀ fuel p values, values.all noArithmetic = true →
      Returns (fun x => x.1.all noArithmetic = true) (parseInsertValuesLoop fuel p values) := by
  intro fuel
  induction fuel with
  | zero =>
    intro p values _
    rw [parseInsertValuesLoop]
    exact Returns.failure _
  | succ f ih =>
    intro p values hv
    rw [parseInsertValuesLoop]
    refine Returns.andThen ((expression_noArithmetic f).2.2.2.2.2.2 p) ?_
    rintro ⟨e, p1⟩ he
    simp only []
    refine Returns.andThen (Returns.any _) ?_
    rintro ⟨m, p2⟩ _
    cases m with
    | true =>
      simp only [if_true]
      exact ih p2 _ (all_noArithmetic_append hv he)
    | false =>
      simp only [Bool.false_eq_true, if_false]
      exact Returns.value (all_noArithmetic_append hv he)

theorem parseSelect_noArithmetic (fuel : Nat) (p : Parser) :
    Returns (fun x => statementNoArithmetic x.1 = true) (Parser.parseSelect fuel p) := by
  unfold Parser.parseSelect Parser.parseColumnList
  refine Returns.andThen (parseColumnListLoop_noArithmetic fuel p [] rfl) ?_
  rintro ⟨columns, p1⟩ hc
  simp only []
  refine Returns.andThen (Returns.any _) ?_
  rintro ⟨m, p2⟩ _
  cases m with
  | true =>
    simp only [if_true]
    refine Returns.andThen (Returns.any _) ?_
    intro t _
    by_cases hI : t.type = TokenType.IDENTIFIER
    · simp only [hI, if_true]
      refine Returns.andThen (Returns.any _) ?_
      rintro ⟨t2, p3⟩ _
      simp only []
      refine Returns.andThen (Returns.any _) ?_
      rintro ⟨m, p4⟩ _
      cases m with
      | true =>
        simp only [if_true]
        refine Returns.andThen ((expression_noArithmetic fuel).1 p4) ?_
        rintro ⟨w, p5⟩ hw
        refine Returns.value ?_
        simp only [statementNoArithmetic, Bool.and_eq_true]
        exact ⟨hc, hw⟩
      | false =>
        simp only [Bool.false_eq_true, if_false]
        refine Returns.value ?_
        simp only [statementNoArithmetic, Bool.and_eq_true]
        exact ⟨hc, trivial⟩
    · simp only [hI, if_false]
      exact Returns.failure _
  | false =>
    simp only [Bool.false_eq_true, if_false]
    exact Returns.failure _

theorem parseInsert_noArithmetic (fuel : Nat) (p : Parser) :
    Returns (fun x => statementNoArithmetic x.1 = true) (Parser.parseInsert fuel p) := by
  unfold Parser.parseInsert
  refine Returns.andThen (Returns.any _) ?_
  rintro ⟨m, p1⟩ _
  cases m with
  | true =>
    simp only [if_true]
    refine Returns.andThen (Returns.any _) ?_
    intro t _
    by_cases hI : t.type = TokenType.IDENTIFIER
    · simp only [hI, if_true]
      refine Returns.andThen (Returns.any _) ?_
      rintro ⟨t2, p2⟩ _
      simp only []
      refine Returns.andThen (Returns.any _) ?_
      rintro ⟨m, p3⟩ _
      have rest : ∀ (cols : List (List Char)) (q : Parser),
          Returns (fun x => statementNoArithmetic x.1 = true)
            (Parser.matchToken q TokenType.VALUES >>= fun x =>
              if x.1 = true then
                x.2.matchToken TokenType.LEFT_PAREN >>= fun x2 =>
                  if x2.1 = true then
                    parseInsertValuesLoop fuel x2.2 [] >>= fun v =>
                      v.2.matchToken TokenType.RIGHT_PAREN >>= fun x3 =>
                        if x3.1 = true then
                          Except.ok (Statement.InsertStatement t2.value cols v.1, x3.2)
                        else
                          Except.error
                            (ParseError.runtime_error "Expected closing parenthesis")
                  else
                    Except.error (ParseError.runtime_error "Expected opening parenthesis")
              else Except.error (ParseError.runtime_error "Expected VALUES")) := by
        intro cols q
        refine Returns.andThen (Returns.any _) ?_
        rintro ⟨m, q1⟩ _
        cases m with
        | true =>
          simp only [if_true]
          refine Returns.andThen (Returns.any _) ?_
          rintro ⟨m, q2⟩ _
          cases m with
          | true =>
            simp only [if_true]
            refine Returns.andThen (parseInsertValuesLoop_noArithmetic fuel q2 [] rfl) ?_
            rintro ⟨v, q3⟩ hv
            refine Returns.andThen (Returns.any _) ?_
            rintro ⟨m, q4⟩ _
            cases m with
            | true =>
              simp only [if_true]
              exact Returns.value hv
            | false =>
              simp only [Bool.false_eq_true, if_false]
              exact Returns.failure _
          | false =>
            simp only [Bool.false_eq_true, if_false]
            exact Returns.failure _
        | false =>
          simp only [Bool.false_eq_true, if_false]
          exact Returns.failure _
      cases m with
      | true =>
        simp only [if_true]
        refine Returns.andThen (Returns.any _) ?_
        rintro ⟨cols, p4⟩ _
        simp only []
        refine Returns.andThen (Returns.any _) ?_
        rintro ⟨m, p5⟩ _
        cases m with
        | true =>
          simp only [if_true, pure, Except.pure, ok_bind]
          exact rest _ _
        | false =>
          simp only [Bool.false_eq_true, if_false]
          exact Returns.failure _
      | false =>
        simp only [Bool.false_eq_true, if_false, pure, Except.pure, ok_bind]
        exact rest _ _
    · simp only [hI, if_false]
      exact Returns.failure _
  | false =>
    simp only [Bool.false_eq_true, if_false]
    exact Returns.failure _

theorem parse_noArithmetic (fuel : Nat) (p : Parser) :
    Returns (fun x => statementNoArithmetic x.1 = true) (Parser.parse fuel p) := by
  unfold Parser.parse
  refine Returns.andThen (Returns.any _) ?_
  rintro ⟨m, p1⟩ _
  cases m with
  | true =>
    simp only [if_true]
    exact parseSelect_noArithmetic fuel p1
  | false =>
    simp only [Bool.false_eq_true, if_false]
    refine Returns.andThen (Returns.any _) ?_
    rintro ⟨m, p2⟩ _
    cases m with
    | true =>
      simp only [if_true]
      exact parseInsert_noArithmetic fuel p2
    | false =>
      simp only [Bool.false_eq_true, if_false]
      exact Returns.failure _

/-- C22: in the statement that `parse` returns for a token sequence, every
BinaryExpression of every tree, the projections and the predicate of a SELECT
and the values of an INSERT, at any depth, has one of the six comparison
operators, AND or OR, and none has PLUS, MINUS, MULTIPLY or DIVIDE. -/
theorem parse_no_arithmetic (toks : List Token) (r : Statement)
    (h : parse toks = Except.ok r) : statementNoArithmetic r = true := by
  unfold parse at h
  cases hr : Parser.parse (parseFuel toks) (Parser.new toks) with
  | error e =>
    rw [hr] at h
    exact Except.noConfusion h
  | ok x =>
    rw [hr] at h
    injection h with h
    rw [← h]
    exact parse_noArithmetic _ _ x hr

/-- C22, at the tokens of `SELECT x FROM t WHERE a = 1 AND ( b < 2 OR c )`. -/
theorem parse_no_arithmetic_witness :
    statementNoArithmetic
      (Statement.SelectStatement [Expression.ColumnExpression ['x']] ['t']
        (some (Expression.BinaryExpression
          (Expression.BinaryExpression (Expression.ColumnExpression ['a'])
            (Expression.LiteralExpression ['1'] LiteralType.NUMBER) Operator.EQUALS)
          (Expression.BinaryExpression
            (Expression.BinaryExpression (Expression.ColumnExpression ['b'])
              (Expression.LiteralExpression ['2'] LiteralType.NUMBER) Operator.LESS_THAN)
            (Expression.ColumnExpression ['c']) Operator.OR)
          Operator.AND))) = true :=
  parse_no_arithmetic
    [⟨TokenType.SELECT, "SELECT".toList, 0⟩, ⟨TokenType.IDENTIFIER, ['x'], 7⟩,
      ⟨TokenType.FROM, "FROM".toList, 9⟩, ⟨TokenType.IDENTIFIER, ['t'], 14⟩,
      ⟨TokenType.WHERE, "WHERE".toList, 16⟩, ⟨TokenType.IDENTIFIER, ['a'], 22⟩,
      ⟨TokenType.EQUALS, ['='], 24⟩, ⟨TokenType.NUMBER, ['1'], 26⟩,
      ⟨TokenType.AND, "AND".toList, 28⟩, ⟨TokenType.LEFT_PAREN, ['('], 32⟩,
      ⟨TokenType.IDENTIFIER, ['b'], 34⟩, ⟨TokenType.LESS_THAN, ['<'], 36⟩,
      ⟨TokenType.NUMBER, ['2'], 38⟩, ⟨TokenType.OR, "OR".toList, 40⟩,
      ⟨TokenType.IDENTIFIER, ['c'], 43⟩, ⟨TokenType.RIGHT_PAREN, [')'], 45⟩,
      ⟨TokenType.END_OF_FILE, [], 46⟩] _ (by decide)

end SqlParser
